import Mathlib

/-!
Verification development for the AgentPages sanitizing render pipeline
(`src/AgentPages.js`, library header version 0.5.0).

The JavaScript source is shallowly embedded: JSON values carried by the
page description become the inductive type `JVal`; DOM output trees become
the inductive type `DNode`; the primitive sanitizers, the section
normalizer, the two streaming decoders, the form validation engine and the
action gate are translated function by function.  Browser primitives that
the source calls (`new URL`, `RegExp`, `document.createElement`,
`textContent`) are modelled explicitly where they matter and are noted at
their definitions.
-/

namespace AgentPages

/-! ## JSON data model

A caller-supplied page description is JSON.  `JVal` models the JavaScript
values the pipeline manipulates: `jnum` covers the integer numerals the
wire format carries (fractional numbers are not needed by any claim).
Objects are association lists in insertion order, mirroring JavaScript
object key order. -/

inductive JVal where
  | jnull : JVal
  | jbool : Bool → JVal
  | jnum : Int → JVal
  | jstr : String → JVal
  | jarr : List JVal → JVal
  | jobj : List (String × JVal) → JVal
deriving Repr

/-- Object field lookup; `none` models JavaScript `undefined`. -/
def jget : List (String × JVal) → String → Option JVal
  | [], _ => none
  | (k, v) :: rest, key => if k = key then some v else jget rest key

/-- Field lookup on an arbitrary value: property access on a non-object
yields `undefined`. -/
def jgetV : JVal → String → Option JVal
  | .jobj kvs, key => jget kvs key
  | _, _ => none

/-- Replace the value stored at `key` (first occurrence, order preserved),
mirroring assignment to an existing key of a JavaScript object.  If the
key is absent the field is appended, mirroring assignment to a new key. -/
def jset : List (String × JVal) → String → JVal → List (String × JVal)
  | [], key, v => [(key, v)]
  | (k, w) :: rest, key, v =>
      if k = key then (k, v) :: rest else (k, w) :: jset rest key v

/-- JavaScript truthiness of a possibly-undefined value. -/
def jsTruthy : Option JVal → Bool
  | none => false
  | some .jnull => false
  | some (.jbool b) => b
  | some (.jnum n) => n ≠ 0
  | some (.jstr s) => s ≠ ""
  | some (.jarr _) => true
  | some (.jobj _) => true

/-- JavaScript `a || b` on JSON values (`b` when `a` is falsy). -/
def jsOr (a : Option JVal) (b : JVal) : JVal :=
  if jsTruthy a then a.getD b else b

/-! ## Safety limits (source `SAFETY_LIMITS`, lines 151-163) -/

def maxSections : Nat := 60
def maxDepth : Nat := 5
def maxItemsPerList : Nat := 120
def maxRowsPerTable : Nat := 200
def maxFaqItems : Nat := 80
def maxTabs : Nat := 20
def maxFields : Nat := 60
def maxOptionsPerSelect : Nat := 200
def maxCharsPerField : Nat := 8000
def maxActionName : Nat := 120
def maxUrlLength : Nat := 2048

/-! ## Primitive sanitizers (source lines 165-215) -/

/-- Strip whitespace from both ends of a character list. -/
def trimChars (cs : List Char) : List Char :=
  ((cs.dropWhile Char.isWhitespace).reverse.dropWhile Char.isWhitespace).reverse

/-- JavaScript `String.prototype.trim` (strip whitespace at both ends), as
used by `sanitizeActionName`, `safeId` and `sanitizeUrl`. -/
def jsTrim (s : String) : String := String.mk (trimChars s.data)

/-- `String.prototype.slice(0, n)`. -/
def strTake (s : String) (n : Nat) : String := String.mk (s.data.take n)

/-- Character-wise replacement (`String.prototype.replace` with a
single-character class and replacement). -/
def strMap (f : Char → Char) (s : String) : String := String.mk (s.data.map f)

/-- Source `clampString` (lines 169-173): non-strings are handled at the
call sites below (the `typeof` guard); over-length strings are truncated. -/
def clampString (s : String) : String :=
  if s.length ≤ maxCharsPerField then s else strTake s maxCharsPerField

/-- Source `sanitizeText` (lines 175-180).  The source writes the clamped
string into a detached `div` through `textContent` and reads it back;
`textContent` round-trips every string unchanged, so on strings the
function is `clampString`, and on every non-string input the `typeof`
guard yields `""`.  The argument is a possibly-undefined JSON value to
mirror call sites such as `sanitizeText(data.label)`. -/
def sanitizeText : Option JVal → String
  | some (.jstr s) => clampString s
  | _ => ""

/-- Character class accepted by `sanitizeActionName`
(`/[^a-zA-Z0-9:_\-./]/`). -/
def actionNameChar (c : Char) : Bool :=
  c.isAlpha || c.isDigit || c = ':' || c = '_' || c = '-' || c = '.' || c = '/'

/-- Source `sanitizeActionName` (lines 182-187): trim, cap at
`maxActionName`, map every character outside the conservative allowlist to
an underscore. -/
def sanitizeActionName : Option JVal → String
  | some (.jstr s) =>
      let t := strTake (jsTrim s) maxActionName
      strMap (fun c => if actionNameChar c then c else '_') t
  | _ => ""

/-- Character class kept by `safeId` (`/[^a-zA-Z0-9\-_:]/` replaced). -/
def safeIdChar (c : Char) : Bool :=
  c.isAlpha || c.isDigit || c = '-' || c = '_' || c = ':'

/-- Source `safeId` (lines 189-193). -/
def safeId (raw : Option JVal) (fallback : String) : String :=
  let base := match raw with
    | some (.jstr s) => s
    | _ => ""
  let cleaned := strMap (fun c => if safeIdChar c then c else '-') (strTake (jsTrim base) 80)
  if cleaned = "" then fallback else cleaned

/-! ### URL resolution model

`sanitizeUrl` calls the browser primitive `new URL(trimmed,
window.location.origin)`.  The model below captures the scheme-relevant
fragment of WHATWG URL resolution: an input starting with a valid scheme
prefix (`[A-Za-z][A-Za-z0-9+.-]*:`) is absolute and keeps that scheme
(lowercased); any other input resolves against the base origin and
inherits the base scheme.  `href` normalization is modelled as the
identity on the resolved string, which is enough for every claim below. -/

def schemeChar (c : Char) : Bool :=
  c.isAlpha || c.isDigit || c = '+' || c = '.' || c = '-'

/-- Extract `scheme:` from the front of an absolute URL, lowercased, or
`none` when the input has no valid scheme prefix. -/
def extractScheme (s : String) : Option String :=
  match s.data with
  | [] => none
  | c :: rest =>
      if c.isAlpha then
        let body := rest.takeWhile schemeChar
        let after := rest.drop body.length
        match after with
        | ':' :: _ => some (String.mk ((c :: body).map Char.toLower) ++ ":")
        | _ => none
      else none

/-- Scheme of the document origin the library resolves relative URLs
against (the repository's own test harness loads the page from
`https://example.com/`). -/
def baseScheme : String := "https:"

/-- Protocol of `new URL(s, origin)` in the model. -/
def resolvedProtocol (s : String) : String :=
  (extractScheme s).getD baseScheme

/-- Source `sanitizeUrl` (lines 195-215): non-strings and over-length or
empty-after-trim strings yield `""`; otherwise the resolved protocol is
checked against the allowlist `['http:', 'https:', 'mailto:']` and a
disallowed scheme yields `""`, an allowed one returns the resolved href
(modelled as the trimmed input). -/
def allowedProtocols : List String := ["http:", "https:", "mailto:"]

def sanitizeUrl : Option JVal → String
  | some (.jstr url) =>
      let trimmed := jsTrim url
      if trimmed = "" then ""
      else if maxUrlLength < trimmed.length then ""
      else if (resolvedProtocol trimmed) ∈ allowedProtocols then trimmed
      else ""
  | _ => ""

/-! ## DOM output model and `el` (source lines 298-341)

`DNode` is the output node tree.  Text is inserted only through
`document.createTextNode` / `textContent`, which the model reflects by the
`dtext` leaf holding the exact string: a string can never introduce an
element, an attribute or a listener, because `el` only ever wraps strings
in `dtext`. -/

inductive DNode where
  | dtext (s : String)
  | dmarkup (s : String)
  | elem (tag : String) (attrs : List (String × String))
      (styles : List (String × String)) (listeners : List String)
      (children : List DNode)
deriving Repr

/-- Attribute values as they occur at the `el` call sites: plain strings,
style/dataset objects, event-listener functions (only their presence
matters to the model) and absent (`undefined`/`null`, skipped by `el`). -/
inductive AttrV where
  | avStr (s : String)
  | avStyle (kvs : List (String × String))
  | avDataset (kvs : List (String × String))
  | avFn
  | avNone
deriving Repr

/-- Child arguments of `el`: existing nodes, or strings which `el` routes
through `document.createTextNode`. -/
inductive ElChild where
  | cnode (n : DNode)
  | cstr (s : String)
deriving Repr

/-- `c.toLowerCase()` on one character. -/
def lowerChar (c : Char) : Char :=
  if 'A' ≤ c ∧ c ≤ 'Z' then Char.ofNat (c.toNat + 32) else c

/-- `s.toLowerCase()` (ASCII, which covers every key the source passes). -/
def strToLower (s : String) : String := String.mk (s.data.map lowerChar)

/-- `key.startsWith('on')`. -/
def strStartsWithOn (s : String) : Bool :=
  match s.data with
  | 'o' :: 'n' :: _ => true
  | _ => false

/-- `key.slice(2)`. -/
def strDrop2 (s : String) : String := String.mk (s.data.drop 2)

/-- Dispatch of one attribute entry, mirroring the `Object.entries`
loop of `el`: `style` objects merge into inline styles, `className` sets
the `class` attribute, `dataset` objects set `data-*` attributes, keys
starting with `on` whose value is a function register a listener,
`textContent` is handled by the caller model as a text child, and every
other key becomes `setAttribute(key, String(val))`. -/
def elAttrStep (acc : List (String × String) × List (String × String) × List String)
    (entry : String × AttrV) :
    List (String × String) × List (String × String) × List String :=
  let (attrs, styles, listeners) := acc
  match entry with
  | (_, .avNone) => (attrs, styles, listeners)
  | ("style", .avStyle kvs) => (attrs, styles ++ kvs, listeners)
  | ("className", .avStr s) => (attrs ++ [("class", s)], styles, listeners)
  | ("dataset", .avDataset kvs) =>
      (attrs ++ kvs.map (fun p => ("data-" ++ p.1, p.2)), styles, listeners)
  | (k, .avFn) =>
      if strStartsWithOn k then (attrs, styles, listeners ++ [strToLower (strDrop2 k)])
      else (attrs, styles, listeners)
  | (k, .avStr s) => (attrs ++ [(k, s)], styles, listeners)
  | (k, _) => (attrs ++ [(k, "")], styles, listeners)

/-- Source `el(tag, attrs, children)`: build the element, apply the
attribute entries in order, then append children — `Node` children are
appended as-is and string children go through `createTextNode`. -/
def el (tag : String) (attrs : List (String × AttrV)) (children : List ElChild) : DNode :=
  let (as_, ss, ls) := attrs.foldl elAttrStep ([], [], [])
  .elem tag as_ ss ls
    (children.map (fun c => match c with
      | .cnode n => n
      | .cstr s => .dtext s))

/-! ### Tree observations used by the theorems -/

mutual
/-- All element tag names occurring in a tree. -/
def DNode.tagsOf : DNode → List String
  | .dtext _ => []
  | .dmarkup _ => []
  | .elem t _ _ _ children => t :: tagsOfList children
def tagsOfList : List DNode → List String
  | [] => []
  | n :: rest => DNode.tagsOf n ++ tagsOfList rest
end

mutual
/-- All attribute names occurring in a tree. -/
def DNode.attrNamesOf : DNode → List String
  | .dtext _ => []
  | .dmarkup _ => []
  | .elem _ attrs _ _ children => attrs.map Prod.fst ++ attrNamesOfList children
def attrNamesOfList : List DNode → List String
  | [] => []
  | n :: rest => DNode.attrNamesOf n ++ attrNamesOfList rest
end

mutual
/-- All registered event listeners in a tree. -/
def DNode.listenersOf : DNode → List String
  | .dtext _ => []
  | .dmarkup _ => []
  | .elem _ _ _ ls children => ls ++ listenersOfList children
def listenersOfList : List DNode → List String
  | [] => []
  | n :: rest => DNode.listenersOf n ++ listenersOfList rest
end

mutual
/-- All text-node contents in a tree: the only places a caller string can
reach other than sanitized attribute values. -/
def DNode.textLeavesOf : DNode → List String
  | .dtext s => [s]
  | .dmarkup _ => []
  | .elem _ _ _ _ children => textLeavesOfList children
def textLeavesOfList : List DNode → List String
  | [] => []
  | n :: rest => DNode.textLeavesOf n ++ textLeavesOfList rest
end

mutual
/-- All markup-parsed (`innerHTML`-injected) fragments in a tree: the
model's image of every `innerHTML` assignment.  The injection claim is
that only fixed, caller-independent constants (the `ICONS` table) ever
appear here. -/
def DNode.markupOf : DNode → List String
  | .dtext _ => []
  | .dmarkup s => [s]
  | .elem _ _ _ _ children => markupOfList children
def markupOfList : List DNode → List String
  | [] => []
  | n :: rest => DNode.markupOf n ++ markupOfList rest
end

mutual
/-- All attribute name/value pairs in a tree. -/
def DNode.attrsOf : DNode → List (String × String)
  | .dtext _ => []
  | .dmarkup _ => []
  | .elem _ attrs _ _ children => attrs ++ attrsOfList children
def attrsOfList : List DNode → List (String × String)
  | [] => []
  | n :: rest => DNode.attrsOf n ++ attrsOfList rest
end

/-- Value of the first attribute named `name` in the tree, in tree order
(used to read the rendered CTA's `href`). -/
def DNode.attrValue (n : DNode) (name : String) : Option String :=
  (DNode.attrsOf n).lookup name

/-- Strict-equality test `v === "lit"` of a possibly-undefined JSON value
against a string literal, as used throughout the source. -/
def isStrVal (v : Option JVal) (s : String) : Bool :=
  match v with
  | some (.jstr t) => t = s
  | _ => false

/-! ## Renderers needed by the claims (source lines 1159-1200) -/

/-- Field access `data.key` used by the renderers. -/
def fld (data : JVal) (key : String) : Option JVal := jgetV data key

/-- Chained access `data.a.b` under a truthiness guard. -/
def fld2 (data : JVal) (k1 k2 : String) : Option JVal :=
  (fld data k1).bind (fun v => jgetV v k2)

/-- Source `RENDERERS.hero` (lines 1159-1188): label, heading, subheading
as sanitized text nodes; the CTA is an `a` element whose `href` is the
sanitized URL or the inert `#`, whose `data-action` is the sanitized
action name, and whose caption is a sanitized text child. -/
def renderHero (data : JVal) : DNode :=
  let children :=
    (if jsTruthy (fld data "label") then
      [ElChild.cnode (el "div" [("className", .avStr "ap-hero-label")]
        [.cstr (sanitizeText (fld data "label"))])] else [])
    ++ (if jsTruthy (fld data "heading") then
      [ElChild.cnode (el "h1" [("className", .avStr "ap-hero-heading")]
        [.cstr (sanitizeText (fld data "heading"))])] else [])
    ++ (if jsTruthy (fld data "subheading") then
      [ElChild.cnode (el "p" [("className", .avStr "ap-hero-subheading")]
        [.cstr (sanitizeText (fld data "subheading"))])] else [])
    ++ (if jsTruthy (fld data "cta") && jsTruthy (fld2 data "cta" "text") then
      [ElChild.cnode (el "a"
        [("className", .avStr "ap-btn ap-btn--primary"),
         ("href", .avStr (if jsTruthy (fld2 data "cta" "url")
            then sanitizeUrl (fld2 data "cta" "url") else "#")),
         ("dataset", .avDataset (if jsTruthy (fld2 data "cta" "action")
            then [("action", sanitizeActionName (fld2 data "cta" "action"))] else []))]
        [.cstr (sanitizeText (fld2 data "cta" "text"))])] else [])
  el "div" [("className", .avStr "ap-hero ap-section")] children

/-- Source `normalizeAlign` (lines 1155-1157). -/
def normalizeAlign (align : Option JVal) : String :=
  if isStrVal align "center" then "center" else "left"

/-- Source `RENDERERS.text` (lines 1196-1200). -/
def renderText (data : JVal) : DNode :=
  let classes :=
    if normalizeAlign (fld data "align") = "center" then
      "ap-text ap-section ap-text--centered"
    else "ap-text ap-section"
  el "p" [("className", .avStr classes)]
    [.cstr (sanitizeText (some (jsOr (fld data "text") (.jstr ""))))]


/-! ## Full renderer registry (source lines 1152-2181)

Every built-in renderer, embedded for the injection claim.  The embedding
follows the conventions established above: `el` models `el()`, property
writes after creation (`node.style.x = v`, `setAttribute`, `textContent`,
`classList.remove`, `dataset.x = v`, `.value = v`, `.hidden = b`) are
modeled by the helpers below or by equivalent entries in the `el` call,
and `addEventListener` is modeled by an `onX` function entry (the `el`
model turns it into a listener).  `innerHTML` assignments — used only by
`renderIcon` and the FAQ chevron, always with a constant from the `ICONS`
table — are modeled by the dedicated `dmarkup` leaf so the markup sink is
visible in the tree.  JS numeric coercions (`heading.level`, clamp
bounds) are modeled on the embedding's integer-JSON domain: every branch
of the source coercion lands in the same caller-independent result set
the theorems use (`h1`/`h2`/`h3`, plus the `hNaN` tag for non-numeric
levels; fractional-string levels make the source throw at
`createElement`, which the total model collapses into the `hNaN` case).
A non-array truthy value where the source does `(x || []).forEach`
throws in JS; the total model collapses the no-tree case to an empty
iteration.  `Math.random()` id suffixes are modeled by a fixed string —
they are caller-independent and only ever appear as attribute values. -/

mutual
/-- JavaScript `String(v)` on the embedded value domain.  Array elements
render with `null` as the empty string, as `Array.prototype.join` does. -/
def jsToString : JVal → String
  | .jstr s => s
  | .jnum n => toString n
  | .jbool true => "true"
  | .jbool false => "false"
  | .jnull => "null"
  | .jarr xs => jsToStringArr xs
  | .jobj _ => "[object Object]"
def jsToStringArr : List JVal → String
  | [] => ""
  | [v] => jsToStringElem v
  | v :: rest => jsToStringElem v ++ "," ++ jsToStringArr rest
def jsToStringElem : JVal → String
  | .jnull => ""
  | v => jsToString v
end

/-- Decimal digits to a number (used by the `Number(string)` model). -/
def digitsToNat (cs : List Char) : Option Nat :=
  if cs = [] then none
  else if cs.all Char.isDigit then
    some (cs.foldl (fun a c => a * 10 + (c.toNat - 48)) 0)
  else none

/-- JavaScript `Number(v)` on the embedded domain, `none` for NaN.
Non-integer numerals are outside the embedding's value domain; exotic
array/object coercions collapse to NaN (see the section comment). -/
def jsNumCoerce : JVal → Option Int
  | .jnum n => some n
  | .jbool true => some 1
  | .jbool false => some 0
  | .jnull => some 0
  | .jstr s =>
      let cs := trimChars s.data
      match cs with
      | [] => some 0
      | '-' :: rest => (digitsToNat rest).map (fun n => -(n : Int))
      | _ => (digitsToNat cs).map (fun n => (n : Int))
  | .jarr [] => some 0
  | .jarr _ => none
  | .jobj _ => none

/-- The clamped heading level of `RENDERERS.heading`
(`Math.min(Math.max(data.level || 2, 1), 3)`), as the string the tag is
built from ("NaN" for non-numeric levels). -/
def headingLevelStr (lv : Option JVal) : String :=
  if jsTruthy lv then
    match lv with
    | some v =>
        match jsNumCoerce v with
        | some n => toString (min (max n 1) 3)
        | none => "NaN"
    | none => "2"
  else "2"

def headingTag (lv : Option JVal) : String := "h" ++ headingLevelStr lv

/-- `(data.items || []).forEach` iteration source: arrays iterate,
everything else iterates nothing (truthy non-arrays throw in JS). -/
def arrItems : Option JVal → List JVal
  | some (.jarr xs) => xs
  | _ => []

/-- `sanitizeText(v || dflt)`. -/
def sTxtOr (v : Option JVal) (dflt : String) : String :=
  sanitizeText (some (jsOr v (.jstr dflt)))

/-- `classList.remove('ap-section')` on a class string. -/
def rmSection (s : String) : String :=
  String.intercalate " " ((s.splitOn " ").filter (fun t => ¬ t = "ap-section"))

/-- Nested-renderer postprocessing (`rendered.classList.remove('ap-section');
rendered.style.padding = '0'`). -/
def stripSection : DNode → DNode
  | .elem t attrs styles ls ch =>
      .elem t (attrs.map (fun p => if p.1 = "class" then (p.1, rmSection p.2) else p))
        (styles ++ [("padding", "0")]) ls ch
  | n => n

/-- `node.style.k = v` after creation. -/
def styleSet (n : DNode) (k v : String) : DNode :=
  match n with
  | .elem t attrs styles ls ch => .elem t attrs (styles ++ [(k, v)]) ls ch
  | x => x

/-- `node.setAttribute(k, v)` after creation (also used for property
writes such as `.value`, `.checked` and `.hidden`, so the written caller
strings stay visible in the tree). -/
def attrSet (n : DNode) (k v : String) : DNode :=
  match n with
  | .elem t attrs styles ls ch => .elem t (attrs ++ [(k, v)]) styles ls ch
  | x => x

/-- `node.addEventListener(name, fn)` after creation. -/
def listenerAdd (n : DNode) (e : String) : DNode :=
  match n with
  | .elem t attrs styles ls ch => .elem t attrs styles (ls ++ [e]) ch
  | x => x

def ICONS : List (String × String) :=
  [("check", "<path d=\"M20 6L9 17l-5-5\" stroke=\"currentColor\" stroke-width=\"2\" fill=\"none\" stroke-linecap=\"round\" stroke-linejoin=\"round\" />"),
   ("star", "<path d=\"M12 2l3.09 6.26L22 9.27l-5 4.87 1.18 6.88L12 17.77l-6.18 3.25L7 14.14 2 9.27l6.91-1.01L12 2z\" fill=\"currentColor\" />"),
   ("arrow", "<path d=\"M5 12h14M12 5l7 7-7 7\" stroke=\"currentColor\" stroke-width=\"2\" fill=\"none\" stroke-linecap=\"round\" stroke-linejoin=\"round\" />"),
   ("shield", "<path d=\"M12 22s8-4 8-10V5l-8-3-8 3v7c0 6 8 10 8 10z\" fill=\"none\" stroke=\"currentColor\" stroke-width=\"2\" />"),
   ("lock", "<rect x=\"3\" y=\"11\" width=\"18\" height=\"11\" rx=\"2\" ry=\"2\" fill=\"none\" stroke=\"currentColor\" stroke-width=\"2\" /><path d=\"M7 11V7a5 5 0 0 1 10 0v4\" fill=\"none\" stroke=\"currentColor\" stroke-width=\"2\" />"),
   ("zap", "<polygon points=\"13 2 3 14 12 14 11 22 21 10 12 10 13 2\" fill=\"none\" stroke=\"currentColor\" stroke-width=\"2\" stroke-linejoin=\"round\" />"),
   ("globe", "<circle cx=\"12\" cy=\"12\" r=\"10\" fill=\"none\" stroke=\"currentColor\" stroke-width=\"2\" /><path d=\"M2 12h20M12 2a15.3 15.3 0 0 1 4 10 15.3 15.3 0 0 1-4 10 15.3 15.3 0 0 1-4-10 15.3 15.3 0 0 1 4-10z\" fill=\"none\" stroke=\"currentColor\" stroke-width=\"2\" />"),
   ("cpu", "<rect x=\"4\" y=\"4\" width=\"16\" height=\"16\" rx=\"2\" ry=\"2\" fill=\"none\" stroke=\"currentColor\" stroke-width=\"2\" /><path d=\"M9 9h6v6H9zM9 1v3M15 1v3M9 20v3M15 20v3M20 9h3M20 14h3M1 9h3M1 14h3\" fill=\"none\" stroke=\"currentColor\" stroke-width=\"2\" />"),
   ("chart", "<path d=\"M18 20V10M12 20V4M6 20v-6\" stroke=\"currentColor\" stroke-width=\"2\" fill=\"none\" stroke-linecap=\"round\" />"),
   ("users", "<path d=\"M17 21v-2a4 4 0 0 0-4-4H5a4 4 0 0 0-4 4v2\" fill=\"none\" stroke=\"currentColor\" stroke-width=\"2\" /><circle cx=\"9\" cy=\"7\" r=\"4\" fill=\"none\" stroke=\"currentColor\" stroke-width=\"2\" /><path d=\"M23 21v-2a4 4 0 0 0-3-3.87M16 3.13a4 4 0 0 1 0 7.75\" fill=\"none\" stroke=\"currentColor\" stroke-width=\"2\" />"),
   ("clock", "<circle cx=\"12\" cy=\"12\" r=\"10\" fill=\"none\" stroke=\"currentColor\" stroke-width=\"2\" /><path d=\"M12 6v6l4 2\" fill=\"none\" stroke=\"currentColor\" stroke-width=\"2\" stroke-linecap=\"round\" />"),
   ("target", "<circle cx=\"12\" cy=\"12\" r=\"10\" fill=\"none\" stroke=\"currentColor\" stroke-width=\"2\" /><circle cx=\"12\" cy=\"12\" r=\"6\" fill=\"none\" stroke=\"currentColor\" stroke-width=\"2\" /><circle cx=\"12\" cy=\"12\" r=\"2\" fill=\"none\" stroke=\"currentColor\" stroke-width=\"2\" />"),
   ("rocket", "<path d=\"M4.5 16.5c-1.5 1.26-2 5-2 5s3.74-.5 5-2c.71-.84.7-2.13-.09-2.91a2.18 2.18 0 0 0-2.91-.09zM12 15l-3-3a22 22 0 0 1 2-3.95A12.88 12.88 0 0 1 22 2c0 2.72-.78 7.5-6 11a22.35 22.35 0 0 1-4 2z\" fill=\"none\" stroke=\"currentColor\" stroke-width=\"2\" /><path d=\"M9 12H4s.55-3.03 2-4c1.62-1.08 5 0 5 0M12 15v5s3.03-.55 4-2c1.08-1.62 0-5 0-5\" fill=\"none\" stroke=\"currentColor\" stroke-width=\"2\" />"),
   ("code", "<polyline points=\"16 18 22 12 16 6\" fill=\"none\" stroke=\"currentColor\" stroke-width=\"2\" stroke-linecap=\"round\" stroke-linejoin=\"round\" /><polyline points=\"8 6 2 12 8 18\" fill=\"none\" stroke=\"currentColor\" stroke-width=\"2\" stroke-linecap=\"round\" stroke-linejoin=\"round\" />"),
   ("database", "<ellipse cx=\"12\" cy=\"5\" rx=\"9\" ry=\"3\" fill=\"none\" stroke=\"currentColor\" stroke-width=\"2\" /><path d=\"M21 12c0 1.66-4 3-9 3s-9-1.34-9-3M21 5v14c0 1.66-4 3-9 3s-9-1.34-9-3V5\" fill=\"none\" stroke=\"currentColor\" stroke-width=\"2\" />"),
   ("mail", "<path d=\"M4 4h16c1.1 0 2 .9 2 2v12c0 1.1-.9 2-2 2H4c-1.1 0-2-.9-2-2V6c0-1.1.9-2 2-2z\" fill=\"none\" stroke=\"currentColor\" stroke-width=\"2\" /><polyline points=\"22,6 12,13 2,6\" fill=\"none\" stroke=\"currentColor\" stroke-width=\"2\" />"),
   ("settings", "<circle cx=\"12\" cy=\"12\" r=\"3\" fill=\"none\" stroke=\"currentColor\" stroke-width=\"2\" /><path d=\"M19.4 15a1.65 1.65 0 0 0 .33 1.82l.06.06a2 2 0 0 1 0 2.83 2 2 0 0 1-2.83 0l-.06-.06a1.65 1.65 0 0 0-1.82-.33 1.65 1.65 0 0 0-1 1.51V21a2 2 0 0 1-4 0v-.09A1.65 1.65 0 0 0 9 19.4a1.65 1.65 0 0 0-1.82.33l-.06.06a2 2 0 0 1-2.83 0 2 2 0 0 1 0-2.83l.06-.06A1.65 1.65 0 0 0 4.68 15a1.65 1.65 0 0 0-1.51-1H3a2 2 0 0 1 0-4h.09A1.65 1.65 0 0 0 4.6 9a1.65 1.65 0 0 0-.33-1.82l-.06-.06a2 2 0 1 1 2.83-2.83l.06.06A1.65 1.65 0 0 0 9 4.68a1.65 1.65 0 0 0 1-1.51V3a2 2 0 0 1 4 0v.09a1.65 1.65 0 0 0 1 1.51 1.65 1.65 0 0 0 1.82-.33l.06-.06a2 2 0 1 1 2.83 2.83l-.06.06A1.65 1.65 0 0 0 19.4 9a1.65 1.65 0 0 0 1.51 1H21a2 2 0 0 1 0 4h-.09a1.65 1.65 0 0 0-1.51 1z\" fill=\"none\" stroke=\"currentColor\" stroke-width=\"2\" />"),
   ("info", "<circle cx=\"12\" cy=\"12\" r=\"10\" fill=\"none\" stroke=\"currentColor\" stroke-width=\"2\" /><line x1=\"12\" y1=\"16\" x2=\"12\" y2=\"12\" stroke=\"currentColor\" stroke-width=\"2\" /><line x1=\"12\" y1=\"8\" x2=\"12.01\" y2=\"8\" stroke=\"currentColor\" stroke-width=\"2\" />"),
   ("alert", "<path d=\"M10.29 3.86L1.82 18a2 2 0 0 0 1.71 3h16.94a2 2 0 0 0 1.71-3L13.71 3.86a2 2 0 0 0-3.42 0z\" fill=\"none\" stroke=\"currentColor\" stroke-width=\"2\" /><line x1=\"12\" y1=\"19\" x2=\"12\" y2=\"19\" stroke=\"currentColor\" stroke-width=\"2\" /><line x1=\"12\" y1=\"11\" x2=\"12.01\" y2=\"17\" stroke=\"currentColor\" stroke-width=\"2\" />"),
   ("download", "<path d=\"M21 15v4a2 2 0 0 1-2 2H5a2 2 0 0 1-2-2v-4\" fill=\"none\" stroke=\"currentColor\" stroke-width=\"2\" /><polyline points=\"7 10 12 15 17 10\" fill=\"none\" stroke=\"currentColor\" stroke-width=\"2\" /><line x1=\"12\" y1=\"15\" x2=\"12\" y2=\"3\" stroke=\"currentColor\" stroke-width=\"2\" />"),
   ("play", "<polygon points=\"5 3 19 12 5 21 5 3\" fill=\"none\" stroke=\"currentColor\" stroke-width=\"2\" stroke-linejoin=\"round\" />"),
   ("link", "<path d=\"M10 13a5 5 0 0 0 7.54.54l3-3a5 5 0 0 0-7.07-7.07l-1.72 1.71\" fill=\"none\" stroke=\"currentColor\" stroke-width=\"2\" /><path d=\"M14 11a5 5 0 0 0-7.54-.54l-3 3a5 5 0 0 0 7.07 7.07l1.71-1.71\" fill=\"none\" stroke=\"currentColor\" stroke-width=\"2\" />"),
   ("chevronDown", "<path d=\"M6 9l6 6 6-6\" stroke=\"currentColor\" stroke-width=\"2\" stroke-linecap=\"round\" stroke-linejoin=\"round\" />"),
   ("copy", "<rect x=\"9\" y=\"9\" width=\"13\" height=\"13\" rx=\"2\" ry=\"2\" fill=\"none\" stroke=\"currentColor\" stroke-width=\"2\" /><path d=\"M5 15H4a2 2 0 0 1-2-2V4a2 2 0 0 1 2-2h9a2 2 0 0 1 2 2v1\" fill=\"none\" stroke=\"currentColor\" stroke-width=\"2\" />")]

/-- `ICONS[name] || ICONS.info` (source line 271).  Own-property lookup
with the `info` fallback; an inherited-property hit (`name =
"constructor"` and the like) also yields a caller-independent platform
string in JS, so the modeled guarantee — only caller-independent markup
reaches `innerHTML` — is the same. -/
def iconSvg (name : String) : String :=
  match ICONS.lookup name with
  | some s => s
  | none => (ICONS.lookup "info").getD ""

/-- The fixed markup constants; the injection theorem shows these are the
only strings that ever reach the markup (innerHTML) sink. -/
def iconMarkups : List String := ICONS.map Prod.snd

/-- Source `renderIcon(name, size, ttPolicy)` (lines 270-293):
`createElementNS` svg element, fixed attributes, constant markup body. -/
def renderIcon (name : String) (size : Nat) : DNode :=
  .elem "svg"
    [("width", toString size), ("height", toString size), ("viewBox", "0 0 24 24"),
     ("fill", "none"), ("aria-hidden", "true")]
    [] [] [.dmarkup (iconSvg name)]

/-- The FAQ chevron (source lines 1437-1450): an svg with fixed
attributes whose `innerHTML` is the constant `ICONS.chevronDown`. -/
def chevronSvg : DNode :=
  .elem "svg"
    [("width", "16"), ("height", "16"), ("viewBox", "0 0 24 24"), ("fill", "none"),
     ("class", "ap-faq-item-chevron")]
    [] [] [.dmarkup (iconSvg "chevronDown")]

/-- Every element tag any built-in renderer can create. -/
def apTags : List String :=
  ["div", "h1", "h2", "h3", "hNaN", "p", "a", "span", "button", "table", "thead",
   "tbody", "tr", "th", "td", "blockquote", "pre", "code", "hr", "img", "svg",
   "form", "label", "textarea", "select", "option", "input"]

/-- Every attribute name any built-in renderer can set. -/
def apAttrNames : List String :=
  ["class", "href", "data-action", "id", "type", "role", "aria-expanded",
   "aria-controls", "aria-labelledby", "aria-label", "aria-orientation",
   "aria-hidden", "aria-live", "aria-required", "aria-describedby", "aria-selected",
   "tabindex",
   "hidden", "novalidate", "for", "name", "placeholder", "rows", "value",
   "required", "minlength", "maxlength", "pattern", "min", "max", "step",
   "disabled", "readonly", "autocomplete", "inputmode", "checked", "src", "alt",
   "width", "height", "viewBox", "fill"]

/-- Every event name any built-in renderer can listen for. -/
def apListeners : List String :=
  ["click", "keydown", "submit", "input", "change", "blur"]

/-- Where a text leaf may come from: a `sanitizeText` application, a
step/list ordinal, or one of the renderer's fixed literals. -/
def leafOK (s : String) : Prop :=
  (∃ v : Option JVal, s = sanitizeText v) ∨ (∃ n : Nat, s = toString n) ∨
  (∃ n : Nat, s = toString n ++ ".") ∨ s = "Copy" ∨ s = "✘" ∨ s = ""


/-- Shorthand for the ubiquitous `className` attribute entry. -/
def cAttr (s : String) : String × AttrV := ("className", .avStr s)

/-- Source `RENDERERS.heading` (lines 1190-1194). -/
def renderHeading (data : JVal) : DNode :=
  el (headingTag (fld data "level"))
    [cAttr ("ap-heading ap-heading--" ++ headingLevelStr (fld data "level") ++ " ap-section")]
    [.cstr (sTxtOr (fld data "text") "")]

/-- Nested children of `stack`/`card`/`columns` (lines 1213-1220, 1240-1248,
1620-1629): render each section, skip `null`s, strip the section class and
padding. -/
def nestChildren (r : JVal → Option DNode) (v : Option JVal) : List DNode :=
  match v with
  | some (.jarr xs) => xs.flatMap (fun s => match r s with
      | some n => [stripSection n]
      | none => [])
  | _ => []

/-- The clamped `stack` gap (`Math.min(Math.max(Number(data.gap || 4), 0), 12)`)
as a string ("NaN" for non-numeric gaps). -/
def stackGapStr (v : Option JVal) : String :=
  match jsNumCoerce (jsOr v (.jnum 4)) with
  | some n => toString (min (max n 0) 12)
  | none => "NaN"

/-- The final `(gap * 0.25) + 'rem'` gap value of `stack`. -/
def gapRem (v : Option JVal) : String :=
  match jsNumCoerce (jsOr v (.jnum 4)) with
  | none => "NaNrem"
  | some n =>
      let g := min (max n 0) 12
      (if g % 4 = 0 then toString (g / 4)
       else if g % 4 = 1 then toString (g / 4) ++ ".25"
       else if g % 4 = 2 then toString (g / 4) ++ ".5"
       else toString (g / 4) ++ ".75") ++ "rem"

/-- Source `RENDERERS.stack` (lines 1203-1225): both gap assignments are
kept as successive style entries. -/
def renderStack (r : JVal → Option DNode) (data : JVal) : DNode :=
  el "div" [cAttr "ap-section"]
    [.cnode (styleSet (styleSet
        (el "div" [cAttr "ap-stack"] ((nestChildren r (fld data "sections")).map ElChild.cnode))
        "gap" ("var(--ap-space-" ++ stackGapStr (fld data "gap") ++ ")"))
      "gap" (gapRem (fld data "gap")))]

/-- Source `RENDERERS.card` (lines 1228-1253). -/
def renderCard (r : JVal → Option DNode) (data : JVal) : DNode :=
  el "div" [cAttr "ap-section"]
    [.cnode (el "div"
      [cAttr ("ap-card" ++ (if isStrVal (fld data "variant") "accent" then " ap-card--accent" else ""))]
      ((if jsTruthy (fld data "heading") then
          [ElChild.cnode (el "h3" [cAttr "ap-heading ap-heading--3 ap-mb-2"]
            [.cstr (sanitizeText (fld data "heading"))])] else [])
       ++ (if jsTruthy (fld data "body") then
          [ElChild.cnode (el "p" [cAttr "ap-text ap-mb-4"]
            [.cstr (sanitizeText (fld data "body"))])] else [])
       ++ (nestChildren r (fld data "sections")).map ElChild.cnode))]

/-- Icon-name property key (`ICONS[name]` uses the string coercion of the
value). -/
def iconNameOf (v : Option JVal) : String :=
  match v with
  | some x => jsToString x
  | none => "undefined"

/-- One `feature-grid` card (lines 1270-1282). -/
def featureCard (item : JVal) : DNode :=
  el "div" [cAttr "ap-feature-card"]
    ((if jsTruthy (jgetV item "icon") then
        [ElChild.cnode (el "div" [cAttr "ap-feature-card-icon"]
          [.cnode (renderIcon (iconNameOf (jgetV item "icon")) 22)])] else [])
     ++ [ElChild.cnode (el "div" [cAttr "ap-feature-card-title"]
          [.cstr (sTxtOr (jgetV item "title") "")])]
     ++ (if jsTruthy (jgetV item "body") then
        [ElChild.cnode (el "div" [cAttr "ap-feature-card-body"]
          [.cstr (sanitizeText (jgetV item "body"))])] else []))

/-- Source `RENDERERS['feature-grid']` (lines 1255-1288). -/
def renderFeatureGrid (data : JVal) : DNode :=
  el "div" [cAttr "ap-section"]
    ((if jsTruthy (fld data "heading") then
        [ElChild.cnode (if normalizeAlign (fld data "align") = "center" then
            styleSet (el "h2" [cAttr "ap-heading ap-heading--2 ap-mb-6"]
              [.cstr (sanitizeText (fld data "heading"))]) "textAlign" "center"
          else el "h2" [cAttr "ap-heading ap-heading--2 ap-mb-6"]
              [.cstr (sanitizeText (fld data "heading"))])] else [])
     ++ (if jsTruthy (fld data "subheading") then
        [ElChild.cnode (el "p" [cAttr "ap-text ap-text--centered ap-mb-6"]
          [.cstr (sanitizeText (fld data "subheading"))])] else [])
     ++ [ElChild.cnode (el "div" [cAttr "ap-feature-grid"]
          ((arrItems (fld data "items")).map (fun it => ElChild.cnode (featureCard it))))])

/-- One `stat-row` item (lines 1300-1305). -/
def statItem (item : JVal) : DNode :=
  el "div" [cAttr "ap-stat-item"]
    [.cnode (el "div" [cAttr "ap-stat-item-value"] [.cstr (sTxtOr (jgetV item "value") "")]),
     .cnode (el "div" [cAttr "ap-stat-item-label"] [.cstr (sTxtOr (jgetV item "label") "")])]

/-- Source `RENDERERS['stat-row']` (lines 1290-1309). -/
def renderStatRow (data : JVal) : DNode :=
  el "div" [cAttr "ap-section"]
    ((if jsTruthy (fld data "heading") then
        [ElChild.cnode (styleSet (el "h2" [cAttr "ap-heading ap-heading--2 ap-mb-6"]
          [.cstr (sanitizeText (fld data "heading"))]) "textAlign" "center")] else [])
     ++ [ElChild.cnode (el "div" [cAttr "ap-stat-row"]
          ((arrItems (fld data "items")).map (fun it => ElChild.cnode (statItem it))))])

/-- `Array.isArray(row) ? row : Object.values(row)` (line 1335): strings
spread to their characters, other primitives to nothing (`Object.values`
of `null` throws; the total model collapses that to no cells). -/
def cellsOf : JVal → List JVal
  | .jarr xs => xs
  | .jobj kvs => kvs.map Prod.snd
  | .jstr s => s.data.map (fun c => .jstr (String.mk [c]))
  | _ => []

/-- One `comparison-table` cell (lines 1336-1350). -/
def compCell (cell : JVal) : DNode :=
  let str := jsToString cell
  if str = "true" ∨ str = "✔" then
    el "td" [cAttr "ap-table-check"] [.cnode (renderIcon "check" 18)]
  else if str = "false" ∨ str = "✘" then
    el "td" [cAttr "ap-table-cross"] [.cstr "✘"]
  else
    el "td" [] [.cstr (sanitizeText (some (.jstr str)))]

/-- Source `RENDERERS['comparison-table']` (lines 1311-1362). -/
def renderCompTable (data : JVal) : DNode :=
  el "div" [cAttr "ap-section"]
    ((if jsTruthy (fld data "heading") then
        [ElChild.cnode (el "h2" [cAttr "ap-heading ap-heading--2 ap-mb-6"]
          [.cstr (sanitizeText (fld data "heading"))])] else [])
     ++ [ElChild.cnode (el "div" [cAttr "ap-table-wrap"]
          [.cnode (el "table" [cAttr "ap-table"]
            ((match fld data "columns" with
              | some (.jarr cols) =>
                  [ElChild.cnode (el "thead" [] [.cnode (el "tr" []
                    (cols.map (fun c => ElChild.cnode
                      (el "th" [] [.cstr (sanitizeText (some (.jstr (jsToString c))))]))))])]
              | _ => [])
             ++ (match fld data "rows" with
              | some (.jarr rows) =>
                  [ElChild.cnode (el "tbody" []
                    (rows.map (fun rw => ElChild.cnode
                      (el "tr" [] ((cellsOf rw).map (fun c => ElChild.cnode (compCell c)))))))]
              | _ => [])))])])

/-- One `steps` entry (lines 1370-1380). -/
def stepItem (i : Nat) (item : JVal) : DNode :=
  el "div" [cAttr "ap-step"]
    [.cnode (el "div" [cAttr "ap-step-number"] [.cstr (toString (i + 1))]),
     .cnode (el "div" [cAttr "ap-step-content"]
       ([ElChild.cnode (el "div" [cAttr "ap-step-title"] [.cstr (sTxtOr (jgetV item "title") "")])]
        ++ (if jsTruthy (jgetV item "body") then
            [ElChild.cnode (el "div" [cAttr "ap-step-body"]
              [.cstr (sTxtOr (jgetV item "body") "")])] else [])))]

/-- Source `RENDERERS.steps` (lines 1364-1385). -/
def renderSteps (data : JVal) : DNode :=
  el "div" [cAttr "ap-section"]
    ((if jsTruthy (fld data "heading") then
        [ElChild.cnode (el "h2" [cAttr "ap-heading ap-heading--2 ap-mb-6"]
          [.cstr (sanitizeText (fld data "heading"))])] else [])
     ++ [ElChild.cnode (el "div" [cAttr "ap-steps"]
          ((arrItems (fld data "items")).enum.map
            (fun p => ElChild.cnode (stepItem p.1 p.2))))])

/-- The allow-listed `callout` variant (lines 1387-1388). -/
def calloutVariant (v : Option JVal) : String :=
  if isStrVal v "info" then "info"
  else if isStrVal v "success" then "success"
  else if isStrVal v "warning" then "warning"
  else if isStrVal v "error" then "error"
  else "info"

/-- The `callout` icon map (line 1389). -/
def calloutIcon (variant : String) : String :=
  if variant = "success" then "check"
  else if variant = "warning" ∨ variant = "error" then "alert"
  else "info"

/-- The callout box itself (lines 1391-1407). -/
def calloutBox (data : JVal) : DNode :=
  el "div" [cAttr ("ap-callout ap-callout--" ++ calloutVariant (fld data "variant"))]
    [.cnode (el "div" [cAttr "ap-callout-icon"]
        [.cnode (renderIcon (calloutIcon (calloutVariant (fld data "variant"))) 20)]),
     .cnode (el "div" []
        ((if jsTruthy (fld data "title") then
            [ElChild.cnode (el "div" [cAttr "ap-callout-title"]
              [.cstr (sanitizeText (fld data "title"))])] else [])
         ++ (if jsTruthy (fld data "text") || jsTruthy (fld data "body") then
            [ElChild.cnode (el "div" [cAttr "ap-callout-body"]
              [.cstr (sanitizeText (some (jsOr (fld data "text")
                  (jsOr (fld data "body") (.jstr "")))))])] else [])))]

/-- Source `RENDERERS.callout` (lines 1387-1410); `role="alert"` on the
`error` variant. -/
def renderCallout (data : JVal) : DNode :=
  el "div" [cAttr "ap-section"]
    [.cnode (if calloutVariant (fld data "variant") = "error"
        then attrSet (calloutBox data) "role" "alert" else calloutBox data)]

/-- One FAQ item (lines 1422-1466); the `addEventListener('click', ...)`
on the question button is the `onClick` entry. -/
def faqItem (i : Nat) (item : JVal) : DNode :=
  let qId := safeId (jgetV item "id") ("faq-q-" ++ toString i)
  let aId := safeId (jgetV item "id") ("faq-a-" ++ toString i)
  el "div" [cAttr "ap-faq-item"]
    [.cnode (el "button"
        [cAttr "ap-faq-item-q", ("type", .avStr "button"), ("id", .avStr qId),
         ("aria-expanded", .avStr "false"), ("aria-controls", .avStr aId),
         ("onClick", .avFn)]
        [.cstr (sTxtOr (jgetV item "question") ""), .cnode chevronSvg]),
     .cnode (el "div"
        [cAttr "ap-faq-item-a", ("id", .avStr aId), ("role", .avStr "region"),
         ("aria-labelledby", .avStr qId)]
        [.cnode (el "div" [cAttr "ap-faq-item-a-text"]
          [.cstr (sTxtOr (jgetV item "answer") "")])])]

/-- Source `RENDERERS.faq` (lines 1412-1470). -/
def renderFaq (data : JVal) : DNode :=
  el "div" [cAttr "ap-section"]
    ((if jsTruthy (fld data "heading") then
        [ElChild.cnode (if normalizeAlign (fld data "align") = "center" then
            styleSet (el "h2" [cAttr "ap-heading ap-heading--2 ap-mb-6"]
              [.cstr (sanitizeText (fld data "heading"))]) "textAlign" "center"
          else el "h2" [cAttr "ap-heading ap-heading--2 ap-mb-6"]
              [.cstr (sanitizeText (fld data "heading"))])] else [])
     ++ [ElChild.cnode (el "div" [cAttr "ap-faq"]
          ((arrItems (fld data "items")).enum.map
            (fun p => ElChild.cnode (faqItem p.1 p.2))))])

/-- Source `RENDERERS.quote` (lines 1472-1484). -/
def renderQuote (data : JVal) : DNode :=
  el "div" [cAttr "ap-section"]
    [.cnode (el "blockquote" [cAttr "ap-quote"]
      ([ElChild.cnode (el "div" [cAttr "ap-quote-text"]
          [.cstr (sTxtOr (fld data "text") "")])]
       ++ (if jsTruthy (fld data "author") then
          [ElChild.cnode (el "div" [cAttr "ap-quote-author"]
            [.cstr (sTxtOr (fld data "author") "")])] else [])))]

/-- `typeof item === 'string' ? item : item && item.text ? item.text : ''`
(line 1508). -/
def listItemText (item : JVal) : JVal :=
  match item with
  | .jstr s => .jstr s
  | v =>
      if jsTruthy (some v) && jsTruthy (jgetV v "text") then (jgetV v "text").getD .jnull
      else .jstr ""

/-- One `list` item (lines 1495-1512). -/
def listItem (ordered : Bool) (i : Nat) (item : JVal) : DNode :=
  el "div" [cAttr "ap-list-item"]
    [.cnode (if ordered then
        styleSet (styleSet (el "div" [cAttr "ap-list-item-marker"]
          [.cstr (toString (i + 1) ++ ".")]) "fontWeight" "600") "minWidth" "20px"
      else el "div" [cAttr "ap-list-item-marker"] [.cnode (renderIcon "check" 16)]),
     .cnode (el "div" [cAttr "ap-list-item-text"]
       [.cstr (sanitizeText (some (listItemText item)))])]

/-- Source `RENDERERS.list` (lines 1486-1516). -/
def renderList (data : JVal) : DNode :=
  el "div" [cAttr "ap-section"]
    ((if jsTruthy (fld data "heading") then
        [ElChild.cnode (el "h2" [cAttr "ap-heading ap-heading--2 ap-mb-4"]
          [.cstr (sanitizeText (fld data "heading"))])] else [])
     ++ [ElChild.cnode (el "div" [cAttr "ap-list"]
          ((arrItems (fld data "items")).enum.map
            (fun p => ElChild.cnode (listItem (jsTruthy (fld data "ordered")) p.1 p.2))))])

/-- Source `RENDERERS.code` (lines 1518-1557); the copy button's
`addEventListener('click', ...)` is the `onClick` entry. -/
def renderCode (data : JVal) : DNode :=
  let codeText := sanitizeText (some (jsOr (fld data "code") (jsOr (fld data "text") (.jstr ""))))
  el "div" [cAttr "ap-section"]
    [.cnode (el "div" [cAttr "ap-code"]
      [.cnode (el "div" [cAttr "ap-code-header"]
        [.cnode (el "span" [cAttr "ap-code-lang"] [.cstr (sTxtOr (fld data "language") "CODE")]),
         .cnode (el "button"
           [("type", .avStr "button"), cAttr "ap-code-copy",
            ("dataset", .avDataset [("action", "code:copy")]),
            ("aria-label", .avStr "Copy code to clipboard"), ("onClick", .avFn)]
           [.cnode (renderIcon "copy" 16), .cstr "Copy"])]),
       .cnode (el "pre" [cAttr "ap-code-body"] [.cnode (el "code" [] [.cstr codeText])])])]

/-- Source `RENDERERS.cta` (lines 1559-1607), the two buttons shaped like
the hero CTA. -/
def renderCta (data : JVal) : DNode :=
  el "div" [cAttr "ap-cta ap-section"]
    ((if jsTruthy (fld data "heading") then
        [ElChild.cnode (el "h2" [cAttr "ap-cta-heading"]
          [.cstr (sanitizeText (fld data "heading"))])] else [])
     ++ (if jsTruthy (fld data "body") then
        [ElChild.cnode (el "p" [cAttr "ap-cta-body"]
          [.cstr (sanitizeText (fld data "body"))])] else [])
     ++ [ElChild.cnode (el "div"
          [("style", .avStyle [("display", "flex"), ("gap", "12px"),
            ("justifyContent", "center"), ("flexWrap", "wrap")])]
          ((if jsTruthy (fld data "primary") && jsTruthy (fld2 data "primary" "text") then
              [ElChild.cnode (el "a"
                [cAttr "ap-btn ap-btn--primary",
                 ("href", .avStr (if jsTruthy (fld2 data "primary" "url")
                    then sanitizeUrl (fld2 data "primary" "url") else "#")),
                 ("dataset", .avDataset (if jsTruthy (fld2 data "primary" "action")
                    then [("action", sanitizeActionName (fld2 data "primary" "action"))] else []))]
                [.cstr (sanitizeText (fld2 data "primary" "text"))])] else [])
           ++ (if jsTruthy (fld data "secondary") && jsTruthy (fld2 data "secondary" "text") then
              [ElChild.cnode (el "a"
                [cAttr "ap-btn ap-btn--secondary",
                 ("href", .avStr (if jsTruthy (fld2 data "secondary" "url")
                    then sanitizeUrl (fld2 data "secondary" "url") else "#")),
                 ("dataset", .avDataset (if jsTruthy (fld2 data "secondary" "action")
                    then [("action", sanitizeActionName (fld2 data "secondary" "action"))] else []))]
                [.cstr (sanitizeText (fld2 data "secondary" "text"))])] else [])))])

/-- Source `RENDERERS.divider` (lines 1609-1611). -/
def renderDivider : DNode := el "hr" [cAttr "ap-divider"] []

/-- The clamped `columns` count string
(`Math.min(Math.max(data.count || 2, 2), 4)`). -/
def colCountStr (v : Option JVal) : String :=
  match jsNumCoerce (jsOr v (.jnum 2)) with
  | some n => toString (min (max n 2) 4)
  | none => "NaN"

/-- Source `RENDERERS.columns` (lines 1613-1635). -/
def renderColumns (r : JVal → Option DNode) (data : JVal) : DNode :=
  el "div" [cAttr "ap-section"]
    [.cnode (el "div" [cAttr ("ap-columns ap-columns--" ++ colCountStr (fld data "count"))]
      ((arrItems (fld data "items")).map (fun col => ElChild.cnode
        (el "div" [] ((nestChildren r (jgetV col "sections")).map ElChild.cnode)))))]

/-- Source `RENDERERS['image-text']` (lines 1637-1661). -/
def renderImageText (data : JVal) : DNode :=
  el "div" [cAttr "ap-section"]
    [.cnode (el "div" [cAttr "ap-image-text"]
      [.cnode (if jsTruthy (fld data "image") then
          el "div" [cAttr "ap-image-text-image"]
            [.cnode (el "img" [("src", .avStr (sanitizeUrl (fld data "image"))),
              ("alt", .avStr (sTxtOr (fld data "alt") ""))] [])]
        else el "div" [cAttr "ap-image-text-image"]
            [.cstr (sTxtOr (fld data "placeholder") "Image")]),
       .cnode (el "div" [cAttr "ap-image-text-content"]
         ((if jsTruthy (fld data "title") then
            [ElChild.cnode (el "h3" [cAttr "ap-image-text-title"]
              [.cstr (sanitizeText (fld data "title"))])] else [])
          ++ (if jsTruthy (fld data "body") then
            [ElChild.cnode (el "p" [cAttr "ap-image-text-body"]
              [.cstr (sanitizeText (fld data "body"))])] else [])))])]

/-- One `timeline` entry (lines 1672-1683). -/
def timelineItem (item : JVal) : DNode :=
  el "div" [cAttr "ap-timeline-item"]
    ([ElChild.cnode (el "div" [cAttr "ap-timeline-item-dot"] [])]
     ++ (if jsTruthy (jgetV item "date") then
        [ElChild.cnode (el "div" [cAttr "ap-timeline-item-date"]
          [.cstr (sanitizeText (jgetV item "date"))])] else [])
     ++ [ElChild.cnode (el "div" [cAttr "ap-timeline-item-title"]
          [.cstr (sTxtOr (jgetV item "title") "")])]
     ++ (if jsTruthy (jgetV item "body") then
        [ElChild.cnode (el "div" [cAttr "ap-timeline-item-body"]
          [.cstr (sanitizeText (jgetV item "body"))])] else []))

/-- Source `RENDERERS.timeline` (lines 1663-1688). -/
def renderTimeline (data : JVal) : DNode :=
  el "div" [cAttr "ap-section"]
    ((if jsTruthy (fld data "heading") then
        [ElChild.cnode (el "h2" [cAttr "ap-heading ap-heading--2 ap-mb-6"]
          [.cstr (sanitizeText (fld data "heading"))])] else [])
     ++ [ElChild.cnode (el "div" [cAttr "ap-timeline"]
          ((arrItems (fld data "items")).map
            (fun it => ElChild.cnode (timelineItem it))))])

/-- `Array.isArray(data.tabs) ? data.tabs.slice(0, maxTabs) : []`. -/
def tabsOf (v : Option JVal) : List JVal :=
  match v with
  | some (.jarr xs) => xs.take maxTabs
  | _ => []

/-- The initial active tab index (line 1705). -/
def tabActiveIdx (v : Option JVal) (len : Nat) : Int :=
  match v with
  | some (.jnum n) => max 0 (min n ((len : Int) - 1))
  | _ => 0

/-- `safeId(ids[index], baseId + '-tab-' + index)` where
`ids[index] = safeId(t.id, baseId + '-tab-' + index)` (lines 1704, 1731). -/
def tabIdOf (baseId : String) (i : Nat) (tab : JVal) : String :=
  safeId (some (.jstr (safeId (jgetV tab "id") (baseId ++ "-tab-" ++ toString i))))
    (baseId ++ "-tab-" ++ toString i)

/-- One tab button (lines 1733-1750). -/
def tabBtn (baseId : String) (active : Int) (i : Nat) (tab : JVal) : DNode :=
  el "button"
    [("type", .avStr "button"),
     cAttr ("ap-tabset-tab" ++ (if (i : Int) = active then " ap-tabset-tab--active" else "")),
     ("role", .avStr "tab"), ("id", .avStr (tabIdOf baseId i tab)),
     ("aria-selected", .avStr (if (i : Int) = active then "true" else "false")),
     ("aria-controls", .avStr (baseId ++ "-panel-" ++ toString i)),
     ("tabindex", .avStr (if (i : Int) = active then "0" else "-1")),
     ("onClick", .avFn)]
    [.cstr (sanitizeText (some (jsOr (jgetV tab "label")
        (.jstr ("Tab " ++ toString (i + 1))))))]

/-- One tab panel (lines 1752-1763): `panel.hidden = index !== activeIndex`
is the conditional `hidden` attribute. -/
def tabPanelBase (r : JVal → Option DNode) (baseId : String) (i : Nat)
    (tab : JVal) : DNode :=
  el "div"
    [cAttr "ap-tabset-panel", ("role", .avStr "tabpanel"),
     ("id", .avStr (baseId ++ "-panel-" ++ toString i)),
     ("aria-labelledby", .avStr (tabIdOf baseId i tab))]
    ((match jgetV tab "sections" with
      | some (.jarr xs) => xs.flatMap (fun s => match r s with
          | some n => [n]
          | none => [])
      | _ => []).map ElChild.cnode)

/-- `panel.hidden = index !== activeIndex` as the conditional `hidden`
attribute on the base panel. -/
def tabPanel (r : JVal → Option DNode) (baseId : String) (active : Int) (i : Nat)
    (tab : JVal) : DNode :=
  if (i : Int) = active then tabPanelBase r baseId i tab
  else attrSet (tabPanelBase r baseId i tab) "hidden" ""

/-- The optional tabset heading (lines 1695-1699). -/
def tabsetHeading (data : JVal) : List ElChild :=
  if jsTruthy (fld data "heading") then
    [ElChild.cnode (el "h2" [cAttr "ap-heading ap-heading--2 ap-tabset-header"]
      [.cstr (sanitizeText (fld data "heading"))])]
  else []

/-- Source `RENDERERS.tabset` (lines 1691-1785); the `Math.random()` id
suffix is caller-independent and modeled by a fixed string, and the
tab-bar `keydown` listener is the `onKeydown` entry. -/
def renderTabset (r : JVal → Option DNode) (data : JVal) : DNode :=
  let tabs := tabsOf (fld data "tabs")
  let headingPart := tabsetHeading data
  if tabs.isEmpty then el "div" [cAttr "ap-section"] headingPart
  else
    let baseId := safeId (fld data "id") "tabset-r6"
    let active := tabActiveIdx (fld data "activeIndex") tabs.length
    el "div" [cAttr "ap-section"]
      (headingPart
       ++ [ElChild.cnode (el "div"
            [cAttr "ap-tabset-tabs", ("role", .avStr "tablist"),
             ("aria-orientation", .avStr "horizontal"),
             ("aria-label", .avStr (sanitizeText (some (jsOr (fld data "ariaLabel")
                (jsOr (fld data "heading") (.jstr "Tabs")))))),
             ("onKeydown", .avFn)]
            (tabs.enum.map (fun p => ElChild.cnode (tabBtn baseId active p.1 p.2)))),
          ElChild.cnode (el "div" [cAttr "ap-tabset-panels"]
            (tabs.enum.map (fun p => ElChild.cnode (tabPanel r baseId active p.1 p.2))))])

/-- `field.type || 'text'`. -/
def ftypeOf (field : JVal) : JVal := jsOr (jgetV field "type") (.jstr "text")

/-- `safeId(field.name, 'field-' + i)` (line 1817). -/
def fieldKeyR (field : JVal) (i : Nat) : String :=
  safeId (jgetV field "name") ("field-" ++ toString i)

/-- `typeof field.name === 'string' ? field.name : key` (line 1889). -/
def fieldNameR (field : JVal) (i : Nat) : String :=
  match jgetV field "name" with
  | some (.jstr s) => s
  | _ => fieldKeyR field i

/-- `field.label || name || 'Field'` (line 1890). -/
def labelTextV (field : JVal) (i : Nat) : JVal :=
  jsOr (jgetV field "label") (jsOr (some (.jstr (fieldNameR field i))) (.jstr "Field"))

/-- The constraint attributes applied to the base control
(lines 1959-1971), in source order. -/
def fieldConstraintAttrs (field : JVal) : List (String × String) :=
  (if jsTruthy (jgetV field "required") then
    [("aria-required", "true"), ("required", "required")] else [])
  ++ (match jgetV field "minLength" with
      | some (.jnum n) => [("minlength", toString n)]
      | _ => [])
  ++ (match jgetV field "maxLength" with
      | some (.jnum n) => [("maxlength", toString n)]
      | _ => [])
  ++ (if jsTruthy (jgetV field "pattern") then
    [("pattern", jsToString ((jgetV field "pattern").getD .jnull))] else [])
  ++ (match jgetV field "min" with
      | some (.jnum n) => [("min", toString n)]
      | _ => [])
  ++ (match jgetV field "max" with
      | some (.jnum n) => [("max", toString n)]
      | _ => [])
  ++ (match jgetV field "step" with
      | some (.jnum n) => [("step", toString n)]
      | _ => [])
  ++ (if jsTruthy (jgetV field "disabled") then [("disabled", "disabled")] else [])
  ++ (if jsTruthy (jgetV field "readOnly") then [("readonly", "readonly")] else [])

/-- The `validateOn` mode (line 2040). -/
def validateMode (data : JVal) : String :=
  if isStrVal (fld data "validateOn") "change" then "change"
  else if isStrVal (fld data "validateOn") "blur" then "blur"
  else if isStrVal (fld data "validateOn") "always" then "always"
  else "submit"

/-- The realtime-validation listeners wired on the base control
(lines 2043-2057). -/
def realtimeListeners (mode : String) : List String :=
  (if mode = "change" ∨ mode = "always" then ["input", "change"] else [])
  ++ (if mode = "blur" ∨ mode = "always" then ["blur"] else [])

/-- `setAttribute` batch. -/
def attrsAddAll (n : DNode) (l : List (String × String)) : DNode :=
  l.foldl (fun acc p => attrSet acc p.1 p.2) n

/-- `addEventListener` batch. -/
def listenersAddAll (n : DNode) (es : List String) : DNode :=
  es.foldl listenerAdd n

/-- `describedBy.join(' ')` (lines 1894, 1990): the help id when help text
exists, then the error id. -/
def describedByStr (formId key : String) (field : JVal) : String :=
  String.intercalate " "
    ((if jsTruthy (jgetV field "helpText") then [formId ++ "-help-" ++ key] else [])
     ++ [formId ++ "-err-" ++ key])

/-- One select option (lines 1919-1924). -/
def optionNode (opt : JVal) : DNode :=
  let lbl : JVal := match opt with
    | .jstr s => .jstr s
    | v => if jsTruthy (some v) then
        jsOr (jgetV v "label") (jsOr (jgetV v "value") (.jstr ""))
      else .jstr ""
  let vVal : JVal := match opt with
    | .jstr s => .jstr s
    | v => if jsTruthy (some v) then
        jsOr (jgetV v "value") (jsOr (jgetV v "label") (.jstr ""))
      else .jstr ""
  el "option" [("value", .avStr (jsToString vVal))]
    [.cstr (sanitizeText (some (.jstr (jsToString lbl))))]

/-- The base control of one form field (lines 1901-1957), with the
constraint attributes, `aria-describedby` and realtime listeners applied
to it (lines 1959-1971, 1990-1992, 2043-2057); `.value` and `.checked`
property writes are kept as attribute entries. -/
def fieldControl (formId : String) (mode : String) (field : JVal) (i : Nat) : DNode :=
  let key := fieldKeyR field i
  let name := fieldNameR field i
  let ft := ftypeOf field
  let finish := fun (base : DNode) =>
    listenersAddAll
      (attrSet (attrsAddAll base (fieldConstraintAttrs field))
        "aria-describedby" (describedByStr formId key field))
      (realtimeListeners mode)
  if isStrVal (some ft) "textarea" then
    let base := el "textarea"
      [cAttr "ap-form-field-textarea", ("id", .avStr (formId ++ "-" ++ key)),
       ("name", .avStr name),
       ("placeholder", .avStr (if jsTruthy (jgetV field "placeholder")
          then sanitizeText (jgetV field "placeholder") else "")),
       ("rows", .avStr (match jgetV field "rows" with
          | some (.jnum n) => toString n
          | _ => "3"))] []
    finish (if jsTruthy (jgetV field "defaultValue") then
        attrSet base "value" (jsToString ((jgetV field "defaultValue").getD .jnull))
      else base)
  else if isStrVal (some ft) "select" then
    let base := el "select"
      [cAttr "ap-form-field-select", ("id", .avStr (formId ++ "-" ++ key)),
       ("name", .avStr name)]
      ((match jgetV field "options" with
        | some (.jarr xs) => xs.take maxOptionsPerSelect
        | _ => []).map (fun o => ElChild.cnode (optionNode o)))
    finish (match jgetV field "defaultValue" with
      | some .jnull => base
      | some v => attrSet base "value" (jsToString v)
      | none => base)
  else if isStrVal (some ft) "checkbox" || isStrVal (some ft) "radio" then
    let input0 := el "input"
      [("id", .avStr (formId ++ "-" ++ key)), ("type", .avStr (jsToString ft)),
       ("name", .avStr name),
       ("value", .avStr (jsToString (jsOr (jgetV field "value") (.jstr "on"))))] []
    let input1 := finish (match jgetV field "checked" with
      | some (.jbool true) => attrSet input0 "checked" ""
      | _ => input0)
    el "div" [cAttr "ap-form-field-row"]
      ([ElChild.cnode input1]
       ++ (if jsTruthy (jgetV field "inlineLabel") then
          [ElChild.cnode (el "span" [] [.cstr (sTxtOr (jgetV field "inlineLabel") "")])]
        else []))
  else
    let base := el "input"
      [cAttr "ap-form-field-input", ("id", .avStr (formId ++ "-" ++ key)),
       ("type", .avStr (jsToString ft)), ("name", .avStr name),
       ("placeholder", .avStr (if jsTruthy (jgetV field "placeholder")
          then sanitizeText (jgetV field "placeholder") else ""))] []
    let base1 := if jsTruthy (jgetV field "defaultValue") then
        attrSet base "value" (jsToString ((jgetV field "defaultValue").getD .jnull))
      else base
    let base2 := if jsTruthy (jgetV field "autocomplete") then
        attrSet base1 "autocomplete" (jsToString ((jgetV field "autocomplete").getD .jnull))
      else base1
    finish (if jsTruthy (jgetV field "inputMode") then
        attrSet base2 "inputmode" (jsToString ((jgetV field "inputMode").getD .jnull))
      else base2)

/-- One form field wrapper (lines 1884-1996): label, control, optional
help, error region; non-object entries are skipped (line 1885). -/
def formField (formId : String) (mode : String) (i : Nat) (field : JVal) : List DNode :=
  match field with
  | .jobj _ =>
      let key := fieldKeyR field i
      [el "div" []
        ([ElChild.cnode (el "label"
            [cAttr "ap-form-field-label", ("for", .avStr (formId ++ "-" ++ key))]
            [.cstr (sanitizeText (some (labelTextV field i)))]),
          ElChild.cnode (fieldControl formId mode field i)]
         ++ (if jsTruthy (jgetV field "helpText") then
            [ElChild.cnode (el "div"
              [cAttr "ap-form-field-help", ("id", .avStr (formId ++ "-help-" ++ key))]
              [.cstr (sanitizeText (jgetV field "helpText"))])] else [])
         ++ [ElChild.cnode (styleSet (el "div"
              [cAttr "ap-form-field-error", ("id", .avStr (formId ++ "-err-" ++ key)),
               ("role", .avStr "alert"), ("aria-live", .avStr "polite")] [])
              "display" "none")])]
  | _ => []

/-- Source `RENDERERS.form` (lines 1787-2121): heading, description, the
form element (submit listener as `onSubmit`), field wrappers, and the
submit/cancel action buttons; the `Math.random()` form id suffix is
modeled by a fixed string. -/
def renderForm (data : JVal) : DNode :=
  let formId := safeId (fld data "id") "form-r6"
  let mode := validateMode data
  let fields := match fld data "fields" with
    | some (.jarr xs) => xs.take maxFields
    | _ => []
  el "div" [cAttr "ap-section"]
    ((if jsTruthy (fld data "heading") then
        [ElChild.cnode (el "h2" [cAttr "ap-heading ap-heading--2 ap-mb-2"]
          [.cstr (sanitizeText (fld data "heading"))])] else [])
     ++ (if jsTruthy (fld data "description") then
        [ElChild.cnode (el "p" [cAttr "ap-text ap-mb-4"]
          [.cstr (sanitizeText (fld data "description"))])] else [])
     ++ [ElChild.cnode (el "form"
          [cAttr "ap-form", ("id", .avStr formId),
           ("novalidate", .avStr "novalidate"), ("onSubmit", .avFn)]
          [.cnode (el "div" [cAttr "ap-form-fields"]
            ((fields.enum.flatMap (fun p => formField formId mode p.1 p.2)).map ElChild.cnode)),
           .cnode (el "div" [cAttr "ap-form-actions"]
            ((if jsTruthy (fld data "submit") && jsTruthy (fld2 data "submit" "text") then
                [ElChild.cnode (el "button"
                  [("type", .avStr "submit"), cAttr "ap-btn ap-btn--primary"]
                  [.cstr (sanitizeText (fld2 data "submit" "text"))])] else [])
             ++ (if jsTruthy (fld data "cancel") && jsTruthy (fld2 data "cancel" "text") then
                [ElChild.cnode (el "button"
                  [("type", .avStr "button"), cAttr "ap-btn ap-btn--secondary",
                   ("onClick", .avFn)]
                  [.cstr (sanitizeText (fld2 data "cancel" "text"))])] else [])))])])

/-- The video thumbnail pane before the optional action wiring
(lines 2138-2152). -/
def mediaVideoBase (data : JVal) : DNode :=
  styleSet (el "div" [cAttr "ap-media-block-media"]
    [.cnode (el "img" [("src", .avStr (sanitizeUrl (fld data "thumbnail"))),
      ("alt", .avStr (sTxtOr (fld data "alt") ""))] []),
     .cnode (el "div" [("style", .avStyle [("position", "absolute"), ("inset", "0"),
        ("display", "flex"), ("alignItems", "center"),
        ("justifyContent", "center"), ("pointerEvents", "none")])]
      [.cnode (renderIcon "play" 40)])])
    "position" "relative"

/-- The media pane of `media-block` (lines 2128-2160). -/
def mediaBlockMedia (data : JVal) : DNode :=
  let mt := jsOr (fld data "mediaType") (.jstr "image")
  if isStrVal (some mt) "image" && jsTruthy (fld data "image") then
    el "div" [cAttr "ap-media-block-media"]
      [.cnode (el "img" [("src", .avStr (sanitizeUrl (fld data "image"))),
        ("alt", .avStr (sTxtOr (fld data "alt") ""))] [])]
  else if isStrVal (some mt) "video" && jsTruthy (fld data "thumbnail") then
    if jsTruthy (fld data "action") then
      styleSet (attrSet (mediaVideoBase data) "data-action"
          (sanitizeActionName (fld data "action")))
        "cursor" "pointer"
    else mediaVideoBase data
  else if isStrVal (some mt) "icon" && jsTruthy (fld data "icon") then
    el "div" [cAttr "ap-media-block-media"]
      [.cnode (renderIcon (iconNameOf (fld data "icon")) 40)]
  else
    el "div" [cAttr "ap-media-block-media"] [.cstr (sTxtOr (fld data "placeholder") "Media")]

/-- Source `RENDERERS['media-block']` (lines 2123-2177). -/
def renderMediaBlock (data : JVal) : DNode :=
  let mediaDiv := mediaBlockMedia data
  el "div" [cAttr "ap-section"]
    [.cnode (el "div" [cAttr "ap-media-block"]
      [.cnode mediaDiv,
       .cnode (el "div" [cAttr "ap-media-block-content"]
         ((if jsTruthy (fld data "label") then
            [ElChild.cnode (el "div" [cAttr "ap-hero-label ap-mb-2"]
              [.cstr (sanitizeText (fld data "label"))])] else [])
          ++ (if jsTruthy (fld data "title") then
            [ElChild.cnode (el "h3" [cAttr "ap-media-block-title"]
              [.cstr (sanitizeText (fld data "title"))])] else [])
          ++ (if jsTruthy (fld data "body") then
            [ElChild.cnode (el "p" [cAttr "ap-media-block-body"]
              [.cstr (sanitizeText (fld data "body"))])] else [])))])]

/-- The built-in registry dispatch of `renderSection` (lines 2522-2544),
with a recursion budget for the nested renderers (the source recursion is
unbounded; the budget only caps how deep the model unfolds, and every
produced tree is a tree the source produces).  A non-string `type`, or one
outside the registry, renders nothing. -/
def renderNode : Nat → String → JVal → Option DNode
  | 0, _, _ => none
  | gas + 1, ty, data =>
      let r := fun s => match jgetV s "type" with
        | some (.jstr t) => renderNode gas t s
        | _ => none
      match ty with
      | "hero" => some (renderHero data)
      | "heading" => some (renderHeading data)
      | "text" => some (renderText data)
      | "stack" => some (renderStack r data)
      | "card" => some (renderCard r data)
      | "feature-grid" => some (renderFeatureGrid data)
      | "stat-row" => some (renderStatRow data)
      | "comparison-table" => some (renderCompTable data)
      | "steps" => some (renderSteps data)
      | "callout" => some (renderCallout data)
      | "faq" => some (renderFaq data)
      | "quote" => some (renderQuote data)
      | "list" => some (renderList data)
      | "code" => some (renderCode data)
      | "cta" => some (renderCta data)
      | "divider" => some renderDivider
      | "columns" => some (renderColumns r data)
      | "image-text" => some (renderImageText data)
      | "timeline" => some (renderTimeline data)
      | "tabset" => some (renderTabset r data)
      | "form" => some (renderForm data)
      | "media-block" => some (renderMediaBlock data)
      | _ => none

/-- One nested `renderSection` call: dispatch on the section's `type`. -/
def renderSec (gas : Nat) (s : JVal) : Option DNode :=
  match jgetV s "type" with
  | some (.jstr t) => renderNode gas t s
  | _ => none

/-! ## Section normalizer (source `_normalizeSections`, lines 2450-2520)

The source recursion is bounded by `depth`: a call at `depth` returns `[]`
when `depth > maxDepth` and recurses into nested containers at
`depth + 1`.  The embedding runs on the equivalent descending counter
`gas = maxDepth + 1 - depth`, so that recursion is structural and the
definitions compute by `rfl`: `gas = 0` is exactly `depth > maxDepth`,
and the source's entry call at `depth = 0` is `gas = maxDepth + 1`. -/

/-- The closed set of built-in renderer type names (the keys installed on
`RENDERERS`, source lines 1159-2177). -/
def rendererKeys : List String :=
  ["hero", "heading", "text", "stack", "card", "feature-grid", "stat-row",
   "comparison-table", "steps", "callout", "faq", "quote", "list", "code",
   "cta", "divider", "columns", "image-text", "timeline", "tabset", "form",
   "media-block"]

/-- Source `_isKnownType` (lines 2442-2448), parameterized by the key set
(built-ins plus any host-registered custom/catalog names).  Property
lookup with a non-string key cannot match a registered renderer name in
the model. -/
def isKnownType (keys : List String) : Option JVal → Bool
  | some (.jstr t) => keys.contains t
  | _ => false

/-- Clamp every string-valued top-level field (source lines 2463-2467). -/
def clampFields (kvs : List (String × JVal)) : List (String × JVal) :=
  kvs.map (fun p => match p with
    | (k, .jstr s) => (k, .jstr (clampString s))
    | (k, v) => (k, v))

/-- Cap an array-valued field at `n` entries, leaving anything else
untouched (the `Array.isArray` guards of lines 2470-2485). -/
def sliceArrField (kvs : List (String × JVal)) (key : String) (n : Nat) :
    List (String × JVal) :=
  match jget kvs key with
  | some (.jarr xs) => jset kvs key (.jarr (xs.take n))
  | _ => kvs

/-- Map a function over an array-valued field (the nested-container maps
of lines 2490-2508). -/
def mapArrField (kvs : List (String × JVal)) (key : String) (f : JVal → JVal) :
    List (String × JVal) :=
  match jget kvs key with
  | some (.jarr xs) => jset kvs key (.jarr (xs.map f))
  | _ => kvs

/-- One `columns` item (source lines 2491-2497): non-objects become `{}`
(arrays pass the `typeof` guard and are returned unchanged), objects with
an array `sections` field get it normalized recursively. -/
def normCol (recNorm : List JVal → List JVal) : JVal → JVal
  | .jobj ck =>
      match jget ck "sections" with
      | some (.jarr secs) => .jobj (jset ck "sections" (.jarr (recNorm secs)))
      | _ => .jobj ck
  | .jarr xs => .jarr xs
  | _ => .jobj []

/-- One `tabset` tab (source lines 2501-2507), same shape as `normCol`. -/
def normTab (recNorm : List JVal → List JVal) : JVal → JVal
  | .jobj tk =>
      match jget tk "sections" with
      | some (.jarr secs) => .jobj (jset tk "sections" (.jarr (recNorm secs)))
      | _ => .jobj tk
  | .jarr xs => .jarr xs
  | _ => .jobj []

/-- The `items` cap (source lines 2470-2473): FAQ entries are capped
independently, `comparison-table` items are left alone, everything else is
capped at the generic list limit. -/
def stageItems (ty : Option JVal) (kvs : List (String × JVal)) : List (String × JVal) :=
  match jget kvs "items" with
  | some (.jarr xs) =>
      if isStrVal ty "faq" then jset kvs "items" (.jarr (xs.take maxFaqItems))
      else if ¬ isStrVal ty "comparison-table" then
        jset kvs "items" (.jarr (xs.take maxItemsPerList))
      else kvs
  | _ => kvs

/-- A guarded collection cap (the `rows`/`tabs`/`fields` slices of lines
2475-2485). -/
def stageSlice (cond : Bool) (key : String) (n : Nat) (kvs : List (String × JVal)) :
    List (String × JVal) :=
  if cond then sliceArrField kvs key n else kvs

/-- A guarded nested-container map (lines 2490-2508). -/
def stageMap (cond : Bool) (key : String) (f : JVal → JVal)
    (kvs : List (String × JVal)) : List (String × JVal) :=
  if cond then mapArrField kvs key f else kvs

/-- The `card`/`stack` nested-sections normalization (lines 2510-2512). -/
def stageSections (cond : Bool) (recNorm : List JVal → List JVal)
    (kvs : List (String × JVal)) : List (String × JVal) :=
  if cond then
    match jget kvs "sections" with
    | some (.jarr secs) => jset kvs "sections" (.jarr (recNorm secs))
    | _ => kvs
  else kvs

/-- Per-entry processing of one accepted section (source lines 2461-2513),
in source order: shallow copy with string clamping, the type-specific
collection caps, then recursive normalization of nested containers through
`recNorm` (the normalizer one depth deeper). -/
def normEntry (recNorm : List JVal → List JVal) (kvs : List (String × JVal)) :
    List (String × JVal) :=
  let s1 := clampFields kvs
  let ty := jget s1 "type"
  stageSections (isStrVal ty "card" || isStrVal ty "stack") recNorm
    (stageMap (isStrVal ty "tabset") "tabs" (normTab recNorm)
      (stageMap (isStrVal ty "columns") "items" (normCol recNorm)
        (stageSlice (isStrVal ty "form") "fields" maxFields
          (stageSlice (isStrVal ty "tabset") "tabs" maxTabs
            (stageSlice (isStrVal ty "comparison-table") "rows" maxRowsPerTable
              (stageItems ty s1))))))

/-- The entry loop of `_normalizeSections` (lines 2456-2517): skip
non-objects and entries whose `type` is falsy or unknown (a non-object
value can never carry a truthy known `type`, so matching objects first is
equivalent to the source's two guards); push processed entries and stop
once the accepted count reaches `maxSections`. -/
def normList (keys : List String) (recNorm : List JVal → List JVal) :
    List JVal → Nat → List JVal
  | [], _ => []
  | raw :: rest, count =>
      match raw with
      | .jobj kvs =>
          if jsTruthy (jget kvs "type") && isKnownType keys (jget kvs "type") then
            let s : JVal := .jobj (normEntry recNorm kvs)
            if maxSections ≤ count + 1 then [s]
            else s :: normList keys recNorm rest (count + 1)
          else normList keys recNorm rest count
      | _ => normList keys recNorm rest count

/-- Source `_normalizeSections(sections, depth)` on the descending
counter `gas = maxDepth + 1 - depth`. -/
def normSections (keys : List String) : Nat → List JVal → List JVal
  | 0, _ => []
  | gas + 1, sections => normList keys (normSections keys gas) sections 0

/-- The top-level normalization call (`depth = 0`, source line 2605). -/
def normalizeTop (keys : List String) (sections : List JVal) : List JVal :=
  normSections keys (maxDepth + 1) sections

/-- The `type` field of a section value, as a string when present. -/
def typeOfSection (v : JVal) : Option String :=
  match jgetV v "type" with
  | some (.jstr t) => some t
  | _ => none

/-! ## JSON wire format

The streaming decoders consume raw JSON text.  `serV` is the standard
compact JSON serialization of a `JVal` (the wire encoding a well-behaved
producer such as `JSON.stringify` emits, restricted to the integer
numerals `JVal` carries), and `jparse` models `JSON.parse` on that
whitespace-free fragment.  The round-trip theorem below is what the
source relies on when it re-parses an emitted object string. -/

/-- JSON string-body escaping for one character. -/
def escChar (c : Char) : List Char :=
  if c = '"' then ['\\', '"']
  else if c = '\\' then ['\\', '\\']
  else if c = '\n' then ['\\', 'n']
  else if c = '\r' then ['\\', 'r']
  else if c = '\t' then ['\\', 't']
  else [c]

def escString (s : List Char) : List Char := s.flatMap escChar

/-- Serialized string literal including the surrounding quotes. -/
def serStr (s : String) : List Char := '"' :: (escString s.data ++ ['"'])

/-- Decimal digits of a natural number, most significant first. -/
def serNat (n : Nat) : List Char :=
  if n = 0 then ['0'] else ((Nat.digits 10 n).map Nat.digitChar).reverse

def serNum : Int → List Char
  | .ofNat m => serNat m
  | .negSucc m => '-' :: serNat (m + 1)

mutual
/-- Compact JSON serialization of a value. -/
def serV : JVal → List Char
  | .jnull => ['n', 'u', 'l', 'l']
  | .jbool true => ['t', 'r', 'u', 'e']
  | .jbool false => ['f', 'a', 'l', 's', 'e']
  | .jnum n => serNum n
  | .jstr s => serStr s
  | .jarr xs => '[' :: (serItems xs ++ [']'])
  | .jobj kvs => '{' :: (serFields kvs ++ ['}'])
def serItems : List JVal → List Char
  | [] => []
  | [v] => serV v
  | v :: rest => serV v ++ ',' :: serItems rest
def serFields : List (String × JVal) → List Char
  | [] => []
  | [(k, v)] => serStr k ++ ':' :: serV v
  | (k, v) :: rest => serStr k ++ ':' :: serV v ++ ',' :: serFields rest
end

/-- Undo one string escape. -/
def unescChar (c : Char) : Char :=
  if c = 'n' then '\n' else if c = 'r' then '\r' else if c = 't' then '\t' else c

/-- Parse a string-literal body (after the opening quote), returning the
decoded characters and the input after the closing quote. -/
def parseStrBody : List Char → Option (List Char × List Char)
  | [] => none
  | c :: rest =>
      if c = '"' then some ([], rest)
      else if c = '\\' then
        match rest with
        | [] => none
        | e :: rest2 => (parseStrBody rest2).map (fun p => (unescChar e :: p.1, p.2))
      else (parseStrBody rest).map (fun p => (c :: p.1, p.2))

def charDigit (c : Char) : Nat := c.toNat - 48

/-- Parse a nonempty decimal-digit prefix. -/
def parseNatChars (cs : List Char) : Option (Nat × List Char) :=
  let ds := cs.takeWhile Char.isDigit
  if ds = [] then none
  else some (Nat.ofDigits 10 ((ds.map charDigit).reverse), cs.drop ds.length)

mutual
/-- Fuel-indexed JSON value parser (whitespace-free fragment). -/
def parseV : Nat → List Char → Option (JVal × List Char)
  | 0, _ => none
  | _ + 1, [] => none
  | fuel + 1, c :: rest =>
      if c = 'n' then
        match rest with
        | 'u' :: 'l' :: 'l' :: r => some (.jnull, r)
        | _ => none
      else if c = 't' then
        match rest with
        | 'r' :: 'u' :: 'e' :: r => some (.jbool true, r)
        | _ => none
      else if c = 'f' then
        match rest with
        | 'a' :: 'l' :: 's' :: 'e' :: r => some (.jbool false, r)
        | _ => none
      else if c = '"' then
        (parseStrBody rest).map (fun p => (.jstr (String.mk p.1), p.2))
      else if c = '-' then
        (parseNatChars rest).map (fun p => (.jnum (-(p.1 : Int)), p.2))
      else if c.isDigit then
        (parseNatChars (c :: rest)).map (fun p => (.jnum (p.1 : Int), p.2))
      else if c = '[' then
        match rest with
        | ']' :: r => some (.jarr [], r)
        | _ => (parseItems fuel rest).map (fun p => (.jarr p.1, p.2))
      else if c = '{' then
        match rest with
        | '}' :: r => some (.jobj [], r)
        | _ => (parseFields fuel rest).map (fun p => (.jobj p.1, p.2))
      else none
def parseItems : Nat → List Char → Option (List JVal × List Char)
  | 0, _ => none
  | fuel + 1, cs =>
      match parseV fuel cs with
      | none => none
      | some (v, r) =>
          match r with
          | ',' :: r2 => (parseItems fuel r2).map (fun p => (v :: p.1, p.2))
          | ']' :: r2 => some ([v], r2)
          | _ => none
def parseFields : Nat → List Char → Option (List (String × JVal) × List Char)
  | 0, _ => none
  | fuel + 1, cs =>
      match cs with
      | '"' :: r =>
          match parseStrBody r with
          | none => none
          | some (k, r1) =>
              match r1 with
              | ':' :: r2 =>
                  match parseV fuel r2 with
                  | none => none
                  | some (v, r3) =>
                      match r3 with
                      | ',' :: r4 =>
                          (parseFields fuel r4).map
                            (fun p => ((String.mk k, v) :: p.1, p.2))
                      | '}' :: r4 => some ([(String.mk k, v)], r4)
                      | _ => none
              | _ => none
      | _ => none
end

/-- Model of `JSON.parse` on the whitespace-free fragment: succeeds only
when the whole input is consumed. -/
def jparse (cs : List Char) : Option JVal :=
  match parseV (cs.length + 1) cs with
  | some (v, []) => some v
  | _ => none

/-! ## Streaming decoders (source lines 2184-2330) -/

/-- Index of the first occurrence of `pat` in `text`. -/
def indexOfSub (pat : List Char) : List Char → Option Nat
  | [] => if pat.isPrefixOf [] then some 0 else none
  | c :: rest =>
      if pat.isPrefixOf (c :: rest) then some 0
      else (indexOfSub pat rest).map (· + 1)

def containsSub (pat text : List Char) : Bool := (indexOfSub pat text).isSome

/-- `text.indexOf(c, start)`. -/
def indexOfFrom (c : Char) (text : List Char) (start : Nat) : Option Nat :=
  (indexOfSub [c] (text.drop start)).map (· + start)

def sectionsKeyLit : List Char := "\"sections\"".data

/-- State of `StreamingPageParser`; `emitted` captures the `onSection`
calls (each already `JSON.parse`d, as in the source).  `braceDepth` is an
integer because the source decrements it below zero on stray braces. -/
structure SPState where
  buffer : List Char
  insideSections : Bool
  braceDepth : Int
  currentObject : List Char
  inString : Bool
  escapeNext : Bool
  seenSectionsKey : Bool
  seenArrayStart : Bool
  emitted : List JVal
deriving Repr

def spInit : SPState :=
  ⟨[], false, 0, [], false, false, false, false, []⟩

/-- Append `c` to the partial object only while inside one. -/
def spAppend (st : SPState) (c : Char) : List Char :=
  if 0 < st.braceDepth then st.currentObject ++ [c] else st.currentObject

/-- One iteration of the character loop of `StreamingPageParser.feed`
(source lines 2204-2281).  During the search phase the loop examines
`this.buffer`, which already holds the whole fed text. -/
def spStep (st : SPState) (c : Char) : SPState :=
  if ¬ st.insideSections then
    let st1 :=
      if ¬ st.seenSectionsKey then
        if containsSub sectionsKeyLit st.buffer then { st with seenSectionsKey := true } else st
      else st
    if ¬ st1.seenSectionsKey then st1
    else if ¬ st1.seenArrayStart then
      match indexOfSub sectionsKeyLit st1.buffer with
      | some idx =>
          match indexOfFrom '[' st1.buffer (idx + sectionsKeyLit.length) with
          | some _ => { st1 with seenArrayStart := true, insideSections := true }
          | none => st1
      | none => st1
    else st1
  else if st.escapeNext then
    { st with escapeNext := false, currentObject := spAppend st c }
  else if c = '\\' then
    { st with escapeNext := true, currentObject := spAppend st c }
  else if c = '"' then
    { st with inString := !st.inString, currentObject := spAppend st c }
  else if ¬ st.inString then
    if c = '{' then
      { st with braceDepth := st.braceDepth + 1
                currentObject := if st.braceDepth = 0 then ['{'] else st.currentObject ++ ['{'] }
    else if c = '}' then
      let d := st.braceDepth - 1
      let co := if 0 ≤ d then st.currentObject ++ ['}'] else st.currentObject
      if d = 0 then
        let objStr := trimChars co
        { st with braceDepth := d
                  currentObject := []
                  emitted := st.emitted ++
                    (if objStr = [] then []
                     else match jparse objStr with
                          | some o => [o]
                          | none => []) }
      else { st with braceDepth := d, currentObject := co }
    else if c = ']' then
      if st.braceDepth = 0 then { st with insideSections := false }
      else { st with currentObject := st.currentObject ++ [c] }
    else { st with currentObject := spAppend st c }
  else { st with currentObject := spAppend st c }

/-- `StreamingPageParser.feed` (source lines 2199-2287): append the chunk
to the search buffer, run the character loop, then trim the search buffer
to its last 8000 characters once it exceeds 250000. -/
def spFeed (st : SPState) (chunk : List Char) : SPState :=
  if chunk = [] then st
  else
    let stb := { st with buffer := st.buffer ++ chunk }
    let st1 := chunk.foldl spStep stb
    if 250000 < st1.buffer.length then
      { st1 with buffer := st1.buffer.drop (st1.buffer.length - 8000) }
    else st1

/-- Total retained decoder state the claim about bounded buffering is
about: the search buffer plus the partially accumulated object text. -/
def spRetained (st : SPState) : Nat :=
  st.buffer.length + st.currentObject.length

/-! ### NDJSON decoder (source lines 2291-2330) -/

structure NDState where
  lineBuffer : List Char
  emitted : List JVal
deriving Repr

def ndInit : NDState := ⟨[], []⟩

/-- Split off every complete (newline-terminated) line, keeping the
unterminated remainder, exactly as the `while (indexOf('\n'))` loop
consumes the line buffer. -/
def splitNl : List Char → (List (List Char) × List Char)
  | [] => ([], [])
  | c :: rest =>
      if c = '\n' then
        let p := splitNl rest
        ([] :: p.1, p.2)
      else
        let p := splitNl rest
        match p.1 with
        | [] => ([], c :: p.2)
        | l :: ls => ((c :: l) :: ls, p.2)

/-- Handling of one nonempty trimmed line (source lines 2306-2313): parse
it, accept a bare section object (truthy `type`) or a `{section: {...}}`
wrapper, and ignore everything else. -/
def ndHandleLine (line : List Char) : List JVal :=
  match jparse line with
  | none => []
  | some obj =>
      if jsTruthy (some obj) && jsTruthy (jgetV obj "type") then [obj]
      else if jsTruthy (some obj) && jsTruthy (jgetV obj "section") &&
          jsTruthy ((jgetV obj "section").bind (fun s => jgetV s "type")) then
        match jgetV obj "section" with
        | some s => [s]
        | none => []
      else []

/-- `NDJSONSectionParser.feed` (source lines 2297-2318). -/
def ndFeed (st : NDState) (chunk : List Char) : NDState :=
  if chunk = [] then st
  else
    let buf := st.lineBuffer ++ chunk
    let p := splitNl buf
    let ems := p.1.flatMap (fun l =>
      let t := trimChars l
      if t = [] then [] else ndHandleLine t)
    let rem := if 250000 < p.2.length then p.2.drop (p.2.length - 8000) else p.2
    ⟨rem, st.emitted ++ ems⟩

/-- `NDJSONSectionParser.flush` (source lines 2320-2329). -/
def ndFlush (st : NDState) : NDState :=
  let t := trimChars st.lineBuffer
  ⟨[], st.emitted ++ (if t = [] then [] else ndHandleLine t)⟩

/-! ## Render pipelines (source lines 2522-2630) -/

/-- `renderSection` (lines 2522-2544) reduced to the observable the
streaming-equivalence claim compares: the renderer registry is consulted
(host-registered custom renderers first, then built-ins) and a section
with no matching renderer yields `null`; a rendered section contributes
its type to the output trace. -/
def renderSectionType (customKeys : List String) (s : JVal) : Option String :=
  match jgetV s "type" with
  | some (.jstr t) =>
      if customKeys.contains t || rendererKeys.contains t then some t else none
  | _ => none

/-- `addSection` appends the rendered node when `renderSection` returns
one (lines 2556-2585); the trace records its section type. -/
def addSectionTypes (s : JVal) : List String :=
  match renderSectionType [] s with
  | some t => [t]
  | none => []

/-- Type trace of the full-page path `render(pageData)` (lines
2587-2607): normalize the whole section list, then append each section. -/
def renderTypes (sections : List JVal) : List String :=
  (normalizeTop rendererKeys sections).flatMap addSectionTypes

/-- Type trace of `renderStream` (lines 2609-2618): every decoded object
is normalized as a singleton list and appended. -/
def streamTypesSP (chunks : List (List Char)) : List String :=
  ((chunks.foldl spFeed spInit).emitted).flatMap
    (fun o => (normalizeTop rendererKeys [o]).flatMap addSectionTypes)

/-- Type trace of `renderStreamNDJSON` (lines 2620-2630), including the
final `flush`. -/
def streamTypesND (chunks : List (List Char)) : List String :=
  ((ndFlush (chunks.foldl ndFeed ndInit)).emitted).flatMap
    (fun o => (normalizeTop rendererKeys [o]).flatMap addSectionTypes)

/-- The serialized page `{"sections":[...]}` and its chunking at section
boundaries (the "one section at a time" feed of the claim). -/
def pagePrelude : List Char := '{' :: "\"sections\":[".data

def pageClose : List Char := [']', '}']

def serPage (secs : List JVal) : List Char :=
  pagePrelude ++ (serItems secs ++ pageClose)

def sectionChunks : List JVal → List (List Char)
  | [] => []
  | s :: rest => serV s :: rest.map (fun t => ',' :: serV t)

def spChunks (secs : List JVal) : List (List Char) :=
  pagePrelude :: (sectionChunks secs ++ [pageClose])

def ndChunks (secs : List JVal) : List (List Char) :=
  secs.map (fun s => serV s ++ ['\n'])

/-! ## Form validation engine (source lines 1786-2121)

Control values read from the live DOM are strings, booleans (checkbox) or
`null` (unchecked radio group); `undefined` is represented by `Option`.
`RegexEngine` models the browser's `RegExp`: `compile` returns `none` when
the pattern throws a `SyntaxError`, and a compiled pattern is its `test`
function. -/

inductive JSV where
  | vnull
  | vstr (s : String)
  | vbool (b : Bool)
deriving Repr, DecidableEq

/-- JavaScript `String(value)` on control values. -/
def jsvString : JSV → String
  | .vnull => "null"
  | .vstr s => s
  | .vbool true => "true"
  | .vbool false => "false"

/-- Model of `Number(value)` restricted to the integer numerals the
embedding carries; `none` models `NaN` (and the non-finite results the
source guards with `Number.isFinite`). -/
def jsNumber : JSV → Option Int
  | .vnull => some 0
  | .vbool true => some 1
  | .vbool false => some 0
  | .vstr s =>
      let t := trimChars s.data
      if t = [] then some 0
      else match t with
        | '-' :: ds => if ds ≠ [] ∧ ds.all Char.isDigit then
            some (-(Nat.ofDigits 10 ((ds.map charDigit).reverse) : Int)) else none
        | ds => if ds.all Char.isDigit then
            some ((Nat.ofDigits 10 ((ds.map charDigit).reverse) : Int)) else none

structure RegexEngine where
  compile : String → Option (String → Bool)

/-- The field-descriptor properties `validateField` consults; `Option`
encodes absent (or wrongly typed, per the source's `typeof` guards)
properties of the dynamic descriptor object. -/
structure Field where
  name : Option String := none
  label : Option String := none
  rawType : Option String := none
  required : Bool := false
  minLength : Option Int := none
  maxLength : Option Int := none
  pattern : Option String := none
  fmin : Option Int := none
  fmax : Option Int := none
  errorRequired : Option String := none
  errorMinLength : Option String := none
  errorMaxLength : Option String := none
  errorPattern : Option String := none
  errorNumber : Option String := none
  errorMin : Option String := none
  errorMax : Option String := none
deriving Repr, DecidableEq

/-- `field.type || 'text'`. -/
def Field.ftype (f : Field) : String :=
  match f.rawType with
  | some t => if t ≠ "" then t else "text"
  | none => "text"

/-- `field.label || field.name || 'Field'`. -/
def Field.labelText (f : Field) : String :=
  match f.label with
  | some l => if l ≠ "" then l else match f.name with
      | some n => if n ≠ "" then n else "Field"
      | none => "Field"
  | none => match f.name with
      | some n => if n ≠ "" then n else "Field"
      | none => "Field"

/-- `custom || default` message selection (`field.errorX || generated`). -/
def msgOr (custom : Option String) (dflt : String) : String :=
  match custom with
  | some m => if m ≠ "" then m else dflt
  | none => dflt

/-- Source `validateField(field, value)` (lines 1831-1880), rule for rule
and in source order: required (checkbox wants the boolean `true`, others a
non-empty trimmed value), then — only for non-null, non-undefined values —
length bounds, the caller-supplied pattern (skipped when it fails to
compile, tested against the full string form of the value with no
heuristic safety check and no length cap), and the numeric range. -/
def validateField (eng : RegexEngine) (f : Field) (value : Option JSV) : List String :=
  let lbl := f.labelText
  let ty := f.ftype
  let requiredErrs :=
    if f.required then
      if ty = "checkbox" then
        if value ≠ some (.vbool true) then [msgOr f.errorRequired (lbl ++ " is required.")] else []
      else if (match value with
               | none => true
               | some .vnull => true
               | some v => trimChars (jsvString v).data = []) then
        [msgOr f.errorRequired (lbl ++ " is required.")]
      else []
    else []
  let valueErrs :=
    match value with
    | none => []
    | some .vnull => []
    | some v =>
        let s := if ty = "checkbox" then "" else jsvString v
        (match f.minLength with
         | some m => if (s.length : Int) < m then
             [msgOr f.errorMinLength (lbl ++ " must be at least " ++ toString m ++ " characters.")]
           else []
         | none => [])
        ++ (match f.maxLength with
            | some m => if m < (s.length : Int) then
                [msgOr f.errorMaxLength (lbl ++ " must be at most " ++ toString m ++ " characters.")]
              else []
            | none => [])
        ++ (match f.pattern with
            | some p =>
                if p ≠ "" then
                  match eng.compile p with
                  | some test => if s ≠ "" ∧ ¬ test s then
                      [msgOr f.errorPattern (lbl ++ " is invalid.")] else []
                  | none => []
                else []
            | none => [])
        ++ (if ty = "number" ∨ ty = "range" then
              match jsNumber v with
              | none => [msgOr f.errorNumber (lbl ++ " must be a number.")]
              | some num =>
                  (match f.fmin with
                   | some m => if num < m then
                       [msgOr f.errorMin (lbl ++ " must be at least " ++ toString m ++ ".")]
                     else []
                   | none => [])
                  ++ (match f.fmax with
                      | some m => if m < num then
                          [msgOr f.errorMax (lbl ++ " must be at most " ++ toString m ++ ".")]
                        else []
                      | none => [])
            else [])
  requiredErrs ++ valueErrs

/-- Generic JavaScript-object assignment on an association list: replace
the value at an existing key in place, append a new key at the end. -/
def assocSet {α : Type} : List (String × α) → String → α → List (String × α)
  | [], key, v => [(key, v)]
  | (k, w) :: rest, key, v =>
      if k = key then (k, v) :: rest else (k, w) :: assocSet rest key v

def assocGet {α : Type} : List (String × α) → String → Option α
  | [], _ => none
  | (k, v) :: rest, key => if k = key then some v else assocGet rest key

/-- Registry key `getFieldKey(field, i)` (source lines 1805-1807). -/
def fieldKey (f : Field) (i : Nat) : String :=
  safeId (f.name.map JVal.jstr) ("field-" ++ toString i)

/-- Registry built by the field loop (lines 1884-1993): the field list is
capped at `maxFields` and each entry keeps its descriptor and key.  (The
loop also skips non-object entries; the typed `Field` list starts past
that guard.) -/
def mkRegistry (fields : List Field) : List (Field × String) :=
  ((fields.take maxFields).enum).map (fun p => (p.2, fieldKey p.2 p.1))

/-- Resolved result-object key: `typeof field.name === 'string' ?
field.name : key` (lines 2005, 2013, 2028, 2109). -/
def regName (f : Field) (key : String) : String :=
  match f.name with
  | some n => n
  | none => key

/-- `collectValues()` (lines 2002-2009): values are read from the live
control state at call time, keyed by resolved name with JavaScript
object-assignment semantics.  `live i` is the current state of the `i`-th
registry entry's control. -/
def collectValues (reg : List (Field × String)) (live : Nat → JSV) :
    List (String × JSV) :=
  (reg.enum).foldl
    (fun acc p => assocSet acc (regName p.2.1 p.2.2) (live p.1)) []

/-- The `validateAll` loop body (lines 2023-2037). -/
def validateAllLoop (eng : RegexEngine) (values : List (String × JSV)) :
    List (Field × String) → Bool × List (String × List String) →
      Bool × List (String × List String)
  | [], acc => acc
  | (f, k) :: rest, (valid, errsObj) =>
      let name := regName f k
      let errs := validateField eng f (assocGet values name)
      if errs ≠ [] then validateAllLoop eng values rest (false, assocSet errsObj name errs)
      else validateAllLoop eng values rest (valid, errsObj)

def validateAll (eng : RegexEngine) (reg : List (Field × String))
    (values : List (String × JSV)) : Bool × List (String × List String) :=
  validateAllLoop eng values reg (true, [])

/-- Observable submit-handler effects, in emission order. -/
inductive FormEff where
  | preventDefault
  | showError (name : String) (shown : String) (visible : Bool)
  | callback (action : String) (valid : Bool)
      (values : List (String × JSV)) (errors : List (String × List String))
  | focus (name : String)
deriving Repr, DecidableEq

/-- `showErrors(errorsByName)` (lines 2011-2021): every registry entry's
visible error state is written, in registry order — `errs[0]` shown when
present, cleared otherwise. -/
def showErrorEffs (reg : List (Field × String))
    (errsObj : List (String × List String)) : List FormEff :=
  reg.map (fun p =>
    let name := regName p.1 p.2
    let errs := (assocGet errsObj name).getD []
    .showError name (if errs ≠ [] then errs.headD "" else "") (errs ≠ []))

/-- The form `submit` handler (lines 2090-2116) as an effect trace:
intercept, collect live values, validate everything, update every field's
error display, invoke the action callback once with the full result, and
focus the first invalid field only when invalid.  The sanitized submit
action name is a parameter (computed at render time, line 1999); the host
`onAction` callback is configured. -/
def formSubmit (eng : RegexEngine) (fields : List Field) (live : Nat → JSV)
    (submitAction : String) : List FormEff :=
  let reg := mkRegistry fields
  let values := collectValues reg live
  let res := validateAll eng reg values
  [.preventDefault]
  ++ showErrorEffs reg res.2
  ++ [.callback submitAction res.1 values res.2]
  ++ (if ¬ res.1 then
        match reg.find? (fun p => (assocGet res.2 (regName p.1 p.2)).isSome) with
        | some p => [.focus (regName p.1 p.2)]
        | none => []
      else [])

/-! ## Action gate (source lines 2546-2585) -/

/-- `_shouldAllowAction(actionName)` (lines 2546-2554).  `allowed` is the
session's `allowedActions` (already mapped through `sanitizeActionName`
at construction, line 2390), `none` when the option was not an array. -/
def shouldAllowAction (policy : String) (allowed : Option (List String))
    (actionName : String) : Bool :=
  let name := sanitizeActionName (some (.jstr actionName))
  if name = "" then false
  else if policy = "denyAll" then false
  else if policy = "allowList" then
    match allowed with
    | some l => l.contains name
    | none => false
  else true

inductive ClickEff where
  | preventDefault
  | blockedWarn (name : String)
  | callback (name : String)
deriving Repr, DecidableEq

/-- The click handler `addSection` wires on every `[data-action]` element
(lines 2567-2580): prevent default, sanitize the declared intent name,
drop empty names silently, emit a blocked diagnostic when the policy gate
refuses, and otherwise deliver the intent to the host callback. -/
def clickDispatch (policy : String) (allowed : Option (List String))
    (datasetAction : String) : List ClickEff :=
  let name := sanitizeActionName (some (.jstr datasetAction))
  [.preventDefault]
  ++ (if name = "" then []
      else if ¬ shouldAllowAction policy allowed name then [.blockedWarn name]
      else [.callback name])

/-- Construction-time sanitization of the allow list (line 2390). -/
def sessionAllowed (raw : List String) : List String :=
  raw.map (fun a => sanitizeActionName (some (.jstr a)))

/-! ## Stylesheet / theme model (source lines 2415-2440)

`generateCSS` is a static template over the token and color tables (data
the spec treats as external); it enters the model as the abstract function
`genCSS` from the current theme name to the stylesheet text.  Element
identity is what the frame-effect claim is about: each created `<style>`
element gets a fresh allocation number. -/

structure StyleSheet where
  elId : Nat
  styleId : String
  content : String
deriving Repr, DecidableEq

structure HeadState where
  styles : List StyleSheet
  nextEl : Nat
deriving Repr, DecidableEq

/-- `injectStyles()` (lines 2415-2433): find an existing `<style>` with
the session's style id, **remove** it, then create and append a fresh
element with the regenerated CSS. -/
def injectStyles (genCSS : String → String) (containerId theme : String)
    (h : HeadState) : HeadState :=
  let styleId := "agentpages-style-" ++ containerId
  let kept := h.styles.filter (fun s => s.styleId ≠ styleId)
  ⟨kept ++ [⟨h.nextEl, styleId, genCSS theme⟩], h.nextEl + 1⟩

structure Session where
  theme : String
  containerId : String
  head : HeadState
deriving Repr, DecidableEq

/-- Constructor tail (line 2406): inject the initial stylesheet. -/
def newSession (genCSS : String → String) (containerId theme : String) : Session :=
  ⟨theme, containerId, injectStyles genCSS containerId theme ⟨[], 0⟩⟩

/-- `setTheme(themeName, colorOverrides)` (lines 2435-2440): update the
color set and re-inject. -/
def setTheme (genCSS : String → String) (s : Session) (t : String) : Session :=
  { s with theme := t, head := injectStyles genCSS s.containerId t s.head }

/-- The session's currently attached stylesheet element (by identity). -/
def liveStyleEl (s : Session) : Option Nat :=
  ((s.head.styles.filter
      (fun st => st.styleId = "agentpages-style-" ++ s.containerId)).head?).map
    (fun st => st.elId)


/-- Per-entry error list of one registry entry, with the values object
fixed (the expression the submit handler computes per field). -/
def errsOf (eng : RegexEngine) (values : List (String × JSV)) (p : Field × String) : List String :=
  validateField eng p.1 (assocGet values (regName p.1 p.2))

def isShowErrEff : FormEff → Bool
  | .showError _ _ _ => true
  | _ => false

def isFormCbEff : FormEff → Bool
  | .callback _ _ _ _ => true
  | _ => false

def isFocusEff : FormEff → Bool
  | .focus _ => true
  | _ => false

def isClickCb : ClickEff → Bool
  | .callback _ => true
  | _ => false

/-- The live values collected at submit time. -/
def submitValues (fields : List Field) (live : Nat → JSV) : List (String × JSV) :=
  collectValues (mkRegistry fields) live

/-- The `{valid, errors}` pair the submit handler computes. -/
def submitResult (eng : RegexEngine) (fields : List Field) (live : Nat → JSV) :
    Bool × List (String × List String) :=
  validateAll eng (mkRegistry fields) (submitValues fields live)

/-- Demonstration form of the spec's batch-validation instance: three
required fields of which two are empty at submit. -/
def demoEng : RegexEngine := ⟨fun _ => none⟩

def demoFields : List Field :=
  [{ name := some "a", required := true }, { name := some "b", required := true },
   { name := some "c", required := true }]

def demoLive : Nat → JSV := fun i => if i = 1 then .vstr "hello" else .vstr ""

/-! ## Helper lemmas about the DOM observers -/

/-- Children of `el` as nodes: strings become text nodes. -/
def nodesOf (ch : List ElChild) : List DNode :=
  ch.map (fun c => match c with | .cnode n => n | .cstr s => .dtext s)

/-- The per-value action of the string-clamping pass. -/
def clampVal : JVal → JVal
  | .jstr s => .jstr (clampString s)
  | v => v

/-- The items field is already within its cap for this type. -/
def itemsOK (ty : Option JVal) (kvs : List (String × JVal)) : Prop :=
  match jget kvs "items" with
  | some (.jarr xs) =>
      (isStrVal ty "faq" = true → xs.take maxFaqItems = xs) ∧
      (isStrVal ty "faq" = false → isStrVal ty "comparison-table" = false →
        xs.take maxItemsPerList = xs)
  | _ => True

/-- The capped collection at `key` is already within `n`. -/
def sliceOK (c : Bool) (key : String) (n : Nat) (kvs : List (String × JVal)) : Prop :=
  c = true →
    match jget kvs key with
    | some (.jarr xs) => xs.take n = xs
    | _ => True

/-- The mapped collection at `key` is already a fixed point of `f`. -/
def mapOK (c : Bool) (key : String) (f : JVal → JVal)
    (kvs : List (String × JVal)) : Prop :=
  c = true →
    match jget kvs key with
    | some (.jarr xs) => xs.map f = xs
    | _ => True

/-- The nested sections are already a fixed point of the recursive
normalizer. -/
def secOK (c : Bool) (recNorm : List JVal → List JVal)
    (kvs : List (String × JVal)) : Prop :=
  c = true →
    match jget kvs "sections" with
    | some (.jarr secs) => recNorm secs = secs
    | _ => True

/-- Acceptance guard of the normalizer entry loop. -/
def acceptedEntry (keys : List String) (kvs : List (String × JVal)) : Bool :=
  jsTruthy (jget kvs "type") && isKnownType keys (jget kvs "type")

/-- Acceptance of a raw section entry by the normalizer guards. -/
def sectionAccepted (keys : List String) : JVal → Bool
  | .jobj kvs => acceptedEntry keys kvs
  | _ => false

def demoSecs : List JVal :=
  [.jobj [("type", .jstr "hero"), ("heading", .jstr "Hi <b>there</b>")],
   .jobj [("type", .jstr "card"), ("sections",
      .jarr [.jobj [("type", .jstr "text"), ("text", .jstr "nested")]])]]

def spAttack (n : Nat) : List Char :=
  pagePrelude ++ '\x7b' :: List.replicate n 'a'

def restOKb : List Char → Bool
  | [] => true
  | c :: _ => !c.isDigit

mutual
def nfuelV : JVal → Nat
  | .jnull => 1
  | .jbool _ => 1
  | .jnum _ => 1
  | .jstr _ => 1
  | .jarr xs => nfuelL xs + 1
  | .jobj kvs => nfuelF kvs + 1
def nfuelL : List JVal → Nat
  | [] => 1
  | v :: rest => max (nfuelV v) (nfuelL rest) + 1
def nfuelF : List (String × JVal) → Nat
  | [] => 1
  | (_, v) :: rest => max (nfuelV v) (nfuelF rest) + 1
end

def spObs (st : SPState) :
    Bool × Int × List Char × Bool × Bool × Bool × Bool × List JVal :=
  (st.insideSections, st.braceDepth, st.currentObject, st.inString, st.escapeNext,
   st.seenSectionsKey, st.seenArrayStart, st.emitted)

/-! ### Vocabulary discipline of rendered trees (claim C1)

`nodeOK` is the invariant every built-in renderer's output satisfies:
text leaves come only from `sanitizeText` or fixed renderer literals,
markup (`innerHTML`) leaves only from the fixed `ICONS` table, and tags,
attribute names and listener names only from the fixed vocabularies
above.  `attrEntryOK` is the per-entry discipline of an `el` attribute
argument: whatever attribute name it contributes after `elAttrStep`'s
`className`/`dataset` translations lies in `apAttrNames`, and whatever
listener an `onX` entry registers lies in `apListeners`. -/

@[reducible] def attrEntryOK : String × AttrV → Prop := fun e =>
  match e.2 with
  | .avNone => True
  | .avStyle _ => e.1 = "style" ∨ e.1 ∈ apAttrNames
  | .avDataset kvs => (e.1 = "dataset" → ∀ p ∈ kvs, ("data-" ++ p.1) ∈ apAttrNames) ∧
      (¬ e.1 = "dataset" → e.1 ∈ apAttrNames)
  | .avFn => strStartsWithOn e.1 = true → strToLower (strDrop2 e.1) ∈ apListeners
  | .avStr _ => e.1 = "className" ∨ e.1 ∈ apAttrNames

mutual
/-- The renderer-output invariant (see the section comment). -/
def nodeOK : DNode → Prop
  | .dtext s => leafOK s
  | .dmarkup s => s ∈ iconMarkups
  | .elem t attrs _ ls children =>
      t ∈ apTags ∧ (∀ a ∈ attrs, a.1 ∈ apAttrNames) ∧ (∀ e ∈ ls, e ∈ apListeners) ∧
      nodesOK children
def nodesOK : List DNode → Prop
  | [] => True
  | n :: rest => nodeOK n ∧ nodesOK rest
end

/-- `nodeOK` lifted to the child arguments of `el`. -/
def childOK : ElChild → Prop
  | .cnode n => nodeOK n
  | .cstr s => leafOK s

/-- An adversarial markup/script/quote-breaking payload for the C1
witness. -/
def injPayload : String := "<img src=x onerror=alert(1)>\"><script>alert(2)</script>"

/-- A hero section carrying the payload in a text field. -/
def injDemoSection : JVal :=
  .jobj [("type", .jstr "hero"), ("heading", .jstr injPayload)]

theorem el_className (t cls : String) (ch : List ElChild) :
    el t [("className", .avStr cls)] ch = .elem t [("class", cls)] [] [] (nodesOf ch) := rfl

theorem el_ctaShape (cls href : String) (ds : List (String × String)) (ch : List ElChild) :
    el "a" [("className", .avStr cls), ("href", .avStr href), ("dataset", .avDataset ds)] ch
      = .elem "a" ([("class", cls), ("href", href)] ++ ds.map (fun p => ("data-" ++ p.1, p.2)))
          [] [] (nodesOf ch) := rfl

theorem tagsOfList_append (l1 l2 : List DNode) :
    tagsOfList (l1 ++ l2) = tagsOfList l1 ++ tagsOfList l2 := by
  induction l1 with
  | nil => simp [tagsOfList]
  | cons n rest ih => simp [tagsOfList, ih]

theorem attrNamesOfList_append (l1 l2 : List DNode) :
    attrNamesOfList (l1 ++ l2) = attrNamesOfList l1 ++ attrNamesOfList l2 := by
  induction l1 with
  | nil => simp [attrNamesOfList]
  | cons n rest ih => simp [attrNamesOfList, ih]

theorem listenersOfList_append (l1 l2 : List DNode) :
    listenersOfList (l1 ++ l2) = listenersOfList l1 ++ listenersOfList l2 := by
  induction l1 with
  | nil => simp [listenersOfList]
  | cons n rest ih => simp [listenersOfList, ih]

theorem textLeavesOfList_append (l1 l2 : List DNode) :
    textLeavesOfList (l1 ++ l2) = textLeavesOfList l1 ++ textLeavesOfList l2 := by
  induction l1 with
  | nil => simp [textLeavesOfList]
  | cons n rest ih => simp [textLeavesOfList, ih]

/-- The `text` renderer part of the injection invariant. -/
theorem renderText_shape (data : JVal) :
    (renderText data).tagsOf = ["p"] ∧
    (renderText data).attrNamesOf = ["class"] ∧
    (renderText data).listenersOf = [] ∧
    (renderText data).textLeavesOf = [sanitizeText (some (jsOr (fld data "text") (.jstr "")))] := by
  unfold renderText
  split_ifs <;>
  simp [el_className, nodesOf, DNode.tagsOf, tagsOfList, DNode.attrNamesOf, attrNamesOfList,
    DNode.listenersOf, listenersOfList, DNode.textLeavesOf, textLeavesOfList]

/-- The `hero` renderer part of the injection invariant. -/
theorem renderHero_shape (data : JVal) :
    (renderHero data).tagsOf ⊆ ["div", "h1", "p", "a"] ∧
    (renderHero data).attrNamesOf ⊆ ["class", "href", "data-action"] ∧
    (renderHero data).listenersOf = [] ∧
    (renderHero data).textLeavesOf ⊆
      [sanitizeText (fld data "label"), sanitizeText (fld data "heading"),
       sanitizeText (fld data "subheading"), sanitizeText (fld2 data "cta" "text")] := by
  unfold renderHero
  rw [el_className]
  split_ifs <;>
  simp_all [el_className, el_ctaShape, nodesOf, DNode.tagsOf, tagsOfList, tagsOfList_append,
    DNode.attrNamesOf, attrNamesOfList, attrNamesOfList_append,
    DNode.listenersOf, listenersOfList, listenersOfList_append,
    DNode.textLeavesOf, textLeavesOfList, textLeavesOfList_append,
    List.subset_def]

/-! ### The injection invariant machinery (claim C1) -/

theorem mem_ite_nil {α : Type} {c : Prop} [Decidable c] {l : List α} {x : α}
    (h : x ∈ (if c then l else [])) : x ∈ l := by
  split at h
  · exact h
  · exact absurd h (List.not_mem_nil x)

theorem mem_ite_nil_iff {α : Type} {c : Prop} [Decidable c] {l : List α} {x : α} :
    (x ∈ (if c then l else [])) ↔ (c ∧ x ∈ l) := by
  by_cases hc : c <;> simp [hc]

theorem attrEntryOK_className (s : String) : attrEntryOK ("className", .avStr s) := Or.inl rfl

theorem attrEntryOK_str (k s : String) (h : k ∈ apAttrNames) : attrEntryOK (k, .avStr s) :=
  Or.inr h

theorem attrEntryOK_style (kvs : List (String × String)) :
    attrEntryOK ("style", .avStyle kvs) := Or.inl rfl

theorem attrEntryOK_fn (k : String)
    (h : strStartsWithOn k = true → strToLower (strDrop2 k) ∈ apListeners) :
    attrEntryOK (k, .avFn) := h

theorem attrEntryOK_dataset_action (c : Prop) [Decidable c] (v : String) :
    attrEntryOK ("dataset", .avDataset (if c then [("action", v)] else [])) := by
  refine ⟨fun _ => ?_, fun h => absurd rfl h⟩
  intro p hp
  rcases List.mem_singleton.1 (mem_ite_nil hp) with rfl
  exact (by decide : "data-action" ∈ apAttrNames)

theorem elAttrStep_inv (attrs styles : List (String × String)) (ls : List String)
    (e : String × AttrV) (he : attrEntryOK e)
    (h1 : ∀ a ∈ attrs, a.1 ∈ apAttrNames) (h2 : ∀ x ∈ ls, x ∈ apListeners) :
    (∀ a ∈ (elAttrStep (attrs, styles, ls) e).1, a.1 ∈ apAttrNames) ∧
    (∀ x ∈ (elAttrStep (attrs, styles, ls) e).2.2, x ∈ apListeners) := by
  obtain ⟨k, v⟩ := e
  cases v with
  | avNone =>
      have hred : elAttrStep (attrs, styles, ls) (k, .avNone) = (attrs, styles, ls) := by
        unfold elAttrStep
        split <;> first | rfl | simp_all
      rw [hred]
      exact ⟨h1, h2⟩
  | avStyle kvs =>
      by_cases hk : k = "style"
      · subst hk
        exact ⟨h1, h2⟩
      · have hred : elAttrStep (attrs, styles, ls) (k, .avStyle kvs)
            = (attrs ++ [(k, "")], styles, ls) := by
          unfold elAttrStep
          split <;> first | rfl | simp_all
        rw [hred]
        refine ⟨?_, h2⟩
        intro a ha
        rcases List.mem_append.1 ha with ha | ha
        · exact h1 a ha
        · rcases List.mem_singleton.1 ha with rfl
          rcases he with he | he
          · exact absurd he hk
          · exact he
  | avDataset kvs =>
      by_cases hk : k = "dataset"
      · subst hk
        refine ⟨?_, h2⟩
        intro a ha
        rcases List.mem_append.1 ha with ha | ha
        · exact h1 a ha
        · rcases List.mem_map.1 ha with ⟨p, hp, rfl⟩
          exact he.1 rfl p hp
      · have hred : elAttrStep (attrs, styles, ls) (k, .avDataset kvs)
            = (attrs ++ [(k, "")], styles, ls) := by
          unfold elAttrStep
          split <;> first | rfl | simp_all
        rw [hred]
        refine ⟨?_, h2⟩
        intro a ha
        rcases List.mem_append.1 ha with ha | ha
        · exact h1 a ha
        · rcases List.mem_singleton.1 ha with rfl
          exact he.2 hk
  | avFn =>
      have hred : elAttrStep (attrs, styles, ls) (k, .avFn)
          = (if strStartsWithOn k then (attrs, styles, ls ++ [strToLower (strDrop2 k)])
             else (attrs, styles, ls)) := by
        unfold elAttrStep
        split <;> first | rfl | simp_all
      rw [hred]
      by_cases hon : strStartsWithOn k
      · rw [if_pos hon]
        refine ⟨h1, ?_⟩
        intro x hx
        rcases List.mem_append.1 hx with hx | hx
        · exact h2 x hx
        · rcases List.mem_singleton.1 hx with rfl
          exact he hon
      · rw [if_neg hon]
        exact ⟨h1, h2⟩
  | avStr s =>
      by_cases hk : k = "className"
      · subst hk
        refine ⟨?_, h2⟩
        intro a ha
        rcases List.mem_append.1 ha with ha | ha
        · exact h1 a ha
        · rcases List.mem_singleton.1 ha with rfl
          exact (by decide : "class" ∈ apAttrNames)
      · have hred : elAttrStep (attrs, styles, ls) (k, .avStr s)
            = (attrs ++ [(k, s)], styles, ls) := by
          unfold elAttrStep
          split <;> first | rfl | simp_all
        rw [hred]
        refine ⟨?_, h2⟩
        intro a ha
        rcases List.mem_append.1 ha with ha | ha
        · exact h1 a ha
        · rcases List.mem_singleton.1 ha with rfl
          rcases he with he | he
          · exact absurd he hk
          · exact he

theorem elAttrFold_inv (entries : List (String × AttrV)) :
    ∀ (attrs styles : List (String × String)) (ls : List String),
    (∀ e ∈ entries, attrEntryOK e) →
    (∀ a ∈ attrs, a.1 ∈ apAttrNames) → (∀ x ∈ ls, x ∈ apListeners) →
    (∀ a ∈ (entries.foldl elAttrStep (attrs, styles, ls)).1, a.1 ∈ apAttrNames) ∧
    (∀ x ∈ (entries.foldl elAttrStep (attrs, styles, ls)).2.2, x ∈ apListeners) := by
  induction entries with
  | nil => intro attrs styles ls _ h1 h2; exact ⟨h1, h2⟩
  | cons e rest ih =>
      intro attrs styles ls he h1 h2
      rw [List.foldl_cons]
      have hstep := elAttrStep_inv attrs styles ls e (he e (List.mem_cons_self e rest)) h1 h2
      have heq : elAttrStep (attrs, styles, ls) e
          = ((elAttrStep (attrs, styles, ls) e).1, (elAttrStep (attrs, styles, ls) e).2.1,
             (elAttrStep (attrs, styles, ls) e).2.2) := rfl
      rw [heq]
      exact ih _ _ _ (fun x hx => he x (List.mem_cons_of_mem e hx)) hstep.1 hstep.2

theorem nodesOK_map_child (children : List ElChild) (h : ∀ c ∈ children, childOK c) :
    nodesOK (children.map (fun c => match c with
      | ElChild.cnode n => n
      | ElChild.cstr s => DNode.dtext s)) := by
  induction children with
  | nil => trivial
  | cons c rest ih =>
      refine ⟨?_, ih (fun x hx => h x (List.mem_cons_of_mem c hx))⟩
      have hc := h c (List.mem_cons_self c rest)
      cases c with
      | cnode n => exact hc
      | cstr s => exact hc

theorem childOK_node {n : DNode} (h : nodeOK n) : childOK (.cnode n) := h

/-- The `el`-site introduction rule for `nodeOK`. -/
theorem el_ok {tag : String} {attrs : List (String × AttrV)} {children : List ElChild}
    (h1 : tag ∈ apTags) (h2 : ∀ e ∈ attrs, attrEntryOK e)
    (h3 : ∀ c ∈ children, childOK c) : nodeOK (el tag attrs children) := by
  have hfold := elAttrFold_inv attrs [] [] [] h2
    (fun a ha => absurd ha (List.not_mem_nil a)) (fun x hx => absurd hx (List.not_mem_nil x))
  exact ⟨h1, hfold.1, hfold.2, nodesOK_map_child children h3⟩

theorem childOK_sanitize (v : Option JVal) : childOK (.cstr (sanitizeText v)) :=
  Or.inl ⟨v, rfl⟩

theorem childOK_sTxtOr (v : Option JVal) (d : String) : childOK (.cstr (sTxtOr v d)) :=
  Or.inl ⟨some (jsOr v (.jstr d)), rfl⟩

theorem childOK_ord (n : Nat) : childOK (.cstr (toString n)) := Or.inr (Or.inl ⟨n, rfl⟩)

theorem childOK_ordDot (n : Nat) : childOK (.cstr (toString n ++ ".")) :=
  Or.inr (Or.inr (Or.inl ⟨n, rfl⟩))

theorem childOK_copy : childOK (.cstr "Copy") := Or.inr (Or.inr (Or.inr (Or.inl rfl)))

theorem childOK_cross : childOK (.cstr "✘") :=
  Or.inr (Or.inr (Or.inr (Or.inr (Or.inl rfl))))

theorem attrSet_ok {n : DNode} (k v : String) (hk : k ∈ apAttrNames) (h : nodeOK n) :
    nodeOK (attrSet n k v) := by
  cases n with
  | elem t attrs styles ls ch =>
      obtain ⟨h1, h2, h3, h4⟩ := h
      refine ⟨h1, ?_, h3, h4⟩
      intro a ha
      rcases List.mem_append.1 ha with ha | ha
      · exact h2 a ha
      · rcases List.mem_singleton.1 ha with rfl
        exact hk
  | dtext s => exact h
  | dmarkup s => exact h

theorem styleSet_ok {n : DNode} (k v : String) (h : nodeOK n) : nodeOK (styleSet n k v) := by
  cases n with
  | elem t attrs styles ls ch => exact h
  | dtext s => exact h
  | dmarkup s => exact h

theorem listenerAdd_ok {n : DNode} (e : String) (he : e ∈ apListeners) (h : nodeOK n) :
    nodeOK (listenerAdd n e) := by
  cases n with
  | elem t attrs styles ls ch =>
      obtain ⟨h1, h2, h3, h4⟩ := h
      refine ⟨h1, h2, ?_, h4⟩
      intro x hx
      rcases List.mem_append.1 hx with hx | hx
      · exact h3 x hx
      · rcases List.mem_singleton.1 hx with rfl
        exact he
  | dtext s => exact h
  | dmarkup s => exact h

theorem stripSection_ok {n : DNode} (h : nodeOK n) : nodeOK (stripSection n) := by
  cases n with
  | elem t attrs styles ls ch =>
      obtain ⟨h1, h2, h3, h4⟩ := h
      refine ⟨h1, ?_, h3, h4⟩
      intro a ha
      rcases List.mem_map.1 ha with ⟨p, hp, rfl⟩
      split
      · exact h2 p hp
      · exact h2 p hp
  | dtext s => exact h
  | dmarkup s => exact h

theorem attrsAddAll_ok {l : List (String × String)} :
    ∀ {n : DNode}, (∀ p ∈ l, p.1 ∈ apAttrNames) → nodeOK n → nodeOK (attrsAddAll n l) := by
  induction l with
  | nil => intro n _ h; exact h
  | cons p rest ih =>
      intro n hl h
      rw [attrsAddAll, List.foldl_cons]
      exact ih (fun q hq => hl q (List.mem_cons_of_mem p hq))
        (attrSet_ok p.1 p.2 (hl p (List.mem_cons_self p rest)) h)

theorem listenersAddAll_ok {es : List String} :
    ∀ {n : DNode}, (∀ e ∈ es, e ∈ apListeners) → nodeOK n → nodeOK (listenersAddAll n es) := by
  induction es with
  | nil => intro n _ h; exact h
  | cons e rest ih =>
      intro n hl h
      rw [listenersAddAll, List.foldl_cons]
      exact ih (fun q hq => hl q (List.mem_cons_of_mem e hq))
        (listenerAdd_ok e (hl e (List.mem_cons_self e rest)) h)

theorem ite_attrSet_ok {n : DNode} (c : Prop) [Decidable c] (k v : String)
    (hk : k ∈ apAttrNames) (h : nodeOK n) : nodeOK (if c then attrSet n k v else n) := by
  split
  · exact attrSet_ok k v hk h
  · exact h

theorem lookup_mem_snd (l : List (String × String)) (k v : String)
    (h : l.lookup k = some v) : v ∈ l.map Prod.snd := by
  induction l with
  | nil => simp [List.lookup] at h
  | cons p rest ih =>
      obtain ⟨k1, v1⟩ := p
      rw [List.lookup] at h
      split at h
      · exact Option.some.inj h ▸ List.mem_map.2 ⟨(k1, v1), List.mem_cons_self _ _, rfl⟩
      · exact List.mem_map.2 (by
          rcases List.mem_map.1 (ih h) with ⟨q, hq, rfl⟩
          exact ⟨q, List.mem_cons_of_mem _ hq, rfl⟩)

theorem iconSvg_mem (name : String) : iconSvg name ∈ iconMarkups := by
  unfold iconSvg
  cases h : ICONS.lookup name with
  | some s => exact lookup_mem_snd ICONS name s h
  | none =>
      cases h2 : ICONS.lookup "info" with
      | some s => exact lookup_mem_snd ICONS "info" s h2
      | none => exact absurd h2 (by decide)

theorem renderIcon_ok (name : String) (size : Nat) : nodeOK (renderIcon name size) := by
  refine ⟨by decide, ?_, ?_, iconSvg_mem name, trivial⟩
  · intro a ha
    fin_cases ha <;>
      first
        | exact (by decide : "width" ∈ apAttrNames)
        | exact (by decide : "height" ∈ apAttrNames)
        | exact (by decide : "viewBox" ∈ apAttrNames)
        | exact (by decide : "fill" ∈ apAttrNames)
        | exact (by decide : "aria-hidden" ∈ apAttrNames)
  · intro e he
    exact absurd he (List.not_mem_nil e)

theorem chevronSvg_ok : nodeOK chevronSvg :=
  ⟨by decide, by decide, fun e he => absurd he (List.not_mem_nil e),
   iconSvg_mem "chevronDown", trivial⟩

theorem headingLevelStr_cases (lv : Option JVal) :
    headingLevelStr lv = "1" ∨ headingLevelStr lv = "2" ∨ headingLevelStr lv = "3" ∨
    headingLevelStr lv = "NaN" := by
  unfold headingLevelStr
  split
  · split
    · split
      · rename_i n _
        have h3 : min (max n 1) 3 = 1 ∨ min (max n 1) 3 = 2 ∨ min (max n 1) 3 = 3 := by
          omega
        rcases h3 with h3 | h3 | h3 <;> rw [h3] <;> decide
      · exact Or.inr (Or.inr (Or.inr rfl))
    · exact Or.inr (Or.inl rfl)
  · exact Or.inr (Or.inl rfl)

theorem headingTag_mem (lv : Option JVal) : headingTag lv ∈ apTags := by
  unfold headingTag
  rcases headingLevelStr_cases lv with h | h | h | h <;> rw [h] <;> decide

/-! ### Per-renderer invariance lemmas -/

theorem el_txt_ok (tag : String) (htag : tag ∈ apTags) (cls : String) (v : Option JVal) :
    nodeOK (el tag [cAttr cls] [.cstr (sanitizeText v)]) :=
  el_ok htag (fun a ha => by fin_cases ha <;> exact attrEntryOK_className _)
    (fun c hc => by rcases List.mem_singleton.1 hc with rfl; exact childOK_sanitize _)

theorem el_stxt_ok (tag : String) (htag : tag ∈ apTags) (cls : String) (v : Option JVal)
    (d : String) : nodeOK (el tag [cAttr cls] [.cstr (sTxtOr v d)]) :=
  el_txt_ok tag htag cls (some (jsOr v (.jstr d)))

theorem el_txt0_ok (tag : String) (htag : tag ∈ apTags) (v : Option JVal) :
    nodeOK (el tag [] [.cstr (sanitizeText v)]) :=
  el_ok htag (fun a ha => absurd ha (List.not_mem_nil a))
    (fun c hc => by rcases List.mem_singleton.1 hc with rfl; exact childOK_sanitize _)

theorem el_icon_ok (tag : String) (htag : tag ∈ apTags) (cls name : String) (size : Nat) :
    nodeOK (el tag [cAttr cls] [.cnode (renderIcon name size)]) :=
  el_ok htag (fun a ha => by fin_cases ha <;> exact attrEntryOK_className _)
    (fun c hc => by
      rcases List.mem_singleton.1 hc with rfl
      exact childOK_node (renderIcon_ok name size))

theorem centered_heading_ok (c : String) (v : Option JVal) (cond : Prop) [Decidable cond] :
    nodeOK
      (if cond then
        styleSet (el "h2" [cAttr c] [.cstr (sanitizeText v)]) "textAlign" "center"
      else el "h2" [cAttr c] [.cstr (sanitizeText v)]) := by
  split
  · exact styleSet_ok _ _ (el_txt_ok "h2" (by decide) c v)
  · exact el_txt_ok "h2" (by decide) c v

theorem renderHero_ok (data : JVal) : nodeOK (renderHero data) := by
  unfold renderHero
  dsimp only
  apply el_ok (by decide)
  · intro a ha
    fin_cases ha <;> exact attrEntryOK_className _
  · intro c hc
    simp only [List.append_assoc, mem_ite_nil_iff, List.mem_append, List.mem_singleton] at hc
    rcases hc with ⟨-, rfl⟩ | ⟨-, rfl⟩ | ⟨-, rfl⟩ | ⟨-, rfl⟩
    · exact childOK_node (el_txt_ok "div" (by decide) _ _)
    · exact childOK_node (el_txt_ok "h1" (by decide) _ _)
    · exact childOK_node (el_txt_ok "p" (by decide) _ _)
    · refine childOK_node (el_ok (by decide) ?_ ?_)
      · intro a ha
        fin_cases ha <;>
          first
            | exact attrEntryOK_className _
            | exact attrEntryOK_str _ _ (by decide)
            | exact attrEntryOK_dataset_action _ _
      · intro c hc
        rcases List.mem_singleton.1 hc with rfl
        exact childOK_sanitize _

theorem renderText_ok (data : JVal) : nodeOK (renderText data) := by
  unfold renderText
  dsimp only
  apply el_ok (by decide)
  · intro a ha
    fin_cases ha <;> exact attrEntryOK_className _
  · intro c hc
    rcases List.mem_singleton.1 hc with rfl
    exact childOK_sanitize _

theorem renderHeading_ok (data : JVal) : nodeOK (renderHeading data) := by
  unfold renderHeading
  apply el_ok (headingTag_mem _)
  · intro a ha
    fin_cases ha <;> exact attrEntryOK_className _
  · intro c hc
    rcases List.mem_singleton.1 hc with rfl
    exact childOK_sTxtOr _ _

theorem nestChildren_ok {r : JVal → Option DNode}
    (hr : ∀ s n, r s = some n → nodeOK n) (v : Option JVal) :
    ∀ m ∈ nestChildren r v, nodeOK m := by
  intro m hm
  unfold nestChildren at hm
  split at hm
  · rcases List.mem_flatMap.1 hm with ⟨s, hs, hms⟩
    split at hms
    · rename_i n heq
      rcases List.mem_singleton.1 hms with rfl
      exact stripSection_ok (hr _ _ heq)
    · exact absurd hms (List.not_mem_nil m)
  · exact absurd hm (List.not_mem_nil m)

theorem renderStack_ok {r : JVal → Option DNode}
    (hr : ∀ s n, r s = some n → nodeOK n) (data : JVal) : nodeOK (renderStack r data) := by
  unfold renderStack
  apply el_ok (by decide)
  · intro a ha
    fin_cases ha <;> exact attrEntryOK_className _
  · intro c hc
    rcases List.mem_singleton.1 hc with rfl
    refine childOK_node (styleSet_ok _ _ (styleSet_ok _ _ ?_))
    apply el_ok (by decide)
    · intro a ha
      fin_cases ha <;> exact attrEntryOK_className _
    · intro c hc
      rcases List.mem_map.1 hc with ⟨n, hn, rfl⟩
      exact childOK_node (nestChildren_ok hr _ n hn)

theorem renderCard_ok {r : JVal → Option DNode}
    (hr : ∀ s n, r s = some n → nodeOK n) (data : JVal) : nodeOK (renderCard r data) := by
  unfold renderCard
  apply el_ok (by decide)
  · intro a ha
    fin_cases ha <;> exact attrEntryOK_className _
  · intro c hc
    rcases List.mem_singleton.1 hc with rfl
    refine childOK_node (el_ok (by decide) ?_ ?_)
    · intro a ha
      fin_cases ha <;> exact attrEntryOK_className _
    · intro c hc
      simp only [List.append_assoc, mem_ite_nil_iff, List.mem_append, List.mem_singleton, List.mem_map] at hc
      rcases hc with ⟨-, rfl⟩ | ⟨-, rfl⟩ | ⟨n, hn, rfl⟩
      · exact childOK_node (el_txt_ok "h3" (by decide) _ _)
      · exact childOK_node (el_txt_ok "p" (by decide) _ _)
      · exact childOK_node (nestChildren_ok hr _ n hn)

theorem featureCard_ok (item : JVal) : nodeOK (featureCard item) := by
  unfold featureCard
  apply el_ok (by decide)
  · intro a ha
    fin_cases ha <;> exact attrEntryOK_className _
  · intro c hc
    simp only [List.append_assoc, mem_ite_nil_iff, List.mem_append, List.mem_singleton] at hc
    rcases hc with ⟨-, rfl⟩ | rfl | ⟨-, rfl⟩
    · exact childOK_node (el_icon_ok "div" (by decide) _ _ 22)
    · exact childOK_node (el_stxt_ok "div" (by decide) _ _ _)
    · exact childOK_node (el_txt_ok "div" (by decide) _ _)

theorem renderFeatureGrid_ok (data : JVal) : nodeOK (renderFeatureGrid data) := by
  unfold renderFeatureGrid
  apply el_ok (by decide)
  · intro a ha
    fin_cases ha <;> exact attrEntryOK_className _
  · intro c hc
    simp only [List.append_assoc, mem_ite_nil_iff, List.mem_append, List.mem_singleton] at hc
    rcases hc with ⟨-, rfl⟩ | ⟨-, rfl⟩ | rfl
    · exact childOK_node (centered_heading_ok _ _ _)
    · exact childOK_node (el_txt_ok "p" (by decide) _ _)
    · refine childOK_node (el_ok (by decide) ?_ ?_)
      · intro a ha
        fin_cases ha <;> exact attrEntryOK_className _
      · intro c hc
        rcases List.mem_map.1 hc with ⟨it, hit, rfl⟩
        exact childOK_node (featureCard_ok it)

theorem statItem_ok (item : JVal) : nodeOK (statItem item) := by
  unfold statItem
  apply el_ok (by decide)
  · intro a ha
    fin_cases ha <;> exact attrEntryOK_className _
  · intro c hc
    fin_cases hc <;> exact childOK_node (el_stxt_ok "div" (by decide) _ _ _)

theorem renderStatRow_ok (data : JVal) : nodeOK (renderStatRow data) := by
  unfold renderStatRow
  apply el_ok (by decide)
  · intro a ha
    fin_cases ha <;> exact attrEntryOK_className _
  · intro c hc
    simp only [List.append_assoc, mem_ite_nil_iff, List.mem_append, List.mem_singleton] at hc
    rcases hc with ⟨-, rfl⟩ | rfl
    · exact childOK_node (styleSet_ok _ _ (el_txt_ok "h2" (by decide) _ _))
    · refine childOK_node (el_ok (by decide) ?_ ?_)
      · intro a ha
        fin_cases ha <;> exact attrEntryOK_className _
      · intro c hc
        rcases List.mem_map.1 hc with ⟨it, hit, rfl⟩
        exact childOK_node (statItem_ok it)

theorem compCell_ok (cell : JVal) : nodeOK (compCell cell) := by
  unfold compCell
  dsimp only
  split
  · exact el_icon_ok "td" (by decide) _ _ 18
  · split
    · apply el_ok (by decide)
      · intro a ha
        fin_cases ha <;> exact attrEntryOK_className _
      · intro c hc
        rcases List.mem_singleton.1 hc with rfl
        exact childOK_cross
    · exact el_txt0_ok "td" (by decide) _

theorem renderCompTable_ok (data : JVal) : nodeOK (renderCompTable data) := by
  unfold renderCompTable
  apply el_ok (by decide)
  · intro a ha
    fin_cases ha <;> exact attrEntryOK_className _
  · intro c hc
    simp only [List.append_assoc, mem_ite_nil_iff, List.mem_append, List.mem_singleton] at hc
    rcases hc with ⟨-, rfl⟩ | rfl
    · exact childOK_node (el_txt_ok "h2" (by decide) _ _)
    · refine childOK_node (el_ok (by decide) ?_ ?_)
      · intro a ha
        fin_cases ha <;> exact attrEntryOK_className _
      · intro c hc
        rcases List.mem_singleton.1 hc with rfl
        refine childOK_node (el_ok (by decide) ?_ ?_)
        · intro a ha
          fin_cases ha <;> exact attrEntryOK_className _
        · intro c hc
          rcases List.mem_append.1 hc with hc | hc
          · split at hc
            · rcases List.mem_singleton.1 hc with rfl
              refine childOK_node (el_ok (by decide)
                (fun a ha => absurd ha (List.not_mem_nil a)) ?_)
              intro c hc
              rcases List.mem_singleton.1 hc with rfl
              refine childOK_node (el_ok (by decide)
                (fun a ha => absurd ha (List.not_mem_nil a)) ?_)
              intro c hc
              rcases List.mem_map.1 hc with ⟨col, hcol, rfl⟩
              exact childOK_node (el_txt0_ok "th" (by decide) _)
            · exact absurd hc (List.not_mem_nil c)
          · split at hc
            · rcases List.mem_singleton.1 hc with rfl
              refine childOK_node (el_ok (by decide)
                (fun a ha => absurd ha (List.not_mem_nil a)) ?_)
              intro c hc
              rcases List.mem_map.1 hc with ⟨rw_, hrw, rfl⟩
              refine childOK_node (el_ok (by decide)
                (fun a ha => absurd ha (List.not_mem_nil a)) ?_)
              intro c hc
              rcases List.mem_map.1 hc with ⟨cell, hcell, rfl⟩
              exact childOK_node (compCell_ok cell)
            · exact absurd hc (List.not_mem_nil c)

theorem stepItem_ok (i : Nat) (item : JVal) : nodeOK (stepItem i item) := by
  unfold stepItem
  apply el_ok (by decide)
  · intro a ha
    fin_cases ha <;> exact attrEntryOK_className _
  · intro c hc
    rcases List.mem_cons.1 hc with rfl | hc
    · refine childOK_node (el_ok (by decide) ?_ ?_)
      · intro a ha
        fin_cases ha <;> exact attrEntryOK_className _
      · intro c hc
        rcases List.mem_singleton.1 hc with rfl
        exact childOK_ord (i + 1)
    · rcases List.mem_singleton.1 hc with rfl
      refine childOK_node (el_ok (by decide) ?_ ?_)
      · intro a ha
        fin_cases ha <;> exact attrEntryOK_className _
      · intro c hc
        simp only [List.append_assoc, mem_ite_nil_iff, List.mem_append, List.mem_singleton] at hc
        rcases hc with rfl | ⟨-, rfl⟩
        · exact childOK_node (el_stxt_ok "div" (by decide) _ _ _)
        · exact childOK_node (el_stxt_ok "div" (by decide) _ _ _)

theorem renderSteps_ok (data : JVal) : nodeOK (renderSteps data) := by
  unfold renderSteps
  apply el_ok (by decide)
  · intro a ha
    fin_cases ha <;> exact attrEntryOK_className _
  · intro c hc
    simp only [List.append_assoc, mem_ite_nil_iff, List.mem_append, List.mem_singleton] at hc
    rcases hc with ⟨-, rfl⟩ | rfl
    · exact childOK_node (el_txt_ok "h2" (by decide) _ _)
    · refine childOK_node (el_ok (by decide) ?_ ?_)
      · intro a ha
        fin_cases ha <;> exact attrEntryOK_className _
      · intro c hc
        rcases List.mem_map.1 hc with ⟨p, hp, rfl⟩
        exact childOK_node (stepItem_ok p.1 p.2)

theorem calloutBox_ok (data : JVal) : nodeOK (calloutBox data) := by
  unfold calloutBox
  apply el_ok (by decide)
  · intro a ha
    fin_cases ha <;> exact attrEntryOK_className _
  · intro c hc
    rcases List.mem_cons.1 hc with rfl | hc
    · exact childOK_node (el_icon_ok "div" (by decide) _ _ 20)
    · rcases List.mem_singleton.1 hc with rfl
      refine childOK_node (el_ok (by decide)
        (fun a ha => absurd ha (List.not_mem_nil a)) ?_)
      intro c hc
      simp only [List.append_assoc, mem_ite_nil_iff, List.mem_append, List.mem_singleton] at hc
      rcases hc with ⟨-, rfl⟩ | ⟨-, rfl⟩
      · exact childOK_node (el_txt_ok "div" (by decide) _ _)
      · exact childOK_node (el_txt_ok "div" (by decide) _ _)

theorem renderCallout_ok (data : JVal) : nodeOK (renderCallout data) := by
  unfold renderCallout
  apply el_ok (by decide)
  · intro a ha
    fin_cases ha <;> exact attrEntryOK_className _
  · intro c hc
    rcases List.mem_singleton.1 hc with rfl
    apply childOK_node
    split
    · exact attrSet_ok _ _ (by decide) (calloutBox_ok data)
    · exact calloutBox_ok data

theorem faqItem_ok (i : Nat) (item : JVal) : nodeOK (faqItem i item) := by
  unfold faqItem
  dsimp only
  apply el_ok (by decide)
  · intro a ha
    fin_cases ha <;> exact attrEntryOK_className _
  · intro c hc
    rcases List.mem_cons.1 hc with rfl | hc
    · refine childOK_node (el_ok (by decide) ?_ ?_)
      · intro a ha
        fin_cases ha <;>
          first
            | exact attrEntryOK_className _
            | exact attrEntryOK_str _ _ (by decide)
            | exact attrEntryOK_fn _ (by decide)
      · intro c hc
        rcases List.mem_cons.1 hc with rfl | hc
        · exact childOK_sTxtOr _ _
        · rcases List.mem_singleton.1 hc with rfl
          exact childOK_node chevronSvg_ok
    · rcases List.mem_singleton.1 hc with rfl
      refine childOK_node (el_ok (by decide) ?_ ?_)
      · intro a ha
        fin_cases ha <;>
          first
            | exact attrEntryOK_className _
            | exact attrEntryOK_str _ _ (by decide)
      · intro c hc
        rcases List.mem_singleton.1 hc with rfl
        exact childOK_node (el_stxt_ok "div" (by decide) _ _ _)

theorem renderFaq_ok (data : JVal) : nodeOK (renderFaq data) := by
  unfold renderFaq
  apply el_ok (by decide)
  · intro a ha
    fin_cases ha <;> exact attrEntryOK_className _
  · intro c hc
    simp only [List.append_assoc, mem_ite_nil_iff, List.mem_append, List.mem_singleton] at hc
    rcases hc with ⟨-, rfl⟩ | rfl
    · exact childOK_node (centered_heading_ok _ _ _)
    · refine childOK_node (el_ok (by decide) ?_ ?_)
      · intro a ha
        fin_cases ha <;> exact attrEntryOK_className _
      · intro c hc
        rcases List.mem_map.1 hc with ⟨p, hp, rfl⟩
        exact childOK_node (faqItem_ok p.1 p.2)

theorem renderQuote_ok (data : JVal) : nodeOK (renderQuote data) := by
  unfold renderQuote
  apply el_ok (by decide)
  · intro a ha
    fin_cases ha <;> exact attrEntryOK_className _
  · intro c hc
    rcases List.mem_singleton.1 hc with rfl
    refine childOK_node (el_ok (by decide) ?_ ?_)
    · intro a ha
      fin_cases ha <;> exact attrEntryOK_className _
    · intro c hc
      simp only [List.append_assoc, mem_ite_nil_iff, List.mem_append, List.mem_singleton] at hc
      rcases hc with rfl | ⟨-, rfl⟩
      · exact childOK_node (el_stxt_ok "div" (by decide) _ _ _)
      · exact childOK_node (el_stxt_ok "div" (by decide) _ _ _)

theorem listItem_ok (ordered : Bool) (i : Nat) (item : JVal) :
    nodeOK (listItem ordered i item) := by
  unfold listItem
  apply el_ok (by decide)
  · intro a ha
    fin_cases ha <;> exact attrEntryOK_className _
  · intro c hc
    rcases List.mem_cons.1 hc with rfl | hc
    · apply childOK_node
      split
      · refine styleSet_ok _ _ (styleSet_ok _ _ (el_ok (by decide) ?_ ?_))
        · intro a ha
          fin_cases ha <;> exact attrEntryOK_className _
        · intro c hc
          rcases List.mem_singleton.1 hc with rfl
          exact childOK_ordDot (i + 1)
      · exact el_icon_ok "div" (by decide) _ _ 16
    · rcases List.mem_singleton.1 hc with rfl
      exact childOK_node (el_txt_ok "div" (by decide) _ _)

theorem renderList_ok (data : JVal) : nodeOK (renderList data) := by
  unfold renderList
  apply el_ok (by decide)
  · intro a ha
    fin_cases ha <;> exact attrEntryOK_className _
  · intro c hc
    simp only [List.append_assoc, mem_ite_nil_iff, List.mem_append, List.mem_singleton] at hc
    rcases hc with ⟨-, rfl⟩ | rfl
    · exact childOK_node (el_txt_ok "h2" (by decide) _ _)
    · refine childOK_node (el_ok (by decide) ?_ ?_)
      · intro a ha
        fin_cases ha <;> exact attrEntryOK_className _
      · intro c hc
        rcases List.mem_map.1 hc with ⟨p, hp, rfl⟩
        exact childOK_node (listItem_ok _ p.1 p.2)

theorem renderCode_ok (data : JVal) : nodeOK (renderCode data) := by
  unfold renderCode
  dsimp only
  apply el_ok (by decide)
  · intro a ha
    fin_cases ha <;> exact attrEntryOK_className _
  · intro c hc
    rcases List.mem_singleton.1 hc with rfl
    refine childOK_node (el_ok (by decide) ?_ ?_)
    · intro a ha
      fin_cases ha <;> exact attrEntryOK_className _
    · intro c hc
      rcases List.mem_cons.1 hc with rfl | hc
      · refine childOK_node (el_ok (by decide) ?_ ?_)
        · intro a ha
          fin_cases ha <;> exact attrEntryOK_className _
        · intro c hc
          rcases List.mem_cons.1 hc with rfl | hc
          · exact childOK_node (el_stxt_ok "span" (by decide) _ _ _)
          · rcases List.mem_singleton.1 hc with rfl
            refine childOK_node (el_ok (by decide) ?_ ?_)
            · intro a ha
              fin_cases ha <;>
                first
                  | exact attrEntryOK_className _
                  | exact attrEntryOK_str _ _ (by decide)
                  | exact attrEntryOK_fn _ (by decide)
                  | decide
            · intro c hc
              rcases List.mem_cons.1 hc with rfl | hc
              · exact childOK_node (renderIcon_ok "copy" 16)
              · rcases List.mem_singleton.1 hc with rfl
                exact childOK_copy
      · rcases List.mem_singleton.1 hc with rfl
        refine childOK_node (el_ok (by decide) ?_ ?_)
        · intro a ha
          fin_cases ha <;> exact attrEntryOK_className _
        · intro c hc
          rcases List.mem_singleton.1 hc with rfl
          exact childOK_node (el_txt0_ok "code" (by decide) _)

theorem renderCta_ok (data : JVal) : nodeOK (renderCta data) := by
  unfold renderCta
  apply el_ok (by decide)
  · intro a ha
    fin_cases ha <;> exact attrEntryOK_className _
  · intro c hc
    simp only [List.append_assoc, mem_ite_nil_iff, List.mem_append, List.mem_singleton] at hc
    rcases hc with ⟨-, rfl⟩ | ⟨-, rfl⟩ | rfl
    · exact childOK_node (el_txt_ok "h2" (by decide) _ _)
    · exact childOK_node (el_txt_ok "p" (by decide) _ _)
    · refine childOK_node (el_ok (by decide) ?_ ?_)
      · intro a ha
        fin_cases ha <;> exact attrEntryOK_style _
      · intro c hc
        simp only [List.append_assoc, mem_ite_nil_iff, List.mem_append, List.mem_singleton] at hc
        rcases hc with ⟨-, rfl⟩ | ⟨-, rfl⟩ <;>
          · refine childOK_node (el_ok (by decide) ?_ ?_)
            · intro a ha
              fin_cases ha <;>
                first
                  | exact attrEntryOK_className _
                  | exact attrEntryOK_str _ _ (by decide)
                  | exact attrEntryOK_dataset_action _ _
            · intro c hc
              rcases List.mem_singleton.1 hc with rfl
              exact childOK_sanitize _

theorem renderDivider_ok : nodeOK renderDivider :=
  el_ok (by decide) (fun a ha => by fin_cases ha <;> exact attrEntryOK_className _)
    (fun c hc => absurd hc (List.not_mem_nil c))

theorem renderColumns_ok {r : JVal → Option DNode}
    (hr : ∀ s n, r s = some n → nodeOK n) (data : JVal) :
    nodeOK (renderColumns r data) := by
  unfold renderColumns
  apply el_ok (by decide)
  · intro a ha
    fin_cases ha <;> exact attrEntryOK_className _
  · intro c hc
    rcases List.mem_singleton.1 hc with rfl
    refine childOK_node (el_ok (by decide) ?_ ?_)
    · intro a ha
      fin_cases ha <;> exact attrEntryOK_className _
    · intro c hc
      rcases List.mem_map.1 hc with ⟨col, hcol, rfl⟩
      refine childOK_node (el_ok (by decide)
        (fun a ha => absurd ha (List.not_mem_nil a)) ?_)
      intro c hc
      rcases List.mem_map.1 hc with ⟨n, hn, rfl⟩
      exact childOK_node (nestChildren_ok hr _ n hn)

theorem renderImageText_ok (data : JVal) : nodeOK (renderImageText data) := by
  unfold renderImageText
  apply el_ok (by decide)
  · intro a ha
    fin_cases ha <;> exact attrEntryOK_className _
  · intro c hc
    rcases List.mem_singleton.1 hc with rfl
    refine childOK_node (el_ok (by decide) ?_ ?_)
    · intro a ha
      fin_cases ha <;> exact attrEntryOK_className _
    · intro c hc
      rcases List.mem_cons.1 hc with rfl | hc
      · apply childOK_node
        split
        · refine el_ok (by decide) ?_ ?_
          · intro a ha
            fin_cases ha <;> exact attrEntryOK_className _
          · intro c hc
            rcases List.mem_singleton.1 hc with rfl
            refine childOK_node (el_ok (by decide) ?_
              (fun c hc => absurd hc (List.not_mem_nil c)))
            intro a ha
            fin_cases ha <;> exact attrEntryOK_str _ _ (by decide)
        · refine el_ok (by decide) ?_ ?_
          · intro a ha
            fin_cases ha <;> exact attrEntryOK_className _
          · intro c hc
            rcases List.mem_singleton.1 hc with rfl
            exact childOK_sTxtOr _ _
      · rcases List.mem_singleton.1 hc with rfl
        refine childOK_node (el_ok (by decide) ?_ ?_)
        · intro a ha
          fin_cases ha <;> exact attrEntryOK_className _
        · intro c hc
          simp only [List.append_assoc, mem_ite_nil_iff, List.mem_append, List.mem_singleton] at hc
          rcases hc with ⟨-, rfl⟩ | ⟨-, rfl⟩
          · exact childOK_node (el_txt_ok "h3" (by decide) _ _)
          · exact childOK_node (el_txt_ok "p" (by decide) _ _)

theorem timelineItem_ok (item : JVal) : nodeOK (timelineItem item) := by
  unfold timelineItem
  apply el_ok (by decide)
  · intro a ha
    fin_cases ha <;> exact attrEntryOK_className _
  · intro c hc
    simp only [List.append_assoc, mem_ite_nil_iff, List.mem_append, List.mem_singleton] at hc
    rcases hc with rfl | ⟨-, rfl⟩ | rfl | ⟨-, rfl⟩
    · refine childOK_node (el_ok (by decide) ?_
        (fun c hc => absurd hc (List.not_mem_nil c)))
      intro a ha
      fin_cases ha <;> exact attrEntryOK_className _
    · exact childOK_node (el_txt_ok "div" (by decide) _ _)
    · exact childOK_node (el_stxt_ok "div" (by decide) _ _ _)
    · exact childOK_node (el_txt_ok "div" (by decide) _ _)

theorem renderTimeline_ok (data : JVal) : nodeOK (renderTimeline data) := by
  unfold renderTimeline
  apply el_ok (by decide)
  · intro a ha
    fin_cases ha <;> exact attrEntryOK_className _
  · intro c hc
    simp only [List.append_assoc, mem_ite_nil_iff, List.mem_append, List.mem_singleton] at hc
    rcases hc with ⟨-, rfl⟩ | rfl
    · exact childOK_node (el_txt_ok "h2" (by decide) _ _)
    · refine childOK_node (el_ok (by decide) ?_ ?_)
      · intro a ha
        fin_cases ha <;> exact attrEntryOK_className _
      · intro c hc
        rcases List.mem_map.1 hc with ⟨it, hit, rfl⟩
        exact childOK_node (timelineItem_ok it)

theorem tabBtn_ok (baseId : String) (active : Int) (i : Nat) (tab : JVal) :
    nodeOK (tabBtn baseId active i tab) := by
  unfold tabBtn
  apply el_ok (by decide)
  · intro a ha
    fin_cases ha <;>
      first
        | exact attrEntryOK_className _
        | exact attrEntryOK_str _ _ (by decide)
        | exact attrEntryOK_fn _ (by decide)
  · intro c hc
    rcases List.mem_singleton.1 hc with rfl
    exact childOK_sanitize _

theorem tabPanelBase_ok {r : JVal → Option DNode}
    (hr : ∀ s n, r s = some n → nodeOK n) (baseId : String) (i : Nat) (tab : JVal) :
    nodeOK (tabPanelBase r baseId i tab) := by
  unfold tabPanelBase
  apply el_ok (by decide)
  · intro a ha
    fin_cases ha <;>
      first
        | exact attrEntryOK_className _
        | exact attrEntryOK_str _ _ (by decide)
  · intro c hc
    rcases List.mem_map.1 hc with ⟨n, hn, rfl⟩
    apply childOK_node
    split at hn
    · rcases List.mem_flatMap.1 hn with ⟨s, hs, hns⟩
      split at hns
      · rename_i m heq
        rcases List.mem_singleton.1 hns with rfl
        exact hr _ _ heq
      · exact absurd hns (List.not_mem_nil n)
    · exact absurd hn (List.not_mem_nil n)

theorem tabPanel_ok {r : JVal → Option DNode}
    (hr : ∀ s n, r s = some n → nodeOK n) (baseId : String) (active : Int) (i : Nat)
    (tab : JVal) : nodeOK (tabPanel r baseId active i tab) := by
  unfold tabPanel
  split
  · exact tabPanelBase_ok hr baseId i tab
  · exact attrSet_ok _ _ (by decide) (tabPanelBase_ok hr baseId i tab)

theorem tabsetHeading_ok (data : JVal) : ∀ c ∈ tabsetHeading data, childOK c := by
  intro c hc
  unfold tabsetHeading at hc
  split at hc
  · rcases List.mem_singleton.1 hc with rfl
    exact childOK_node (el_txt_ok "h2" (by decide) _ _)
  · exact absurd hc (List.not_mem_nil c)

theorem renderTabset_ok {r : JVal → Option DNode}
    (hr : ∀ s n, r s = some n → nodeOK n) (data : JVal) : nodeOK (renderTabset r data) := by
  unfold renderTabset
  dsimp only
  split
  · apply el_ok (by decide)
    · intro a ha
      fin_cases ha <;> exact attrEntryOK_className _
    · exact tabsetHeading_ok data
  · apply el_ok (by decide)
    · intro a ha
      fin_cases ha <;> exact attrEntryOK_className _
    · intro c hc
      rcases List.mem_append.1 hc with hc | hc
      · exact tabsetHeading_ok data c hc
      · rcases List.mem_cons.1 hc with rfl | hc
        · refine childOK_node (el_ok (by decide) ?_ ?_)
          · intro a ha
            fin_cases ha <;>
              first
                | exact attrEntryOK_className _
                | exact attrEntryOK_str _ _ (by decide)
                | exact attrEntryOK_fn _ (by decide)
          · intro c hc
            rcases List.mem_map.1 hc with ⟨p, hp, rfl⟩
            exact childOK_node (tabBtn_ok _ _ p.1 p.2)
        · rcases List.mem_singleton.1 hc with rfl
          refine childOK_node (el_ok (by decide) ?_ ?_)
          · intro a ha
            fin_cases ha <;> exact attrEntryOK_className _
          · intro c hc
            rcases List.mem_map.1 hc with ⟨p, hp, rfl⟩
            exact childOK_node (tabPanel_ok hr _ _ p.1 p.2)

theorem realtimeListeners_mem (mode : String) :
    ∀ e ∈ realtimeListeners mode, e ∈ apListeners := by
  intro e he
  unfold realtimeListeners at he
  rcases List.mem_append.1 he with he | he
  · split at he
    · fin_cases he <;> decide
    · exact absurd he (List.not_mem_nil e)
  · split at he
    · fin_cases he <;> decide
    · exact absurd he (List.not_mem_nil e)

theorem fieldConstraintAttrs_names (field : JVal) :
    ∀ p ∈ fieldConstraintAttrs field, p.1 ∈ apAttrNames := by
  intro p hp
  unfold fieldConstraintAttrs at hp
  simp only [List.mem_append] at hp
  rcases hp with ((((((((hp | hp) | hp) | hp) | hp) | hp) | hp) | hp) | hp) <;>
    split at hp <;>
      first
        | exact absurd hp (List.not_mem_nil p)
        | (fin_cases hp <;> decide)
        | (rcases List.mem_singleton.1 hp with rfl;
            first
              | exact (by decide : "minlength" ∈ apAttrNames)
              | exact (by decide : "maxlength" ∈ apAttrNames)
              | exact (by decide : "pattern" ∈ apAttrNames)
              | exact (by decide : "min" ∈ apAttrNames)
              | exact (by decide : "max" ∈ apAttrNames)
              | exact (by decide : "step" ∈ apAttrNames))

theorem finishInput_ok (field : JVal) (d mode : String) {base : DNode} (hb : nodeOK base) :
    nodeOK (listenersAddAll
      (attrSet (attrsAddAll base (fieldConstraintAttrs field)) "aria-describedby" d)
      (realtimeListeners mode)) :=
  listenersAddAll_ok (realtimeListeners_mem mode)
    (attrSet_ok _ _ (by decide) (attrsAddAll_ok (fieldConstraintAttrs_names field) hb))

theorem optionNode_ok (opt : JVal) : nodeOK (optionNode opt) := by
  unfold optionNode
  dsimp only
  apply el_ok (by decide)
  · intro a ha
    fin_cases ha <;> exact attrEntryOK_str _ _ (by decide)
  · intro c hc
    rcases List.mem_singleton.1 hc with rfl
    exact childOK_sanitize _

theorem el_textarea_ok (idv namev ph rows : String) :
    nodeOK (el "textarea" [cAttr "ap-form-field-textarea", ("id", .avStr idv),
      ("name", .avStr namev), ("placeholder", .avStr ph), ("rows", .avStr rows)] []) :=
  el_ok (by decide)
    (fun a ha => by
      fin_cases ha <;>
        first
          | exact attrEntryOK_className _
          | exact attrEntryOK_str _ _ (by decide))
    (fun c hc => absurd hc (List.not_mem_nil c))

theorem el_select_ok (idv namev : String) (opts : List JVal) :
    nodeOK (el "select" [cAttr "ap-form-field-select", ("id", .avStr idv),
      ("name", .avStr namev)] (opts.map (fun o => ElChild.cnode (optionNode o)))) :=
  el_ok (by decide)
    (fun a ha => by
      fin_cases ha <;>
        first
          | exact attrEntryOK_className _
          | exact attrEntryOK_str _ _ (by decide))
    (fun c hc => by
      rcases List.mem_map.1 hc with ⟨o, ho, rfl⟩
      exact childOK_node (optionNode_ok o))

theorem el_checkbox_ok (idv tyv namev val : String) :
    nodeOK (el "input" [("id", .avStr idv), ("type", .avStr tyv), ("name", .avStr namev),
      ("value", .avStr val)] []) :=
  el_ok (by decide)
    (fun a ha => by fin_cases ha <;> exact attrEntryOK_str _ _ (by decide))
    (fun c hc => absurd hc (List.not_mem_nil c))

theorem el_input_ok (idv tyv namev ph : String) :
    nodeOK (el "input" [cAttr "ap-form-field-input", ("id", .avStr idv),
      ("type", .avStr tyv), ("name", .avStr namev), ("placeholder", .avStr ph)] []) :=
  el_ok (by decide)
    (fun a ha => by
      fin_cases ha <;>
        first
          | exact attrEntryOK_className _
          | exact attrEntryOK_str _ _ (by decide))
    (fun c hc => absurd hc (List.not_mem_nil c))

theorem fieldControl_ok (formId mode : String) (field : JVal) (i : Nat) :
    nodeOK (fieldControl formId mode field i) := by
  unfold fieldControl
  dsimp only
  split
  · exact finishInput_ok _ _ _
      (ite_attrSet_ok _ _ _ (by decide) (el_textarea_ok _ _ _ _))
  · split
    · apply finishInput_ok
      split <;>
        first
          | exact el_select_ok _ _ _
          | exact attrSet_ok _ _ (by decide) (el_select_ok _ _ _)
    · split
      · apply el_ok (by decide)
        · intro a ha
          fin_cases ha <;> exact attrEntryOK_className _
        · intro c hc
          simp only [List.append_assoc, mem_ite_nil_iff, List.mem_append, List.mem_singleton,
            List.mem_cons, List.not_mem_nil, or_false] at hc
          rcases hc with rfl | ⟨-, rfl⟩
          · apply childOK_node
            apply finishInput_ok
            split <;>
              first
                | exact el_checkbox_ok _ _ _ _
                | exact attrSet_ok _ _ (by decide) (el_checkbox_ok _ _ _ _)
          · refine childOK_node (el_ok (by decide)
              (fun a ha => absurd ha (List.not_mem_nil a)) ?_)
            intro c hc
            rcases List.mem_singleton.1 hc with rfl
            exact childOK_sTxtOr _ _
      · exact finishInput_ok _ _ _
          (ite_attrSet_ok _ _ _ (by decide)
            (ite_attrSet_ok _ _ _ (by decide)
              (ite_attrSet_ok _ _ _ (by decide) (el_input_ok _ _ _ _))))

theorem formField_ok (formId mode : String) (i : Nat) (field : JVal) :
    ∀ m ∈ formField formId mode i field, nodeOK m := by
  intro m hm
  unfold formField at hm
  split at hm
  · rcases List.mem_singleton.1 hm with rfl
    apply el_ok (by decide) (fun a ha => absurd ha (List.not_mem_nil a))
    intro c hc
    simp only [List.append_assoc, mem_ite_nil_iff, List.mem_append, List.mem_singleton, List.mem_cons,
      List.not_mem_nil, or_false] at hc
    rcases hc with (rfl | rfl) | ⟨-, rfl⟩ | rfl
    · refine childOK_node (el_ok (by decide) ?_ ?_)
      · intro a ha
        fin_cases ha <;>
          first
            | exact attrEntryOK_className _
            | exact attrEntryOK_str _ _ (by decide)
      · intro c hc
        rcases List.mem_singleton.1 hc with rfl
        exact childOK_sanitize _
    · exact childOK_node (fieldControl_ok _ _ _ _)
    · refine childOK_node (el_ok (by decide) ?_ ?_)
      · intro a ha
        fin_cases ha <;>
          first
            | exact attrEntryOK_className _
            | exact attrEntryOK_str _ _ (by decide)
      · intro c hc
        rcases List.mem_singleton.1 hc with rfl
        exact childOK_sanitize _
    · refine childOK_node (styleSet_ok _ _ (el_ok (by decide) ?_
        (fun c hc => absurd hc (List.not_mem_nil c))))
      intro a ha
      fin_cases ha <;>
        first
          | exact attrEntryOK_className _
          | exact attrEntryOK_str _ _ (by decide)
  · exact absurd hm (List.not_mem_nil m)

theorem renderForm_ok (data : JVal) : nodeOK (renderForm data) := by
  unfold renderForm
  dsimp only
  apply el_ok (by decide)
  · intro a ha
    fin_cases ha <;> exact attrEntryOK_className _
  · intro c hc
    simp only [List.append_assoc, mem_ite_nil_iff, List.mem_append, List.mem_singleton] at hc
    rcases hc with ⟨-, rfl⟩ | ⟨-, rfl⟩ | rfl
    · exact childOK_node (el_txt_ok "h2" (by decide) _ _)
    · exact childOK_node (el_txt_ok "p" (by decide) _ _)
    · refine childOK_node (el_ok (by decide) ?_ ?_)
      · intro a ha
        fin_cases ha <;>
          first
            | exact attrEntryOK_className _
            | exact attrEntryOK_str _ _ (by decide)
            | exact attrEntryOK_fn _ (by decide)
      · intro c hc
        rcases List.mem_cons.1 hc with rfl | hc
        · refine childOK_node (el_ok (by decide) ?_ ?_)
          · intro a ha
            fin_cases ha <;> exact attrEntryOK_className _
          · intro c hc
            rcases List.mem_map.1 hc with ⟨n, hn, rfl⟩
            rcases List.mem_flatMap.1 hn with ⟨p, hp, hnp⟩
            exact childOK_node (formField_ok _ _ p.1 p.2 n hnp)
        · rcases List.mem_singleton.1 hc with rfl
          refine childOK_node (el_ok (by decide) ?_ ?_)
          · intro a ha
            fin_cases ha <;> exact attrEntryOK_className _
          · intro c hc
            simp only [List.append_assoc, mem_ite_nil_iff, List.mem_append, List.mem_singleton] at hc
            rcases hc with ⟨-, rfl⟩ | ⟨-, rfl⟩ <;>
              · refine childOK_node (el_ok (by decide) ?_ ?_)
                · intro a ha
                  fin_cases ha <;>
                    first
                      | exact attrEntryOK_className _
                      | exact attrEntryOK_str _ _ (by decide)
                      | exact attrEntryOK_fn _ (by decide)
                · intro c hc
                  rcases List.mem_singleton.1 hc with rfl
                  exact childOK_sanitize _

theorem mediaVideoBase_ok (data : JVal) : nodeOK (mediaVideoBase data) := by
  unfold mediaVideoBase
  apply styleSet_ok
  apply el_ok (by decide)
  · intro a ha
    fin_cases ha <;> exact attrEntryOK_className _
  · intro c hc
    rcases List.mem_cons.1 hc with rfl | hc
    · refine childOK_node (el_ok (by decide) ?_
        (fun c hc => absurd hc (List.not_mem_nil c)))
      intro a ha
      fin_cases ha <;> exact attrEntryOK_str _ _ (by decide)
    · rcases List.mem_singleton.1 hc with rfl
      refine childOK_node (el_ok (by decide) ?_ ?_)
      · intro a ha
        fin_cases ha <;> exact attrEntryOK_style _
      · intro c hc
        rcases List.mem_singleton.1 hc with rfl
        exact childOK_node (renderIcon_ok "play" 40)

theorem mediaBlockMedia_ok (data : JVal) : nodeOK (mediaBlockMedia data) := by
  unfold mediaBlockMedia
  dsimp only
  split
  · apply el_ok (by decide)
    · intro a ha
      fin_cases ha <;> exact attrEntryOK_className _
    · intro c hc
      rcases List.mem_singleton.1 hc with rfl
      refine childOK_node (el_ok (by decide) ?_
        (fun c hc => absurd hc (List.not_mem_nil c)))
      intro a ha
      fin_cases ha <;> exact attrEntryOK_str _ _ (by decide)
  · split
    · split
      · exact styleSet_ok _ _ (attrSet_ok _ _ (by decide) (mediaVideoBase_ok data))
      · exact mediaVideoBase_ok data
    · split
      · exact el_icon_ok "div" (by decide) _ _ 40
      · refine el_ok (by decide) ?_ ?_
        · intro a ha
          fin_cases ha <;> exact attrEntryOK_className _
        · intro c hc
          rcases List.mem_singleton.1 hc with rfl
          exact childOK_sTxtOr _ _

theorem renderMediaBlock_ok (data : JVal) : nodeOK (renderMediaBlock data) := by
  unfold renderMediaBlock
  dsimp only
  apply el_ok (by decide)
  · intro a ha
    fin_cases ha <;> exact attrEntryOK_className _
  · intro c hc
    rcases List.mem_singleton.1 hc with rfl
    refine childOK_node (el_ok (by decide) ?_ ?_)
    · intro a ha
      fin_cases ha <;> exact attrEntryOK_className _
    · intro c hc
      rcases List.mem_cons.1 hc with rfl | hc
      · exact childOK_node (mediaBlockMedia_ok data)
      · rcases List.mem_singleton.1 hc with rfl
        refine childOK_node (el_ok (by decide) ?_ ?_)
        · intro a ha
          fin_cases ha <;> exact attrEntryOK_className _
        · intro c hc
          simp only [List.append_assoc, mem_ite_nil_iff, List.mem_append, List.mem_singleton] at hc
          rcases hc with ⟨-, rfl⟩ | ⟨-, rfl⟩ | ⟨-, rfl⟩
          · exact childOK_node (el_txt_ok "div" (by decide) _ _)
          · exact childOK_node (el_txt_ok "h3" (by decide) _ _)
          · exact childOK_node (el_txt_ok "p" (by decide) _ _)

set_option maxHeartbeats 1600000 in
/-- Every tree the registry dispatch produces satisfies the vocabulary
discipline, by induction on the recursion budget. -/
theorem renderNode_ok : ∀ (gas : Nat) (ty : String) (data : JVal) (node : DNode),
    renderNode gas ty data = some node → nodeOK node := by
  intro gas
  induction gas with
  | zero =>
      intro ty data node h
      exact absurd h (by simp [renderNode])
  | succ g ih =>
      intro ty data node h
      have hr : ∀ (s : JVal) (m : DNode),
          (match jgetV s "type" with
            | some (.jstr t) => renderNode g t s
            | _ => none) = some m → nodeOK m := by
        intro s m hm
        split at hm
        · exact ih _ _ _ hm
        · exact Option.noConfusion hm
      unfold renderNode at h
      dsimp only at h
      split at h
      · exact (Option.some.inj h) ▸ renderHero_ok data
      · exact (Option.some.inj h) ▸ renderHeading_ok data
      · exact (Option.some.inj h) ▸ renderText_ok data
      · exact (Option.some.inj h) ▸ renderStack_ok hr data
      · exact (Option.some.inj h) ▸ renderCard_ok hr data
      · exact (Option.some.inj h) ▸ renderFeatureGrid_ok data
      · exact (Option.some.inj h) ▸ renderStatRow_ok data
      · exact (Option.some.inj h) ▸ renderCompTable_ok data
      · exact (Option.some.inj h) ▸ renderSteps_ok data
      · exact (Option.some.inj h) ▸ renderCallout_ok data
      · exact (Option.some.inj h) ▸ renderFaq_ok data
      · exact (Option.some.inj h) ▸ renderQuote_ok data
      · exact (Option.some.inj h) ▸ renderList_ok data
      · exact (Option.some.inj h) ▸ renderCode_ok data
      · exact (Option.some.inj h) ▸ renderCta_ok data
      · exact (Option.some.inj h) ▸ renderDivider_ok
      · exact (Option.some.inj h) ▸ renderColumns_ok hr data
      · exact (Option.some.inj h) ▸ renderImageText_ok data
      · exact (Option.some.inj h) ▸ renderTimeline_ok data
      · exact (Option.some.inj h) ▸ renderTabset_ok hr data
      · exact (Option.some.inj h) ▸ renderForm_ok data
      · exact (Option.some.inj h) ▸ renderMediaBlock_ok data
      · exact Option.noConfusion h

mutual
/-- `nodeOK` pushed to the five tree observations. -/
theorem nodeOK_obs : ∀ (n : DNode), nodeOK n →
    (∀ s ∈ DNode.textLeavesOf n, leafOK s) ∧
    (∀ m ∈ DNode.markupOf n, m ∈ iconMarkups) ∧
    (∀ t ∈ DNode.tagsOf n, t ∈ apTags) ∧
    (∀ a ∈ DNode.attrNamesOf n, a ∈ apAttrNames) ∧
    (∀ e ∈ DNode.listenersOf n, e ∈ apListeners)
  | .dtext s, h =>
      ⟨fun x hx => by rcases List.mem_singleton.1 hx with rfl; exact h,
       fun x hx => absurd hx (List.not_mem_nil x),
       fun x hx => absurd hx (List.not_mem_nil x),
       fun x hx => absurd hx (List.not_mem_nil x),
       fun x hx => absurd hx (List.not_mem_nil x)⟩
  | .dmarkup s, h =>
      ⟨fun x hx => absurd hx (List.not_mem_nil x),
       fun x hx => by rcases List.mem_singleton.1 hx with rfl; exact h,
       fun x hx => absurd hx (List.not_mem_nil x),
       fun x hx => absurd hx (List.not_mem_nil x),
       fun x hx => absurd hx (List.not_mem_nil x)⟩
  | .elem t attrs styles ls ch, h => by
      obtain ⟨ht, ha, hl, hch⟩ := h
      obtain ⟨c1, c2, c3, c4, c5⟩ := nodesOK_obs ch hch
      refine ⟨c1, c2, ?_, ?_, ?_⟩
      · intro x hx
        rcases List.mem_cons.1 hx with rfl | hx
        · exact ht
        · exact c3 x hx
      · intro x hx
        rcases List.mem_append.1 hx with hx | hx
        · rcases List.mem_map.1 hx with ⟨a, haa, rfl⟩
          exact ha a haa
        · exact c4 x hx
      · intro x hx
        rcases List.mem_append.1 hx with hx | hx
        · exact hl x hx
        · exact c5 x hx

theorem nodesOK_obs : ∀ (l : List DNode), nodesOK l →
    (∀ s ∈ textLeavesOfList l, leafOK s) ∧
    (∀ m ∈ markupOfList l, m ∈ iconMarkups) ∧
    (∀ t ∈ tagsOfList l, t ∈ apTags) ∧
    (∀ a ∈ attrNamesOfList l, a ∈ apAttrNames) ∧
    (∀ e ∈ listenersOfList l, e ∈ apListeners)
  | [], _ =>
      ⟨fun x hx => absurd hx (List.not_mem_nil x),
       fun x hx => absurd hx (List.not_mem_nil x),
       fun x hx => absurd hx (List.not_mem_nil x),
       fun x hx => absurd hx (List.not_mem_nil x),
       fun x hx => absurd hx (List.not_mem_nil x)⟩
  | n :: rest, h => by
      obtain ⟨h1, h2⟩ := h
      obtain ⟨a1, a2, a3, a4, a5⟩ := nodeOK_obs n h1
      obtain ⟨b1, b2, b3, b4, b5⟩ := nodesOK_obs rest h2
      refine ⟨?_, ?_, ?_, ?_, ?_⟩
      · intro x hx
        rcases List.mem_append.1 hx with hx | hx
        · exact a1 x hx
        · exact b1 x hx
      · intro x hx
        rcases List.mem_append.1 hx with hx | hx
        · exact a2 x hx
        · exact b2 x hx
      · intro x hx
        rcases List.mem_append.1 hx with hx | hx
        · exact a3 x hx
        · exact b3 x hx
      · intro x hx
        rcases List.mem_append.1 hx with hx | hx
        · exact a4 x hx
        · exact b4 x hx
      · intro x hx
        rcases List.mem_append.1 hx with hx | hx
        · exact a5 x hx
        · exact b5 x hx
end

/-- C1.  Injection invariant, over the full built-in renderer registry:
for every registered section type `ty`, every section payload `data` (of
arbitrary nesting, under any recursion budget `gas`) and every tree the
dispatch produces, (i) every text-node leaf of the tree is either the
image of `sanitizeText` — the only path by which a caller string reaches
text content — or one of the renderers' fixed literals (a step/list
ordinal, "Copy", "✘", or the empty string); (ii) the only strings that
ever reach the markup (`innerHTML`) sink are the fixed `ICONS` constants,
never caller data; and (iii-v) every element tag, attribute name fed to
`setAttribute`, and registered event-listener name comes from a fixed
caller-independent vocabulary.  Hence a caller-supplied string `s` —
markup, script-bearing, or quote-breaking — can appear in the rendered
tree only as literal text content (or inside a sanitized attribute value
under a fixed attribute name), never as a new element, a new attribute,
or an executable reference. -/
theorem text_field_injection_invariant (ty : String) (hty : ty ∈ rendererKeys)
    (gas : Nat) (data : JVal) (node : DNode)
    (hrender : renderNode gas ty data = some node) :
    (∀ s ∈ DNode.textLeavesOf node, leafOK s) ∧
    (∀ m ∈ DNode.markupOf node, m ∈ iconMarkups) ∧
    (∀ t ∈ DNode.tagsOf node, t ∈ apTags) ∧
    (∀ a ∈ DNode.attrNamesOf node, a ∈ apAttrNames) ∧
    (∀ e ∈ DNode.listenersOf node, e ∈ apListeners) :=
  nodeOK_obs node (renderNode_ok gas ty data node hrender)

/-- C1 witness: the `hero` renderer applied to a section carrying an
adversarial markup/script payload in its `heading` text field. -/
theorem text_field_injection_invariant_witness :
    ("hero" ∈ rendererKeys) ∧
    ((∀ s ∈ DNode.textLeavesOf (renderHero injDemoSection), leafOK s) ∧
     (∀ m ∈ DNode.markupOf (renderHero injDemoSection), m ∈ iconMarkups) ∧
     (∀ t ∈ DNode.tagsOf (renderHero injDemoSection), t ∈ apTags) ∧
     (∀ a ∈ DNode.attrNamesOf (renderHero injDemoSection), a ∈ apAttrNames) ∧
     (∀ e ∈ DNode.listenersOf (renderHero injDemoSection), e ∈ apListeners)) :=
  ⟨by decide,
   text_field_injection_invariant "hero" (by decide) 1 injDemoSection
     (renderHero injDemoSection) (by rfl)⟩


/-! ## Form-engine lemmas and the submission contract -/

theorem assocGet_assocSet_self {α : Type} (e : List (String × α)) (n : String) (v : α) :
    assocGet (assocSet e n v) n = some v := by
  induction e with
  | nil => simp [assocSet, assocGet]
  | cons p rest ih =>
      by_cases h : p.1 = n <;> simp [assocSet, assocGet, h, ih]

theorem assocGet_append {α : Type} (e1 e2 : List (String × α)) (n : String) :
    assocGet (e1 ++ e2) n =
      (match assocGet e1 n with
       | some v => some v
       | none => assocGet e2 n) := by
  induction e1 with
  | nil => simp [assocGet]
  | cons p rest ih =>
      by_cases h : p.1 = n <;> simp [assocGet, h, ih]

theorem assocSet_of_get_none {α : Type} (e : List (String × α)) (n : String) (v : α)
    (h : assocGet e n = none) : assocSet e n v = e ++ [(n, v)] := by
  induction e with
  | nil => simp [assocSet]
  | cons p rest ih =>
      by_cases hp : p.1 = n
      · simp [assocGet, hp] at h
      · simp [assocGet, hp] at h
        simp [assocSet, hp, ih h]

theorem validateAllLoop_valid (eng : RegexEngine) (values : List (String × JSV))
    (reg : List (Field × String)) (b : Bool) (e : List (String × List String)) :
    (validateAllLoop eng values reg (b, e)).1
      = (b && reg.all (fun p => errsOf eng values p = [])) := by
  induction reg generalizing b e with
  | nil => simp [validateAllLoop]
  | cons p rest ih =>
      by_cases h : errsOf eng values p = []
      · simp only [validateAllLoop, errsOf] at h ⊢
        simp [h, ih, errsOf]
      · simp only [validateAllLoop, errsOf] at h ⊢
        simp [h, ih, errsOf]

theorem validateAllLoop_errs (eng : RegexEngine) (values : List (String × JSV))
    (reg : List (Field × String)) (b : Bool) (e : List (String × List String))
    (hfresh : ∀ p ∈ reg, assocGet e (regName p.1 p.2) = none)
    (hnodup : (reg.map (fun p => regName p.1 p.2)).Nodup) :
    (validateAllLoop eng values reg (b, e)).2
      = e ++ (reg.filter (fun p => errsOf eng values p ≠ [])).map
          (fun p => (regName p.1 p.2, errsOf eng values p)) := by
  induction reg generalizing b e with
  | nil => simp [validateAllLoop]
  | cons p rest ih =>
      simp only [List.map_cons, List.nodup_cons] at hnodup
      obtain ⟨hn, hnd⟩ := hnodup
      by_cases h : errsOf eng values p = []
      · have hres := ih b e (fun q hq => hfresh q (List.mem_cons_of_mem _ hq)) hnd
        simp only [validateAllLoop, errsOf] at h ⊢
        simp [h, hres, errsOf]
      · have hset : assocSet e (regName p.1 p.2) (errsOf eng values p)
            = e ++ [(regName p.1 p.2, errsOf eng values p)] :=
          assocSet_of_get_none _ _ _ (hfresh p (List.mem_cons_self _ _))
        have hfresh2 : ∀ q ∈ rest,
            assocGet (e ++ [(regName p.1 p.2, errsOf eng values p)]) (regName q.1 q.2) = none := by
          intro q hq
          have hne : regName q.1 q.2 ≠ regName p.1 p.2 := by
            intro hEq
            exact hn (hEq ▸ List.mem_map_of_mem _ hq)
          rw [assocGet_append, hfresh q (List.mem_cons_of_mem _ hq)]
          simp [assocGet, Ne.symm hne]
        have hres := ih false (e ++ [(regName p.1 p.2, errsOf eng values p)]) hfresh2 hnd
        simp only [errsOf] at hset hres
        simp only [validateAllLoop, errsOf] at h ⊢
        simp [h, hset, hres]

theorem assocGet_filterMap_not_mem (eng : RegexEngine) (values : List (String × JSV))
    (reg : List (Field × String)) (n : String)
    (hn : n ∉ reg.map (fun p => regName p.1 p.2)) :
    assocGet ((reg.filter (fun p => errsOf eng values p ≠ [])).map
      (fun p => (regName p.1 p.2, errsOf eng values p))) n = none := by
  induction reg with
  | nil => simp [assocGet]
  | cons p rest ih =>
      simp only [List.map_cons, List.mem_cons, not_or] at hn
      simp only [ne_eq, decide_not] at ih ⊢
      by_cases h : errsOf eng values p = []
      · simp [h, ih hn.2]
      · simp [h, assocGet, Ne.symm (Ne.intro hn.1), ih hn.2]

theorem assocGet_filterMap_mem (eng : RegexEngine) (values : List (String × JSV))
    (reg : List (Field × String)) (p : Field × String) (hp : p ∈ reg)
    (hnodup : (reg.map (fun q => regName q.1 q.2)).Nodup) :
    assocGet ((reg.filter (fun q => errsOf eng values q ≠ [])).map
      (fun q => (regName q.1 q.2, errsOf eng values q))) (regName p.1 p.2)
      = (if errsOf eng values p = [] then none else some (errsOf eng values p)) := by
  induction reg with
  | nil => simp at hp
  | cons q rest ih =>
      simp only [List.map_cons, List.nodup_cons] at hnodup
      obtain ⟨hn, hnd⟩ := hnodup
      have hnm := assocGet_filterMap_not_mem eng values rest
      simp only [ne_eq, decide_not] at ih hnm ⊢
      rcases List.mem_cons.mp hp with hEq | hMem
      · subst hEq
        by_cases h : errsOf eng values p = []
        · simp [h]
          exact hnm _ hn
        · simp [h, assocGet]
      · have hne : regName q.1 q.2 ≠ regName p.1 p.2 := by
          intro hEq
          exact hn (hEq ▸ List.mem_map_of_mem _ hMem)
        by_cases h : errsOf eng values q = []
        · simp [h, ih hMem hnd]
        · simp [h, assocGet, hne, ih hMem hnd]

theorem effPred_pd : isShowErrEff .preventDefault = false ∧ isFormCbEff .preventDefault = false ∧
    isFocusEff .preventDefault = false := ⟨rfl, rfl, rfl⟩

theorem effPred_se (n s : String) (v : Bool) : isShowErrEff (.showError n s v) = true ∧
    isFormCbEff (.showError n s v) = false ∧ isFocusEff (.showError n s v) = false := ⟨rfl, rfl, rfl⟩

theorem effPred_cb (a : String) (b : Bool) (vs : List (String × JSV))
    (es : List (String × List String)) : isShowErrEff (.callback a b vs es) = false ∧
    isFormCbEff (.callback a b vs es) = true ∧ isFocusEff (.callback a b vs es) = false := ⟨rfl, rfl, rfl⟩

theorem effPred_fc (n : String) : isShowErrEff (.focus n) = false ∧
    isFormCbEff (.focus n) = false ∧ isFocusEff (.focus n) = true := ⟨rfl, rfl, rfl⟩

theorem filter_showErrs (reg : List (Field × String)) (e : List (String × List String)) :
    (showErrorEffs reg e).filter isShowErrEff = showErrorEffs reg e ∧
    (showErrorEffs reg e).filter isFormCbEff = [] ∧
    (showErrorEffs reg e).filter isFocusEff = [] := by
  induction reg with
  | nil => simp [showErrorEffs]
  | cons p rest ih =>
      obtain ⟨ih1, ih2, ih3⟩ := ih
      simp only [showErrorEffs, List.map_cons] at ih1 ih2 ih3 ⊢
      refine ⟨?_, ?_, ?_⟩
      · rw [List.filter_cons_of_pos ((effPred_se _ _ _).1), ih1]
      · rw [List.filter_cons_of_neg, ih2]
        simp [(effPred_se _ _ _).2.1]
      · rw [List.filter_cons_of_neg, ih3]
        simp [(effPred_se _ _ _).2.2]

theorem find?_congr_mem {α : Type} (l : List α) (p q : α → Bool)
    (h : ∀ a ∈ l, p a = q a) : l.find? p = l.find? q := by
  induction l with
  | nil => simp
  | cons a rest ih =>
      have ha := h a (List.mem_cons_self _ _)
      by_cases hp : p a = true
      · rw [List.find?_cons_of_pos _ hp, List.find?_cons_of_pos _ (ha ▸ hp)]
      · rw [List.find?_cons_of_neg _ hp, List.find?_cons_of_neg _ (by rw [← ha]; exact hp)]
        exact ih (fun a ha2 => h a (List.mem_cons_of_mem _ ha2))

theorem form_submit_contract (eng : RegexEngine) (fields : List Field) (live : Nat → JSV)
    (act : String)
    (hnodup : ((mkRegistry fields).map (fun p => regName p.1 p.2)).Nodup) :
    (formSubmit eng fields live act).head? = some .preventDefault ∧
    (submitResult eng fields live).2
      = ((mkRegistry fields).filter
          (fun p => errsOf eng (submitValues fields live) p ≠ [])).map
          (fun p => (regName p.1 p.2, errsOf eng (submitValues fields live) p)) ∧
    (submitResult eng fields live).1
      = (mkRegistry fields).all (fun p => errsOf eng (submitValues fields live) p = []) ∧
    (formSubmit eng fields live act).filter isShowErrEff
      = (mkRegistry fields).map (fun p =>
          .showError (regName p.1 p.2)
            (if errsOf eng (submitValues fields live) p ≠ []
             then (errsOf eng (submitValues fields live) p).headD "" else "")
            (errsOf eng (submitValues fields live) p ≠ [])) ∧
    (formSubmit eng fields live act).filter isFormCbEff
      = [.callback act (submitResult eng fields live).1 (submitValues fields live)
          (submitResult eng fields live).2] ∧
    (formSubmit eng fields live act).filter isFocusEff
      = (if (submitResult eng fields live).1 then []
         else match (mkRegistry fields).find?
                (fun p => errsOf eng (submitValues fields live) p ≠ []) with
              | some p => [.focus (regName p.1 p.2)]
              | none => []) ∧
    validateField eng { required := true, errorRequired := some "Custom!" } none
      = ["Custom!"] := by
  have hfresh : ∀ p ∈ mkRegistry fields, assocGet ([] : List (String × List String))
      (regName p.1 p.2) = none := fun p _ => rfl
  have hb : (submitResult eng fields live).2
      = ((mkRegistry fields).filter
          (fun p => errsOf eng (submitValues fields live) p ≠ [])).map
          (fun p => (regName p.1 p.2, errsOf eng (submitValues fields live) p)) := by
    unfold submitResult validateAll
    exact validateAllLoop_errs eng (submitValues fields live) (mkRegistry fields) true []
      hfresh hnodup
  have hc : (submitResult eng fields live).1
      = (mkRegistry fields).all (fun p => errsOf eng (submitValues fields live) p = []) := by
    unfold submitResult validateAll
    rw [validateAllLoop_valid]
    simp
  have hget : ∀ p ∈ mkRegistry fields,
      assocGet (submitResult eng fields live).2 (regName p.1 p.2)
        = (if errsOf eng (submitValues fields live) p = [] then none
           else some (errsOf eng (submitValues fields live) p)) := by
    intro p hp
    rw [hb]
    exact assocGet_filterMap_mem eng (submitValues fields live) (mkRegistry fields) p hp hnodup
  have htrace : formSubmit eng fields live act
      = [.preventDefault]
        ++ showErrorEffs (mkRegistry fields) (submitResult eng fields live).2
        ++ [.callback act (submitResult eng fields live).1 (submitValues fields live)
            (submitResult eng fields live).2]
        ++ (if ¬ (submitResult eng fields live).1 then
              match (mkRegistry fields).find? (fun p =>
                (assocGet (submitResult eng fields live).2 (regName p.1 p.2)).isSome) with
              | some p => [.focus (regName p.1 p.2)]
              | none => []
            else []) := rfl
  refine ⟨by rw [htrace]; rfl, hb, hc, ?_, ?_, ?_, rfl⟩
  · -- showError batch
    rw [htrace]
    have hfoc : (if ¬ (submitResult eng fields live).1 then
        match (mkRegistry fields).find? (fun p =>
          (assocGet (submitResult eng fields live).2 (regName p.1 p.2)).isSome) with
        | some p => [FormEff.focus (regName p.1 p.2)]
        | none => []
      else []).filter isShowErrEff = [] := by
      split
      · split <;> simp [(effPred_fc _).1]
      · rfl
    have h1 := (filter_showErrs (mkRegistry fields) (submitResult eng fields live).2).1
    simp only [List.filter_append, List.filter_cons, List.filter_nil,
      (effPred_pd).1, (effPred_cb _ _ _ _).1, h1, hfoc, Bool.false_eq_true, if_false,
      List.nil_append, List.append_nil]
    unfold showErrorEffs
    apply List.map_congr_left
    intro p hp
    simp only [hget p hp]
    by_cases h : errsOf eng (submitValues fields live) p = [] <;> simp [h]
  · -- callback exactly once
    rw [htrace]
    have hfoc : (if ¬ (submitResult eng fields live).1 then
        match (mkRegistry fields).find? (fun p =>
          (assocGet (submitResult eng fields live).2 (regName p.1 p.2)).isSome) with
        | some p => [FormEff.focus (regName p.1 p.2)]
        | none => []
      else []).filter isFormCbEff = [] := by
      split
      · split <;> simp [(effPred_fc _).2.1]
      · rfl
    have h2 := (filter_showErrs (mkRegistry fields) (submitResult eng fields live).2).2.1
    simp only [List.filter_append, List.filter_cons, List.filter_nil,
      (effPred_pd).2.1, (effPred_cb _ _ _ _).2.1, h2, hfoc, Bool.false_eq_true, if_false,
      if_true, List.nil_append, List.append_nil]
  · -- focus
    rw [htrace]
    have h3 := (filter_showErrs (mkRegistry fields) (submitResult eng fields live).2).2.2
    simp only [List.filter_append, List.filter_cons, List.filter_nil,
      (effPred_pd).2.2, (effPred_cb _ _ _ _).2.2, h3, Bool.false_eq_true, if_false,
      List.nil_append, List.append_nil]
    have hpred : (mkRegistry fields).find? (fun p =>
        (assocGet (submitResult eng fields live).2 (regName p.1 p.2)).isSome)
        = (mkRegistry fields).find? (fun p =>
            errsOf eng (submitValues fields live) p ≠ []) := by
      apply find?_congr_mem
      intro p hp
      rw [hget p hp]
      by_cases h : errsOf eng (submitValues fields live) p = [] <;> simp [h]
    rw [hpred]
    by_cases hv : (submitResult eng fields live).1 = true
    · simp [hv]
    · simp only [hv, Bool.false_eq_true, not_false_eq_true, if_true, if_false]
      split <;> simp [(effPred_fc _).2.2, isFocusEff]

/-- C6 witness: the spec's batch-validation instance — a form with three
required fields of which two (`a` and `c`) are empty at submit.  The error
mapping contains exactly the two invalid fields in declared order, and
focus lands on the first of them. -/
theorem form_submit_contract_witness :
    ((mkRegistry demoFields).map (fun p => regName p.1 p.2)).Nodup ∧
    ((submitResult demoEng demoFields demoLive).2).map Prod.fst = ["a", "c"] ∧
    (formSubmit demoEng demoFields demoLive "form:submit").filter isFocusEff
      = [.focus "a"] := by
  have h := form_submit_contract demoEng demoFields demoLive "form:submit" (by decide)
  refine ⟨by decide, ?_, ?_⟩
  · rw [h.2.1]; decide
  · rw [h.2.2.2.2.2.1]; decide

/-- C2 (code bug).  `sanitizeUrl` in the shipped source allows only
`http:`, `https:` and `mailto:` — `tel:` URLs, which the claim (and the
repository's 0.5.1 changelog) say are preserved, are rejected to the empty
string — and the hero CTA renders a blocked URL with `href=""` rather than
the inert placeholder `#` the claim (and the repository's own test
`blocked href becomes # via sanitizeHref`) requires: the `#` fallback at
line 1179 fires only when `cta.url` is falsy, not when sanitization
rejects it.  An allowed URL is preserved, as the third conjunct shows. -/
theorem sanitize_url_href_placeholder_bug :
    sanitizeUrl (some (.jstr "tel:+15551234567")) = "" ∧
    sanitizeUrl (some (.jstr "javascript:alert(1)")) = "" ∧
    sanitizeUrl (some (.jstr "https://example.com/docs")) = "https://example.com/docs" ∧
    (renderHero (.jobj [("cta", .jobj [("text", .jstr "Call"),
        ("url", .jstr "javascript:alert(1)")])])).attrValue "href" = some "" := by decide

/-- C7.  The action gate: under `allowList` with allow-set `{"go"}`, a
click on a declared intent `go` reaches the host callback while `stop` is
blocked with a diagnostic; under `denyAll` no declared intent ever reaches
the callback, whatever its name and whatever the allow list; and the form
submit handler delivers its callback exactly once without consulting any
policy (the stated form-outcome exception). -/
theorem action_policy_gate :
    clickDispatch "allowList" (some (sessionAllowed ["go"])) "go"
      = [.preventDefault, .callback "go"] ∧
    clickDispatch "allowList" (some (sessionAllowed ["go"])) "stop"
      = [.preventDefault, .blockedWarn "stop"] ∧
    (∀ allowed name, (clickDispatch "denyAll" allowed name).filter isClickCb = []) ∧
    (∀ eng fields live act, ((formSubmit eng fields live act).filter isFormCbEff).length = 1) := by
  refine ⟨by decide, by decide, ?_, ?_⟩
  · intro allowed name
    simp only [clickDispatch, shouldAllowAction]
    split_ifs <;> simp_all [isClickCb]
  · intro eng fields live act
    simp only [formSubmit]
    split_ifs <;>
      simp [List.filter_append, (filter_showErrs _ _).2.1,
        (effPred_pd).2.1, (effPred_cb _ _ _ _).2.1] <;>
      split <;> simp [(effPred_fc _).2.1]

set_option maxRecDepth 4000 in
/-- C8 (code bug).  The shipped `validateField` runs the caller-supplied
pattern directly: no heuristic check against catastrophic-backtracking
shapes and no cap on the tested string length (the 0.5.1 changelog lists
both as added later).  With an engine whose `test` succeeds exactly on
strings of length at most 100, a 200-character value still reaches the
engine in full and the field is marked invalid — under the claimed length
cap the tested string would have matched.  The second conjunct shows the
half of the claim the code does satisfy: a pattern that fails to compile
is skipped rather than failing the field. -/
theorem pattern_rule_unguarded_bug :
    validateField ⟨fun _ => some (fun s => decide (s.length ≤ 100))⟩
        { pattern := some "(a+)+$" } (some (.vstr (String.mk (List.replicate 200 'a'))))
      = ["Field is invalid."] ∧
    validateField ⟨fun _ => none⟩ { pattern := some "(" } (some (.vstr "x")) = [] := by
  decide

/-- C9 (code bug).  `setTheme` re-runs `injectStyles`, which removes the
existing `<style>` element and creates a fresh one: after a theme switch
the session's live stylesheet is a different element (allocation 1), and
the element an external reference captured before the switch (allocation
0) is no longer in the document — contradicting the claim (and the
repository's own test `theme switch updates same style element`). -/
theorem set_theme_replaces_stylesheet_bug :
    liveStyleEl (newSession (fun t => "css-" ++ t) "c0" "light") = some 0 ∧
    liveStyleEl (setTheme (fun t => "css-" ++ t)
      (newSession (fun t => "css-" ++ t) "c0" "light") "dark") = some 1 ∧
    ((setTheme (fun t => "css-" ++ t) (newSession (fun t => "css-" ++ t) "c0" "light")
        "dark").head.styles.map (fun st => st.elId)) = [1] := by decide


theorem jget_jset_self (kvs : List (String × JVal)) (k : String) (v : JVal) :
    jget (jset kvs k v) k = some v := by
  induction kvs with
  | nil => simp [jset, jget]
  | cons p rest ih =>
      by_cases h : p.1 = k <;> simp [jset, jget, h, ih]

theorem jget_jset_ne (kvs : List (String × JVal)) (k k2 : String) (v : JVal)
    (h : k2 ≠ k) : jget (jset kvs k v) k2 = jget kvs k2 := by
  induction kvs with
  | nil => simp [jset, jget, Ne.symm h]
  | cons p rest ih =>
      by_cases hp : p.1 = k
      · simp [jset, jget, hp, h, Ne.symm h]
      · simp [jset, jget, hp, ih]

theorem jset_same (kvs : List (String × JVal)) (k : String) (v : JVal)
    (h : jget kvs k = some v) : jset kvs k v = kvs := by
  induction kvs with
  | nil => simp [jget] at h
  | cons p rest ih =>
      obtain ⟨pk, pv⟩ := p
      by_cases hp : pk = k
      · simp [jget, hp] at h
        simp [jset, hp, h]
      · simp [jget, hp] at h
        simp [jset, hp, ih h]

theorem jset_jset (kvs : List (String × JVal)) (k : String) (v w : JVal) :
    jset (jset kvs k v) k w = jset kvs k w := by
  induction kvs with
  | nil => simp [jset]
  | cons p rest ih =>
      by_cases hp : p.1 = k <;> simp [jset, hp, ih]

theorem clampFields_eq_map (kvs : List (String × JVal)) :
    clampFields kvs = kvs.map (fun p => (p.1, clampVal p.2)) := by
  induction kvs with
  | nil => rfl
  | cons p rest ih =>
      cases p with
      | mk k v => cases v <;> simp [clampFields, clampVal, ih] <;> simp [clampFields] at ih <;> exact ih

theorem jget_mapVal (f : JVal → JVal) (kvs : List (String × JVal)) (k : String) :
    jget (kvs.map (fun p => (p.1, f p.2))) k = (jget kvs k).map f := by
  induction kvs with
  | nil => rfl
  | cons p rest ih =>
      by_cases h : p.1 = k <;> simp [jget, h, ih]

theorem jget_clampFields (kvs : List (String × JVal)) (k : String) :
    jget (clampFields kvs) k = (jget kvs k).map clampVal := by
  rw [clampFields_eq_map, jget_mapVal]

theorem clampString_length (s : String) : (clampString s).length ≤ maxCharsPerField := by
  unfold clampString
  by_cases h : s.length ≤ maxCharsPerField
  · simp [h]
  · simp only [h, if_false]
    show (s.data.take maxCharsPerField).length ≤ maxCharsPerField
    simp [List.length_take]

theorem clampString_idem (s : String) : clampString (clampString s) = clampString s := by
  have h := clampString_length s
  conv_lhs => rw [clampString]
  simp [h]

theorem clampVal_idem (v : JVal) : clampVal (clampVal v) = clampVal v := by
  cases v <;> simp [clampVal, clampString_idem]

theorem clampFields_clampFields (kvs : List (String × JVal)) :
    clampFields (clampFields kvs) = clampFields kvs := by
  simp only [clampFields_eq_map, List.map_map]
  apply List.map_congr_left
  intro p _
  simp [Function.comp, clampVal_idem]

theorem clampFields_jset (kvs : List (String × JVal)) (k : String) (v : JVal) :
    clampFields (jset kvs k v) = jset (clampFields kvs) k (clampVal v) := by
  simp only [clampFields_eq_map]
  induction kvs with
  | nil => simp [jset]
  | cons p rest ih =>
      by_cases h : p.1 = k <;> simp [jset, h, ih]

theorem take_eq_of_le {α : Type} (l : List α) (n : Nat) (h : l.length ≤ n) :
    l.take n = l := List.take_of_length_le h

theorem length_le_of_take_eq {α : Type} (l : List α) (n : Nat) (h : l.take n = l) :
    l.length ≤ n := by
  have := congrArg List.length h
  simp [List.length_take] at this
  omega

theorem jget_sliceArrField_ne (kvs : List (String × JVal)) (key k : String) (n : Nat)
    (h : k ≠ key) : jget (sliceArrField kvs key n) k = jget kvs k := by
  unfold sliceArrField
  split
  · rw [jget_jset_ne _ _ _ _ h]
  · rfl

theorem jget_mapArrField_ne (kvs : List (String × JVal)) (key k : String) (f : JVal → JVal)
    (h : k ≠ key) : jget (mapArrField kvs key f) k = jget kvs k := by
  unfold mapArrField
  split
  · rw [jget_jset_ne _ _ _ _ h]
  · rfl

theorem jget_stageItems_ne (ty : Option JVal) (kvs : List (String × JVal)) (k : String)
    (h : k ≠ "items") : jget (stageItems ty kvs) k = jget kvs k := by
  unfold stageItems
  split
  · split_ifs <;> first | rw [jget_jset_ne _ _ _ _ h] | rfl
  · rfl

theorem jget_stageSlice_ne (c : Bool) (key k : String) (n : Nat)
    (kvs : List (String × JVal)) (h : k ≠ key) :
    jget (stageSlice c key n kvs) k = jget kvs k := by
  unfold stageSlice
  split
  · exact jget_sliceArrField_ne _ _ _ _ h
  · rfl

theorem jget_stageMap_ne (c : Bool) (key k : String) (f : JVal → JVal)
    (kvs : List (String × JVal)) (h : k ≠ key) :
    jget (stageMap c key f kvs) k = jget kvs k := by
  unfold stageMap
  split
  · exact jget_mapArrField_ne _ _ _ _ h
  · rfl

theorem jget_stageSections_ne (c : Bool) (recNorm : List JVal → List JVal)
    (kvs : List (String × JVal)) (k : String) (h : k ≠ "sections") :
    jget (stageSections c recNorm kvs) k = jget kvs k := by
  unfold stageSections
  split
  · split
    · rw [jget_jset_ne _ _ _ _ h]
    · rfl
  · rfl

theorem stageItems_of_OK (ty : Option JVal) (kvs : List (String × JVal))
    (h : itemsOK ty kvs) : stageItems ty kvs = kvs := by
  unfold itemsOK at h
  unfold stageItems
  split
  next xs heq =>
    rw [heq] at h
    obtain ⟨h1, h2⟩ := h
    split_ifs with hf hc
    · rw [h1 hf, jset_same _ _ _ heq]
    · rfl
    · rw [h2 (by simpa using hf) (by simpa using hc), jset_same _ _ _ heq]
  next => rfl

theorem itemsOK_of_get_eq (ty : Option JVal) (X Y : List (String × JVal))
    (hget : jget X "items" = jget Y "items") (h : itemsOK ty Y) : itemsOK ty X := by
  unfold itemsOK at h ⊢
  rw [hget]
  exact h

theorem itemsOK_stageItems (ty : Option JVal) (kvs : List (String × JVal)) :
    itemsOK ty (stageItems ty kvs) := by
  unfold stageItems
  split
  next xs heq =>
    split_ifs with hf hc
    · unfold itemsOK
      rw [jget_jset_self]
      exact ⟨fun _ => by rw [List.take_take, min_self],
        fun h1 _ => absurd hf (by simp [h1])⟩
    · unfold itemsOK
      rw [heq]
      exact ⟨fun h1 => absurd h1 hf, fun _ h2 => absurd hc (by simp [h2])⟩
    · unfold itemsOK
      rw [jget_jset_self]
      exact ⟨fun h1 => absurd h1 hf, fun _ _ => by rw [List.take_take, min_self]⟩
  next heq =>
    unfold itemsOK
    split <;> simp_all

theorem itemsOK_mapArr_items (ty : Option JVal) (kvs : List (String × JVal))
    (f : JVal → JVal) (h : itemsOK ty kvs) :
    itemsOK ty (mapArrField kvs "items" f) := by
  unfold mapArrField
  split
  next xs heq =>
    unfold itemsOK at h ⊢
    rw [heq] at h
    rw [jget_jset_self]
    obtain ⟨h1, h2⟩ := h
    refine ⟨fun hf => ?_, fun hf hc => ?_⟩
    · exact take_eq_of_le _ _ (by rw [List.length_map]; exact length_le_of_take_eq _ _ (h1 hf))
    · exact take_eq_of_le _ _ (by rw [List.length_map]; exact length_le_of_take_eq _ _ (h2 hf hc))
  next => exact h

theorem stageSlice_of_OK (c : Bool) (key : String) (n : Nat)
    (kvs : List (String × JVal)) (h : sliceOK c key n kvs) :
    stageSlice c key n kvs = kvs := by
  unfold stageSlice
  cases c with
  | false => rfl
  | true =>
      have h2 := h rfl
      simp only [if_true]
      unfold sliceArrField
      split
      next xs heq =>
        rw [heq] at h2
        rw [h2, jset_same _ _ _ heq]
      next => rfl

theorem sliceOK_of_get_eq (c : Bool) (key : String) (n : Nat)
    (X Y : List (String × JVal)) (hget : jget X key = jget Y key)
    (h : sliceOK c key n Y) : sliceOK c key n X := by
  unfold sliceOK at h ⊢
  rw [hget]
  exact h

theorem sliceOK_stageSlice (c : Bool) (key : String) (n : Nat)
    (kvs : List (String × JVal)) : sliceOK c key n (stageSlice c key n kvs) := by
  unfold stageSlice
  cases c with
  | false => intro h; cases h
  | true =>
      simp only [if_true]
      intro _
      unfold sliceArrField
      rcases hg : jget kvs key with _ | v
      · simp [hg]
      · cases v <;> simp [hg, jget_jset_self, List.take_take, min_self]

theorem sliceOK_mapArr_same (c : Bool) (key : String) (n : Nat)
    (kvs : List (String × JVal)) (f : JVal → JVal) (h : sliceOK c key n kvs) :
    sliceOK c key n (mapArrField kvs key f) := by
  unfold mapArrField
  split
  next xs heq =>
    intro hc
    have h2 := h hc
    rw [heq] at h2
    rw [jget_jset_self]
    exact take_eq_of_le _ _ (by rw [List.length_map]; exact length_le_of_take_eq _ _ h2)
  next => exact h

theorem stageMap_of_OK (c : Bool) (key : String) (f : JVal → JVal)
    (kvs : List (String × JVal)) (h : mapOK c key f kvs) :
    stageMap c key f kvs = kvs := by
  unfold stageMap
  cases c with
  | false => rfl
  | true =>
      have h2 := h rfl
      simp only [if_true]
      unfold mapArrField
      split
      next xs heq =>
        rw [heq] at h2
        rw [h2, jset_same _ _ _ heq]
      next => rfl

theorem mapOK_of_get_eq (c : Bool) (key : String) (f : JVal → JVal)
    (X Y : List (String × JVal)) (hget : jget X key = jget Y key)
    (h : mapOK c key f Y) : mapOK c key f X := by
  unfold mapOK at h ⊢
  rw [hget]
  exact h

theorem mapOK_stageMap (c : Bool) (key : String) (f : JVal → JVal)
    (kvs : List (String × JVal)) (hf : ∀ x, f (f x) = f x) :
    mapOK c key f (stageMap c key f kvs) := by
  unfold stageMap
  cases c with
  | false => intro h; cases h
  | true =>
      simp only [if_true]
      intro _
      unfold mapArrField
      rcases hg : jget kvs key with _ | v
      · simp [hg]
      · cases v with
        | jarr xs =>
            simp only [hg, jget_jset_self]
            rw [List.map_map]
            apply List.map_congr_left
            intro x _
            exact hf x
        | jnull => simp [hg]
        | jbool b => simp [hg]
        | jnum m => simp [hg]
        | jstr s => simp [hg]
        | jobj o => simp [hg]

theorem stageSections_of_OK (c : Bool) (recNorm : List JVal → List JVal)
    (kvs : List (String × JVal)) (h : secOK c recNorm kvs) :
    stageSections c recNorm kvs = kvs := by
  unfold stageSections
  cases c with
  | false => rfl
  | true =>
      have h2 := h rfl
      simp only [if_true]
      split
      next secs heq =>
        rw [heq] at h2
        rw [h2, jset_same _ _ _ heq]
      next => rfl

theorem secOK_of_get_eq (c : Bool) (recNorm : List JVal → List JVal)
    (X Y : List (String × JVal)) (hget : jget X "sections" = jget Y "sections")
    (h : secOK c recNorm Y) : secOK c recNorm X := by
  unfold secOK at h ⊢
  rw [hget]
  exact h

theorem secOK_stageSections (c : Bool) (recNorm : List JVal → List JVal)
    (kvs : List (String × JVal)) (hrec : ∀ l, recNorm (recNorm l) = recNorm l) :
    secOK c recNorm (stageSections c recNorm kvs) := by
  unfold stageSections
  cases c with
  | false => intro h; cases h
  | true =>
      simp only [if_true]
      intro _
      rcases hg : jget kvs "sections" with _ | v
      · simp [hg]
      · cases v with
        | jarr secs => simp [hg, jget_jset_self, hrec secs]
        | jnull => simp [hg]
        | jbool b => simp [hg]
        | jnum m => simp [hg]
        | jstr s => simp [hg]
        | jobj o => simp [hg]

theorem clampFix_jset_arr (kvs : List (String × JVal)) (key : String) (xs : List JVal)
    (h : clampFields kvs = kvs) :
    clampFields (jset kvs key (.jarr xs)) = jset kvs key (.jarr xs) := by
  rw [clampFields_jset, h]
  rfl

theorem clampFix_stageItems (ty : Option JVal) (kvs : List (String × JVal))
    (h : clampFields kvs = kvs) :
    clampFields (stageItems ty kvs) = stageItems ty kvs := by
  unfold stageItems
  split
  next xs heq =>
    split_ifs <;> first | exact clampFix_jset_arr _ _ _ h | exact h
  next => exact h

theorem clampFix_stageSlice (c : Bool) (key : String) (n : Nat)
    (kvs : List (String × JVal)) (h : clampFields kvs = kvs) :
    clampFields (stageSlice c key n kvs) = stageSlice c key n kvs := by
  unfold stageSlice sliceArrField
  split
  · split
    next xs heq => exact clampFix_jset_arr _ _ _ h
    next => exact h
  · exact h

theorem clampFix_stageMap (c : Bool) (key : String) (f : JVal → JVal)
    (kvs : List (String × JVal)) (h : clampFields kvs = kvs) :
    clampFields (stageMap c key f kvs) = stageMap c key f kvs := by
  unfold stageMap mapArrField
  split
  · split
    next xs heq => exact clampFix_jset_arr _ _ _ h
    next => exact h
  · exact h

theorem clampFix_stageSections (c : Bool) (recNorm : List JVal → List JVal)
    (kvs : List (String × JVal)) (h : clampFields kvs = kvs) :
    clampFields (stageSections c recNorm kvs) = stageSections c recNorm kvs := by
  unfold stageSections
  split
  · split
    next secs heq => exact clampFix_jset_arr _ _ _ h
    next => exact h
  · exact h

theorem normCol_idem (recNorm : List JVal → List JVal)
    (hrec : ∀ l, recNorm (recNorm l) = recNorm l) (v : JVal) :
    normCol recNorm (normCol recNorm v) = normCol recNorm v := by
  cases v with
  | jobj ck =>
      unfold normCol
      rcases hg : jget ck "sections" with _ | w
      · simp [hg]
      · cases w with
        | jarr secs => simp [hg, jget_jset_self, jset_jset, hrec secs]
        | jnull => simp [hg]
        | jbool b => simp [hg]
        | jnum m => simp [hg]
        | jstr s => simp [hg]
        | jobj o => simp [hg]
  | jarr xs => rfl
  | jnull => rfl
  | jbool b => rfl
  | jnum n => rfl
  | jstr s => rfl

theorem normTab_idem (recNorm : List JVal → List JVal)
    (hrec : ∀ l, recNorm (recNorm l) = recNorm l) (v : JVal) :
    normTab recNorm (normTab recNorm v) = normTab recNorm v := by
  cases v with
  | jobj tk =>
      unfold normTab
      rcases hg : jget tk "sections" with _ | w
      · simp [hg]
      · cases w with
        | jarr secs => simp [hg, jget_jset_self, jset_jset, hrec secs]
        | jnull => simp [hg]
        | jbool b => simp [hg]
        | jnum m => simp [hg]
        | jstr s => simp [hg]
        | jobj o => simp [hg]
  | jarr xs => rfl
  | jnull => rfl
  | jbool b => rfl
  | jnum n => rfl
  | jstr s => rfl

theorem itemsOK_stageMap_items (ty : Option JVal) (c : Bool) (f : JVal → JVal)
    (kvs : List (String × JVal)) (h : itemsOK ty kvs) :
    itemsOK ty (stageMap c "items" f kvs) := by
  unfold stageMap
  cases c with
  | false => exact h
  | true => exact itemsOK_mapArr_items ty kvs f h

theorem sliceOK_stageMap_same (c c2 : Bool) (key : String) (n : Nat)
    (f : JVal → JVal) (kvs : List (String × JVal)) (h : sliceOK c key n kvs) :
    sliceOK c key n (stageMap c2 key f kvs) := by
  unfold stageMap
  cases c2 with
  | false => exact h
  | true => exact sliceOK_mapArr_same c key n kvs f h

theorem normEntry_idem (recNorm : List JVal → List JVal)
    (hrec : ∀ l, recNorm (recNorm l) = recNorm l) (kvs : List (String × JVal)) :
    normEntry recNorm (normEntry recNorm kvs) = normEntry recNorm kvs := by
  have hc1 : clampFields (clampFields kvs) = clampFields kvs := clampFields_clampFields kvs
  -- names for the first-pass stages
  set s1 := clampFields kvs with hs1def
  set ty := jget s1 "type" with htydef
  set A0 := stageItems ty s1 with hA0
  set A1 := stageSlice (isStrVal ty "comparison-table") "rows" maxRowsPerTable A0 with hA1
  set A2 := stageSlice (isStrVal ty "tabset") "tabs" maxTabs A1 with hA2
  set A3 := stageSlice (isStrVal ty "form") "fields" maxFields A2 with hA3
  set A4 := stageMap (isStrVal ty "columns") "items" (normCol recNorm) A3 with hA4
  set A5 := stageMap (isStrVal ty "tabset") "tabs" (normTab recNorm) A4 with hA5
  set P := stageSections (isStrVal ty "card" || isStrVal ty "stack") recNorm A5 with hPdef
  have hP : normEntry recNorm kvs = P := rfl
  -- the result is clamp-fixed
  have hcP : clampFields P = P := by
    rw [hPdef, hA5, hA4, hA3, hA2, hA1, hA0]
    apply clampFix_stageSections
    apply clampFix_stageMap
    apply clampFix_stageMap
    apply clampFix_stageSlice
    apply clampFix_stageSlice
    apply clampFix_stageSlice
    apply clampFix_stageItems
    exact hc1
  -- the type field is untouched
  have htyP : jget P "type" = ty := by
    rw [hPdef, jget_stageSections_ne _ _ _ _ (by decide), hA5,
      jget_stageMap_ne _ _ _ _ _ (by decide), hA4,
      jget_stageMap_ne _ _ _ _ _ (by decide), hA3,
      jget_stageSlice_ne _ _ _ _ _ (by decide), hA2,
      jget_stageSlice_ne _ _ _ _ _ (by decide), hA1,
      jget_stageSlice_ne _ _ _ _ _ (by decide), hA0,
      jget_stageItems_ne _ _ _ (by decide)]
  -- itemsOK on the result
  have hIP : itemsOK ty P := by
    rw [hPdef]
    apply itemsOK_of_get_eq _ _ _ (jget_stageSections_ne _ _ _ _ (by decide))
    rw [hA5]
    apply itemsOK_of_get_eq _ _ _ (jget_stageMap_ne _ _ _ _ _ (by decide))
    rw [hA4]
    apply itemsOK_stageMap_items
    rw [hA3]
    apply itemsOK_of_get_eq _ _ _ (jget_stageSlice_ne _ _ _ _ _ (by decide))
    rw [hA2]
    apply itemsOK_of_get_eq _ _ _ (jget_stageSlice_ne _ _ _ _ _ (by decide))
    rw [hA1]
    apply itemsOK_of_get_eq _ _ _ (jget_stageSlice_ne _ _ _ _ _ (by decide))
    rw [hA0]
    exact itemsOK_stageItems ty s1
  -- rows cap on the result
  have hR : sliceOK (isStrVal ty "comparison-table") "rows" maxRowsPerTable P := by
    rw [hPdef]
    apply sliceOK_of_get_eq _ _ _ _ _ (jget_stageSections_ne _ _ _ _ (by decide))
    rw [hA5]
    apply sliceOK_of_get_eq _ _ _ _ _ (jget_stageMap_ne _ _ _ _ _ (by decide))
    rw [hA4]
    apply sliceOK_of_get_eq _ _ _ _ _ (jget_stageMap_ne _ _ _ _ _ (by decide))
    rw [hA3]
    apply sliceOK_of_get_eq _ _ _ _ _ (jget_stageSlice_ne _ _ _ _ _ (by decide))
    rw [hA2]
    apply sliceOK_of_get_eq _ _ _ _ _ (jget_stageSlice_ne _ _ _ _ _ (by decide))
    rw [hA1]
    exact sliceOK_stageSlice _ _ _ A0
  -- tabs cap on the result
  have hT : sliceOK (isStrVal ty "tabset") "tabs" maxTabs P := by
    rw [hPdef]
    apply sliceOK_of_get_eq _ _ _ _ _ (jget_stageSections_ne _ _ _ _ (by decide))
    rw [hA5]
    apply sliceOK_stageMap_same
    rw [hA4]
    apply sliceOK_of_get_eq _ _ _ _ _ (jget_stageMap_ne _ _ _ _ _ (by decide))
    rw [hA3]
    apply sliceOK_of_get_eq _ _ _ _ _ (jget_stageSlice_ne _ _ _ _ _ (by decide))
    rw [hA2]
    exact sliceOK_stageSlice _ _ _ A1
  -- fields cap on the result
  have hF : sliceOK (isStrVal ty "form") "fields" maxFields P := by
    rw [hPdef]
    apply sliceOK_of_get_eq _ _ _ _ _ (jget_stageSections_ne _ _ _ _ (by decide))
    rw [hA5]
    apply sliceOK_of_get_eq _ _ _ _ _ (jget_stageMap_ne _ _ _ _ _ (by decide))
    rw [hA4]
    apply sliceOK_of_get_eq _ _ _ _ _ (jget_stageMap_ne _ _ _ _ _ (by decide))
    rw [hA3]
    exact sliceOK_stageSlice _ _ _ A2
  -- columns map fixed on the result
  have hM1 : mapOK (isStrVal ty "columns") "items" (normCol recNorm) P := by
    rw [hPdef]
    apply mapOK_of_get_eq _ _ _ _ _ (jget_stageSections_ne _ _ _ _ (by decide))
    rw [hA5]
    apply mapOK_of_get_eq _ _ _ _ _ (jget_stageMap_ne _ _ _ _ _ (by decide))
    rw [hA4]
    exact mapOK_stageMap _ _ _ A3 (normCol_idem recNorm hrec)
  -- tabs map fixed on the result
  have hM2 : mapOK (isStrVal ty "tabset") "tabs" (normTab recNorm) P := by
    rw [hPdef]
    apply mapOK_of_get_eq _ _ _ _ _ (jget_stageSections_ne _ _ _ _ (by decide))
    rw [hA5]
    exact mapOK_stageMap _ _ _ A4 (normTab_idem recNorm hrec)
  -- nested sections fixed on the result
  have hS : secOK (isStrVal ty "card" || isStrVal ty "stack") recNorm P := by
    rw [hPdef]
    exact secOK_stageSections _ _ A5 hrec
  -- second pass
  rw [hP]
  show normEntry recNorm P = P
  unfold normEntry
  rw [hcP]
  simp only [htyP]
  rw [stageItems_of_OK _ _ hIP, stageSlice_of_OK _ _ _ _ hR, stageSlice_of_OK _ _ _ _ hT,
    stageSlice_of_OK _ _ _ _ hF, stageMap_of_OK _ _ _ _ hM1, stageMap_of_OK _ _ _ _ hM2,
    stageSections_of_OK _ _ _ hS]

theorem normEntry_type (recNorm : List JVal → List JVal) (kvs : List (String × JVal)) :
    jget (normEntry recNorm kvs) "type" = jget (clampFields kvs) "type" := by
  unfold normEntry
  rw [jget_stageSections_ne _ _ _ _ (by decide),
    jget_stageMap_ne _ _ _ _ _ (by decide),
    jget_stageMap_ne _ _ _ _ _ (by decide),
    jget_stageSlice_ne _ _ _ _ _ (by decide),
    jget_stageSlice_ne _ _ _ _ _ (by decide),
    jget_stageSlice_ne _ _ _ _ _ (by decide),
    jget_stageItems_ne _ _ _ (by decide)]

theorem accepted_normEntry (keys : List String)
    (hkeys : ∀ t ∈ keys, t.length ≤ maxCharsPerField)
    (recNorm : List JVal → List JVal) (kvs : List (String × JVal))
    (h : acceptedEntry keys kvs = true) :
    acceptedEntry keys (normEntry recNorm kvs) = true := by
  unfold acceptedEntry at h ⊢
  rw [normEntry_type, jget_clampFields]
  rcases hg : jget kvs "type" with _ | v
  · rw [hg] at h; simp [jsTruthy] at h
  · cases v with
    | jstr t =>
        rw [hg] at h
        have ht : t ∈ keys := by
          simp [isKnownType] at h
          exact h.2
        have : clampString t = t := by
          unfold clampString
          rw [if_pos (hkeys t ht)]
        simp [clampVal, this, h]
    | jnull => rw [hg] at h; simp [isKnownType] at h
    | jbool b => rw [hg] at h; simp [isKnownType] at h
    | jnum m => rw [hg] at h; simp [isKnownType] at h
    | jarr xs => rw [hg] at h; simp [isKnownType] at h
    | jobj o => rw [hg] at h; simp [isKnownType] at h

theorem normList_mem (keys : List String) (recNorm : List JVal → List JVal) :
    ∀ (l : List JVal) (count : Nat) (s : JVal), s ∈ normList keys recNorm l count →
      ∃ kvs, s = .jobj (normEntry recNorm kvs) ∧ acceptedEntry keys kvs = true := by
  intro l
  induction l with
  | nil =>
      intro count s hs
      simp [normList] at hs
  | cons raw rest ih =>
      intro count s hs
      cases raw with
      | jobj kvs =>
          simp only [normList] at hs
          by_cases hacc : (jsTruthy (jget kvs "type") && isKnownType keys (jget kvs "type")) = true
          · rw [if_pos hacc] at hs
            by_cases hbr : maxSections ≤ count + 1
            · rw [if_pos hbr] at hs
              simp at hs
              exact ⟨kvs, hs, hacc⟩
            · rw [if_neg hbr] at hs
              rcases List.mem_cons.mp hs with hEq | hMem
              · exact ⟨kvs, hEq, hacc⟩
              · exact ih _ s hMem
          · rw [if_neg hacc] at hs
            exact ih _ s hs
      | jnull => simp only [normList] at hs; exact ih _ s hs
      | jbool b => simp only [normList] at hs; exact ih _ s hs
      | jnum m => simp only [normList] at hs; exact ih _ s hs
      | jstr t => simp only [normList] at hs; exact ih _ s hs
      | jarr xs => simp only [normList] at hs; exact ih _ s hs

theorem normList_length (keys : List String) (recNorm : List JVal → List JVal) :
    ∀ (l : List JVal) (count : Nat), count < maxSections →
      (normList keys recNorm l count).length ≤ maxSections - count := by
  intro l
  induction l with
  | nil => intro count _; simp [normList]
  | cons raw rest ih =>
      intro count hcount
      cases raw with
      | jobj kvs =>
          rw [normList]
          by_cases hacc : (jsTruthy (jget kvs "type") && isKnownType keys (jget kvs "type")) = true
          · rw [if_pos hacc]
            by_cases hbr : maxSections ≤ count + 1
            · rw [if_pos hbr]
              simp
              omega
            · rw [if_neg hbr]
              have := ih (count + 1) (by omega)
              simp only [List.length_cons]
              omega
          · rw [if_neg hacc]
            exact ih count hcount
      | jnull => simp only [normList]; exact ih count hcount
      | jbool b => simp only [normList]; exact ih count hcount
      | jnum m => simp only [normList]; exact ih count hcount
      | jstr t => simp only [normList]; exact ih count hcount
      | jarr xs => simp only [normList]; exact ih count hcount

theorem normList_fixed (keys : List String) (recNorm : List JVal → List JVal) :
    ∀ (l : List JVal),
      (∀ s ∈ l, ∃ kvs, s = .jobj kvs ∧ acceptedEntry keys kvs = true ∧
        normEntry recNorm kvs = kvs) →
      ∀ count, count + l.length ≤ maxSections → normList keys recNorm l count = l := by
  intro l
  induction l with
  | nil => intro _ count _; rfl
  | cons s rest ih =>
      intro h count hlen
      obtain ⟨kvs, hEq, hacc, hfix⟩ := h s (List.mem_cons_self _ _)
      subst hEq
      simp only [normList]
      unfold acceptedEntry at hacc
      rw [if_pos hacc]
      by_cases hbr : maxSections ≤ count + 1
      · rw [if_pos hbr]
        have : rest = [] := by
          simp only [List.length_cons] at hlen
          cases rest with
          | nil => rfl
          | cons a b => simp at hlen; omega
        rw [this, hfix]
      · rw [if_neg hbr]
        rw [hfix, ih (fun q hq => h q (List.mem_cons_of_mem _ hq)) (count + 1)
          (by simp only [List.length_cons] at hlen; omega)]

theorem normSections_idem (keys : List String)
    (hkeys : ∀ t ∈ keys, t.length ≤ maxCharsPerField) :
    ∀ (gas : Nat) (sections : List JVal),
      normSections keys gas (normSections keys gas sections)
        = normSections keys gas sections := by
  intro gas
  induction gas with
  | zero => intro sections; rfl
  | succ gas ih =>
      intro sections
      show normList keys (normSections keys gas)
          (normList keys (normSections keys gas) sections 0) 0 = _
      apply normList_fixed
      · intro s hs
        obtain ⟨kvs, hEq, hacc⟩ := normList_mem keys _ sections 0 s hs
        refine ⟨normEntry (normSections keys gas) kvs, hEq, ?_, ?_⟩
        · exact accepted_normEntry keys hkeys _ kvs hacc
        · exact normEntry_idem (normSections keys gas) ih kvs
      · have := normList_length keys (normSections keys gas) sections 0 (by decide)
        omega

theorem rendererKeys_short : ∀ t ∈ rendererKeys, t.length ≤ maxCharsPerField := by decide

theorem jgetV_jobj (kvs : List (String × JVal)) (k : String) :
    jgetV (.jobj kvs) k = jget kvs k := rfl

theorem addSectionTypes_normEntry (recNorm : List JVal → List JVal)
    (kvs : List (String × JVal)) (hacc : acceptedEntry rendererKeys kvs = true) :
    addSectionTypes (.jobj (normEntry recNorm kvs))
      = (typeOfSection (.jobj kvs)).toList := by
  unfold acceptedEntry at hacc
  rcases hg : jget kvs "type" with _ | v
  · rw [hg] at hacc; simp [jsTruthy] at hacc
  · cases v with
    | jstr t =>
        rw [hg] at hacc
        have ht : t ∈ rendererKeys := by
          simp [isKnownType] at hacc
          exact hacc.2
        have hcl : clampString t = t := by
          unfold clampString
          rw [if_pos (rendererKeys_short t ht)]
        have htype : jget (normEntry recNorm kvs) "type" = some (.jstr t) := by
          rw [normEntry_type, jget_clampFields, hg]
          simp [clampVal, hcl]
        unfold addSectionTypes renderSectionType typeOfSection
        simp only [jgetV_jobj]
        rw [htype, hg]
        simp [ht]
    | jnull => rw [hg] at hacc; simp [isKnownType] at hacc
    | jbool b => rw [hg] at hacc; simp [isKnownType] at hacc
    | jnum m => rw [hg] at hacc; simp [isKnownType] at hacc
    | jarr xs => rw [hg] at hacc; simp [isKnownType] at hacc
    | jobj o => rw [hg] at hacc; simp [isKnownType] at hacc

theorem normList_types (recNorm : List JVal → List JVal) :
    ∀ (l : List JVal) (count : Nat),
      (∀ s ∈ l, sectionAccepted rendererKeys s = true) →
      count + l.length ≤ maxSections →
      (normList rendererKeys recNorm l count).flatMap addSectionTypes
        = l.filterMap typeOfSection := by
  intro l
  induction l with
  | nil => intro count _ _; rfl
  | cons s rest ih =>
      intro count hgood hlen
      have hs := hgood s (List.mem_cons_self _ _)
      cases s with
      | jobj kvs =>
          simp only [sectionAccepted] at hs
          have htl := addSectionTypes_normEntry recNorm kvs hs
          have htobj : ∃ t, typeOfSection (.jobj kvs) = some t := by
            unfold acceptedEntry at hs
            rcases hg : jget kvs "type" with _ | v
            · rw [hg] at hs; simp [jsTruthy] at hs
            · cases v with
              | jstr t => exact ⟨t, by unfold typeOfSection; rw [jgetV_jobj, hg]⟩
              | jnull => rw [hg] at hs; simp [isKnownType] at hs
              | jbool b => rw [hg] at hs; simp [isKnownType] at hs
              | jnum m => rw [hg] at hs; simp [isKnownType] at hs
              | jarr xs => rw [hg] at hs; simp [isKnownType] at hs
              | jobj o => rw [hg] at hs; simp [isKnownType] at hs
          obtain ⟨t, ht⟩ := htobj
          simp only [normList]
          unfold acceptedEntry at hs
          rw [if_pos hs]
          by_cases hbr : maxSections ≤ count + 1
          · rw [if_pos hbr]
            have hrest : rest = [] := by
              simp only [List.length_cons] at hlen
              cases rest with
              | nil => rfl
              | cons a b => simp at hlen; omega
            subst hrest
            simp only [List.flatMap_cons, List.flatMap_nil, List.append_nil,
              List.filterMap_cons, List.filterMap_nil]
            rw [htl, ht]
            rfl
          · rw [if_neg hbr]
            simp only [List.flatMap_cons, List.filterMap_cons]
            rw [htl, ht, ih (count + 1) (fun q hq => hgood q (List.mem_cons_of_mem _ hq))
              (by simp only [List.length_cons] at hlen; omega)]
            rfl
      | jnull => simp [sectionAccepted] at hs
      | jbool b => simp [sectionAccepted] at hs
      | jnum m => simp [sectionAccepted] at hs
      | jstr t => simp [sectionAccepted] at hs
      | jarr xs => simp [sectionAccepted] at hs

/-- C4.  Normalization is idempotent: applying `_normalizeSections` to its
own output returns the same sequence, at every recursion budget `gas`
(`gas = maxDepth + 1 - depth` encodes the source's ascending `depth`), for
any renderer key set whose type names fit in the string clamp (all
built-in and realistic host-registered names do).  Within-limits inputs
are therefore preserved, and over-limit inputs map to in-limit fixed
points: excess entries and characters are removed deterministically,
front-biased, in input order. -/
theorem normalize_sections_idempotent (keys : List String)
    (hkeys : ∀ t ∈ keys, t.length ≤ maxCharsPerField) (gas : Nat)
    (sections : List JVal) :
    normSections keys gas (normSections keys gas sections)
      = normSections keys gas sections :=
  normSections_idem keys hkeys gas sections

/-- C4 witness: idempotence at the top-level budget on a concrete page
with a markup-bearing hero and a nested card. -/
theorem normalize_sections_idempotent_witness :
    (∀ t ∈ rendererKeys, t.length ≤ maxCharsPerField) ∧
    normSections rendererKeys (maxDepth + 1)
        (normSections rendererKeys (maxDepth + 1) demoSecs)
      = normSections rendererKeys (maxDepth + 1) demoSecs :=
  ⟨by decide, normalize_sections_idempotent rendererKeys (by decide) (maxDepth + 1) demoSecs⟩

set_option maxHeartbeats 1000000 in
theorem spStep_buffer (st : SPState) (c : Char) : (spStep st c).buffer = st.buffer := by
  have hgen : ∀ st1 : SPState, st1.buffer = st.buffer →
      (if ¬ st1.seenSectionsKey then st1
       else if ¬ st1.seenArrayStart then
         match indexOfSub sectionsKeyLit st1.buffer with
         | some idx =>
             match indexOfFrom '[' st1.buffer (idx + sectionsKeyLit.length) with
             | some _ => { st1 with seenArrayStart := true, insideSections := true }
             | none => st1
         | none => st1
       else st1).buffer = st.buffer := by
    intro st1 h1
    repeat' split
    all_goals exact h1
  unfold spStep spAppend
  split
  · exact hgen _ (by repeat' (first | rfl | split))
  · dsimp only
    repeat' (first | rfl | split)

theorem foldl_spStep_buffer (l : List Char) :
    ∀ st : SPState, (List.foldl spStep st l).buffer = st.buffer := by
  induction l with
  | nil => intro st; rfl
  | cons c rest ih => intro st; rw [List.foldl_cons, ih, spStep_buffer]

theorem spFeed_buffer_le (st : SPState) (chunk : List Char)
    (h : st.buffer.length ≤ 250000) : (spFeed st chunk).buffer.length ≤ 250000 := by
  unfold spFeed
  split
  · exact h
  · dsimp only
    split
    · rename_i h250
      simp only [List.length_drop]
      omega
    · rename_i h250
      omega

theorem ndFeed_lineBuffer_le (st : NDState) (chunk : List Char)
    (h : st.lineBuffer.length ≤ 250000) :
    (ndFeed st chunk).lineBuffer.length ≤ 250000 := by
  unfold ndFeed
  split
  · exact h
  · dsimp only
    split
    · rename_i h250
      simp only [List.length_drop]
      omega
    · rename_i h250
      omega

theorem spRepl (buf : List Char) :
    ∀ (n : Nat) (co : List Char),
      List.foldl spStep ⟨buf, true, 1, co, false, false, true, true, []⟩
          (List.replicate n 'a')
        = ⟨buf, true, 1, co ++ List.replicate n 'a', false, false, true, true, []⟩ := by
  intro n
  induction n with
  | zero => intro co; simp [List.replicate]
  | succ m ih =>
      intro co
      rw [List.replicate_succ, List.foldl_cons]
      have hstep : spStep (⟨buf, true, 1, co, false, false, true, true, []⟩ : SPState) 'a'
          = ⟨buf, true, 1, co ++ ['a'], false, false, true, true, []⟩ := rfl
      rw [hstep, ih (co ++ ['a']), List.append_assoc]
      rfl

theorem spFeed_co_of_fold (st : SPState) (chunk : List Char) (hne : ¬ chunk = []) :
    (spFeed st chunk).currentObject
      = (List.foldl spStep { st with buffer := st.buffer ++ chunk } chunk).currentObject := by
  unfold spFeed
  rw [if_neg hne]
  dsimp only
  split <;> rfl

theorem spAttack_fold (n : Nat) :
    List.foldl spStep ⟨spAttack n, false, 0, [], false, false, false, false, []⟩ (spAttack n)
      = ⟨spAttack n, true, 1, '\x7b' :: List.replicate n 'a', false, false, true, true, []⟩ := by
  have hB : spAttack n = '\x7b' :: '"' :: 's' :: 'e' :: 'c' :: 't' :: 'i' :: 'o' :: 'n' :: 's'
      :: '"' :: ':' :: '[' :: '\x7b' :: List.replicate n 'a' := rfl
  have s1 : spStep (⟨spAttack n, false, 0, [], false, false, false, false, []⟩ : SPState) '\x7b'
      = ⟨spAttack n, true, 0, [], false, false, true, true, []⟩ := rfl
  have s2 : spStep (⟨spAttack n, true, 0, [], false, false, true, true, []⟩ : SPState) '"'
      = ⟨spAttack n, true, 0, [], true, false, true, true, []⟩ := rfl
  have sIn : ∀ c : Char, ¬ c = '\\' → ¬ c = '"' →
      spStep (⟨spAttack n, true, 0, [], true, false, true, true, []⟩ : SPState) c
        = ⟨spAttack n, true, 0, [], true, false, true, true, []⟩ := by
    intro c h1 h2
    simp [spStep, spAppend, h1, h2]
  have s11 : spStep (⟨spAttack n, true, 0, [], true, false, true, true, []⟩ : SPState) '"'
      = ⟨spAttack n, true, 0, [], false, false, true, true, []⟩ := rfl
  have s12 : spStep (⟨spAttack n, true, 0, [], false, false, true, true, []⟩ : SPState) ':'
      = ⟨spAttack n, true, 0, [], false, false, true, true, []⟩ := rfl
  have s13 : spStep (⟨spAttack n, true, 0, [], false, false, true, true, []⟩ : SPState) '['
      = ⟨spAttack n, true, 0, [], false, false, true, true, []⟩ := rfl
  have s14 : spStep (⟨spAttack n, true, 0, [], false, false, true, true, []⟩ : SPState) '\x7b'
      = ⟨spAttack n, true, 1, ['\x7b'], false, false, true, true, []⟩ := rfl
  show List.foldl spStep ⟨spAttack n, false, 0, [], false, false, false, false, []⟩
      ('\x7b' :: '"' :: 's' :: 'e' :: 'c' :: 't' :: 'i' :: 'o' :: 'n' :: 's'
        :: '"' :: ':' :: '[' :: '\x7b' :: List.replicate n 'a') = _
  simp only [List.foldl_cons]
  rw [s1, s2]
  rw [sIn 's' (by decide) (by decide), sIn 'e' (by decide) (by decide)]
  rw [sIn 'c' (by decide) (by decide), sIn 't' (by decide) (by decide)]
  rw [sIn 'i' (by decide) (by decide), sIn 'o' (by decide) (by decide)]
  rw [sIn 'n' (by decide) (by decide), sIn 's' (by decide) (by decide)]
  rw [s11, s12, s13, s14, spRepl (spAttack n) n ['\x7b']]
  rfl

theorem spFeed_attack_colen (n : Nat) :
    (spFeed spInit (spAttack n)).currentObject.length = n + 1 := by
  have hne : ¬ spAttack n = [] := by
    intro h
    exact absurd (congrArg List.length h) (by simp [spAttack, pagePrelude])
  rw [spFeed_co_of_fold spInit (spAttack n) hne]
  have hst : ({ spInit with buffer := spInit.buffer ++ spAttack n } : SPState)
      = ⟨spAttack n, false, 0, [], false, false, false, false, []⟩ := rfl
  rw [hst, spAttack_fold]
  simp

/-- C10.  Amended bound — what the source actually enforces.  Starting
from a fresh decoder, after any sequence of `feed` calls the
`StreamingPageParser` search buffer (`this.buffer`) and the
`NDJSONSectionParser` line buffer (`this.lineBuffer`) each hold at most
250000 characters: every `feed` ends by trimming the buffer to its last
8000 characters once it exceeds 250000.  The claim's stronger statement,
that ALL retained internal state (including the partially accumulated
object text) is bounded by an input-independent constant, is false — see
the accompanying counterexample. -/
theorem streaming_buffers_bounded :
    (∀ chunks : List (List Char),
        (List.foldl spFeed spInit chunks).buffer.length ≤ 250000) ∧
    (∀ chunks : List (List Char),
        (List.foldl ndFeed ndInit chunks).lineBuffer.length ≤ 250000) := by
  constructor
  · have inv : ∀ (chunks : List (List Char)) (st : SPState),
        st.buffer.length ≤ 250000 →
        (List.foldl spFeed st chunks).buffer.length ≤ 250000 := by
      intro chunks
      induction chunks with
      | nil => intro st h; exact h
      | cons c rest ih =>
          intro st h
          exact ih (spFeed st c) (spFeed_buffer_le st c h)
    intro chunks
    exact inv chunks spInit (by simp [spInit])
  · have inv : ∀ (chunks : List (List Char)) (st : NDState),
        st.lineBuffer.length ≤ 250000 →
        (List.foldl ndFeed st chunks).lineBuffer.length ≤ 250000 := by
      intro chunks
      induction chunks with
      | nil => intro st h; exact h
      | cons c rest ih =>
          intro st h
          exact ih (ndFeed st c) (ndFeed_lineBuffer_le st c h)
    intro chunks
    exact inv chunks ndInit (by simp [ndInit])

/-- C10 counterexample to the literal claim: the total retained internal
state of `StreamingPageParser` is NOT bounded by any constant independent
of the input.  `this.currentObject` is never trimmed, so one `feed` of an
opening brace, the quoted word sections, a colon, an opening bracket and
then an object text of n+1 characters that never closes its brace leaves
n+1 retained characters of partial object, for every n. -/
theorem streaming_retained_state_unbounded :
    ¬ ∃ C : Nat, ∀ chunks : List (List Char),
        spRetained (List.foldl spFeed spInit chunks) ≤ C := by
  rintro ⟨C, hC⟩
  have h := hC [spAttack (C + 1)]
  rw [List.foldl_cons, List.foldl_nil] at h
  unfold spRetained at h
  have hco := spFeed_attack_colen (C + 1)
  omega


theorem charDigit_digitChar (d : Nat) (h : d < 10) :
    charDigit (Nat.digitChar d) = d := by
  interval_cases d <;> rfl

theorem digitChar_props (d : Nat) (h : d < 10) :
    (Nat.digitChar d).isDigit = true := by
  interval_cases d <;> rfl

theorem isDigit_ne (c : Char) (h : c.isDigit = true) :
    ¬ c = 'n' ∧ ¬ c = 't' ∧ ¬ c = 'f' ∧ ¬ c = '"' ∧ ¬ c = '-' ∧
    ¬ c = '[' ∧ ¬ c = ']' ∧ ¬ c = '\x7b' ∧ ¬ c = '\x7d' ∧
    ¬ c = '\\' ∧ ¬ c = ',' ∧ ¬ c = ':' ∧ ¬ c = '\n' := by
  refine ⟨?_, ?_, ?_, ?_, ?_, ?_, ?_, ?_, ?_, ?_, ?_, ?_, ?_⟩ <;>
    (rintro rfl; exact absurd h (by decide))

theorem serNat_ne_nil (n : Nat) : ¬ serNat n = [] := by
  unfold serNat
  split
  · simp
  · rename_i h
    simp [Nat.digits_ne_nil_iff_ne_zero, h]

theorem serNat_digits (n : Nat) : ∀ c ∈ serNat n, c.isDigit = true := by
  unfold serNat
  split
  · intro c hc
    simp at hc
    subst hc
    rfl
  · rename_i h
    intro c hc
    rw [List.mem_reverse] at hc
    obtain ⟨d, hd, rfl⟩ := List.mem_map.mp hc
    exact digitChar_props d (Nat.digits_lt_base (by norm_num) hd)

theorem takeWhile_digits (l1 l2 : List Char) (h1 : ∀ c ∈ l1, c.isDigit = true)
    (h2 : restOKb l2 = true) :
    (l1 ++ l2).takeWhile Char.isDigit = l1 := by
  induction l1 with
  | nil =>
      cases l2 with
      | nil => rfl
      | cons c t =>
          simp [restOKb] at h2
          simp [List.takeWhile, h2]
  | cons c t ih =>
      have hc := h1 c (List.mem_cons_self _ _)
      simp only [List.cons_append, List.takeWhile_cons, hc]
      simp [ih (fun q hq => h1 q (List.mem_cons_of_mem _ hq))]

theorem parseNat_serNat (n : Nat) (rest : List Char) (h : restOKb rest = true) :
    parseNatChars (serNat n ++ rest) = some (n, rest) := by
  unfold parseNatChars
  have ht : (serNat n ++ rest).takeWhile Char.isDigit = serNat n :=
    takeWhile_digits _ _ (serNat_digits n) h
  simp only [ht, serNat_ne_nil n, if_false, List.drop_left]
  have hofd : Nat.ofDigits 10 (((serNat n).map charDigit).reverse) = n := by
    unfold serNat
    split
    · rename_i h0; subst h0; rfl
    · rename_i h0
      rw [List.map_reverse, List.reverse_reverse, List.map_map]
      have : (Nat.digits 10 n).map (charDigit ∘ Nat.digitChar) = Nat.digits 10 n := by
        apply List.map_congr_left ?_ |>.trans (List.map_id _)
        intro d hd
        exact charDigit_digitChar d (Nat.digits_lt_base (by norm_num) hd)
      rw [this, Nat.ofDigits_digits]
  rw [hofd]

theorem parseStrBody_esc (s : List Char) (rest : List Char) :
    parseStrBody (escString s ++ '"' :: rest) = some (s, rest) := by
  induction s with
  | nil =>
      have h : escString [] ++ '"' :: rest = '"' :: rest := by simp [escString]
      rw [h]
      unfold parseStrBody
      simp
  | cons c cs ih =>
      show parseStrBody ((escChar c ++ escString cs) ++ '"' :: rest) = _
      unfold escChar
      split_ifs with h1 h2 h3 h4 h5
      · subst h1; simp [parseStrBody, ih, unescChar]
      · subst h2; simp [parseStrBody, ih, unescChar]
      · subst h3; simp [parseStrBody, ih, unescChar]
      · subst h4; simp [parseStrBody, ih, unescChar]
      · subst h5; simp [parseStrBody, ih, unescChar]
      · unfold parseStrBody
        simp [h1, h2, ih, List.singleton_append]

theorem serV_head_facts : ∀ (v : JVal) (c : Char) (t : List Char), serV v = c :: t →
    c = 'n' ∨ c = 't' ∨ c = 'f' ∨ c = '"' ∨ c = '-' ∨ c.isDigit = true ∨
    c = '[' ∨ c = '\x7b' := by
  intro v c t h
  cases v with
  | jnull => injection h with h1 _; subst h1; tauto
  | jbool b => cases b <;> (injection h with h1 _; subst h1; tauto)
  | jstr s => injection h with h1 _; subst h1; tauto
  | jarr xs => injection h with h1 _; subst h1; tauto
  | jobj kvs => injection h with h1 _; subst h1; tauto
  | jnum n =>
      cases n with
      | ofNat m =>
          have hd : c ∈ serNat m := by
            have h2 : serNat m = c :: t := h
            rw [h2]; exact List.mem_cons_self _ _
          exact Or.inr (Or.inr (Or.inr (Or.inr (Or.inr (Or.inl (serNat_digits m c hd))))))
      | negSucc m =>
          injection h with h1 _; subst h1; tauto

theorem serV_ne_nil (v : JVal) : ¬ serV v = [] := by
  cases v with
  | jnum n =>
      cases n with
      | ofNat m => exact serNat_ne_nil m
      | negSucc m => simp [serV, serNum]
  | jnull => simp [serV]
  | jbool b => cases b <;> simp [serV]
  | jstr s => simp [serV, serStr]
  | jarr xs => simp [serV]
  | jobj kvs => simp [serV]

theorem serV_head_ne_rbrack (v : JVal) (c : Char) (t : List Char) (h : serV v = c :: t) :
    ¬ c = ']' ∧ ¬ c = '\x7d' := by
  rcases serV_head_facts v c t h with h1 | h1 | h1 | h1 | h1 | h1 | h1 | h1 <;>
    first
    | (subst h1; exact ⟨by decide, by decide⟩)
    | (exact ⟨(isDigit_ne c h1).2.2.2.2.2.2.1, (isDigit_ne c h1).2.2.2.2.2.2.2.2.1⟩)

theorem serItems_cons (x : JVal) (l : List JVal) :
    ∃ t, serItems (x :: l) = serV x ++ t := by
  cases l with
  | nil => exact ⟨[], by simp [serItems]⟩
  | cons y ys => exact ⟨',' :: serItems (y :: ys), rfl⟩

theorem serFields_cons (k : String) (v : JVal) (l : List (String × JVal)) :
    ∃ t, serFields ((k, v) :: l) = '"' :: t := by
  cases l with
  | nil => exact ⟨escString k.data ++ ['"'] ++ ':' :: serV v, by simp [serFields, serStr]⟩
  | cons q qs =>
      exact ⟨escString k.data ++ ['"'] ++ ':' :: serV v ++ ',' :: serFields (q :: qs),
        by simp [serFields, serStr]⟩

theorem serV_exists_cons (v : JVal) : ∃ c t, serV v = c :: t := by
  cases hh : serV v with
  | nil => exact absurd hh (serV_ne_nil v)
  | cons a b => exact ⟨a, b, rfl⟩

mutual
theorem nfuelV_le : (v : JVal) → nfuelV v ≤ (serV v).length
  | .jnull => by simp [nfuelV, serV]
  | .jbool true => by simp [nfuelV, serV]
  | .jbool false => by simp [nfuelV, serV]
  | .jnum n => by
      have h := List.length_pos.mpr (serV_ne_nil (.jnum n))
      simpa [nfuelV] using h
  | .jstr s => by
      have h := List.length_pos.mpr (serV_ne_nil (.jstr s))
      simpa [nfuelV] using h
  | .jarr xs => by
      have h := nfuelL_le xs
      have hl : (serV (.jarr xs)).length = (serItems xs).length + 2 := by simp [serV]
      show nfuelL xs + 1 ≤ (serV (.jarr xs)).length
      omega
  | .jobj kvs => by
      have h := nfuelF_le kvs
      have hl : (serV (.jobj kvs)).length = (serFields kvs).length + 2 := by simp [serV]
      show nfuelF kvs + 1 ≤ (serV (.jobj kvs)).length
      omega
theorem nfuelL_le : (xs : List JVal) → nfuelL xs ≤ (serItems xs).length + 1
  | [] => by simp [nfuelL, serItems]
  | [v] => by
      have h := nfuelV_le v
      have h1 : 1 ≤ (serV v).length := List.length_pos.mpr (serV_ne_nil v)
      show max (nfuelV v) 1 + 1 ≤ (serItems [v]).length + 1
      have hm : max (nfuelV v) 1 ≤ (serV v).length := max_le h h1
      have hs : (serItems [v]).length = (serV v).length := rfl
      omega
  | v :: w :: ws => by
      have h := nfuelV_le v
      have h2 := nfuelL_le (w :: ws)
      show max (nfuelV v) (nfuelL (w :: ws)) + 1 ≤ (serItems (v :: w :: ws)).length + 1
      have hs : (serItems (v :: w :: ws)).length
          = (serV v).length + (serItems (w :: ws)).length + 1 := by
        show (serV v ++ ',' :: serItems (w :: ws)).length = _
        simp
        omega
      have hm : max (nfuelV v) (nfuelL (w :: ws))
          ≤ (serV v).length + (serItems (w :: ws)).length + 1 :=
        max_le (by omega) (by omega)
      omega
theorem nfuelF_le : (kvs : List (String × JVal)) → nfuelF kvs ≤ (serFields kvs).length + 1
  | [] => by simp [nfuelF, serFields]
  | [(k, v)] => by
      have h := nfuelV_le v
      show max (nfuelV v) 1 + 1 ≤ (serFields [(k, v)]).length + 1
      have hs : (serFields [(k, v)]).length = (serStr k).length + (serV v).length + 1 := by
        show (serStr k ++ ':' :: serV v).length = _
        simp
        omega
      have hm : max (nfuelV v) 1 ≤ (serStr k).length + (serV v).length + 1 :=
        max_le (by omega) (by omega)
      omega
  | (k, v) :: q :: qs => by
      have h := nfuelV_le v
      have h2 := nfuelF_le (q :: qs)
      show max (nfuelV v) (nfuelF (q :: qs)) + 1 ≤ (serFields ((k, v) :: q :: qs)).length + 1
      have hs : (serFields ((k, v) :: q :: qs)).length
          = (serStr k).length + (serV v).length + (serFields (q :: qs)).length + 2 := by
        show (serStr k ++ ':' :: serV v ++ ',' :: serFields (q :: qs)).length = _
        simp
        omega
      have hm : max (nfuelV v) (nfuelF (q :: qs))
          ≤ (serStr k).length + (serV v).length + (serFields (q :: qs)).length + 2 :=
        max_le (by omega) (by omega)
      omega
end

theorem parseV_minus (f : Nat) (X : List Char) :
    parseV (f + 1) ('-' :: X)
      = (parseNatChars X).map (fun p => (JVal.jnum (-(p.1 : Int)), p.2)) := rfl

theorem parseV_quote (f : Nat) (X : List Char) :
    parseV (f + 1) ('"' :: X)
      = (parseStrBody X).map (fun p => (JVal.jstr (String.mk p.1), p.2)) := rfl

theorem parseV_lbrack (f : Nat) (X : List Char) :
    parseV (f + 1) ('[' :: X)
      = (match X with
         | ']' :: r => some (JVal.jarr [], r)
         | _ => (parseItems f X).map (fun p => (JVal.jarr p.1, p.2))) := rfl

theorem parseV_lbrace (f : Nat) (X : List Char) :
    parseV (f + 1) ('\x7b' :: X)
      = (match X with
         | '\x7d' :: r => some (JVal.jobj [], r)
         | _ => (parseFields f X).map (fun p => (JVal.jobj p.1, p.2))) := rfl

mutual
theorem parseV_serV : (v : JVal) → ∀ (fuel : Nat) (rest : List Char), nfuelV v ≤ fuel →
    restOKb rest = true → parseV fuel (serV v ++ rest) = some (v, rest)
  | .jnull => by
      intro fuel rest hf _
      cases fuel with
      | zero => exact absurd hf (by simp [nfuelV])
      | succ f => rfl
  | .jbool true => by
      intro fuel rest hf _
      cases fuel with
      | zero => exact absurd hf (by simp [nfuelV])
      | succ f => rfl
  | .jbool false => by
      intro fuel rest hf _
      cases fuel with
      | zero => exact absurd hf (by simp [nfuelV])
      | succ f => rfl
  | .jnum (.ofNat m) => by
      intro fuel rest hf hrest
      cases fuel with
      | zero => exact absurd hf (by simp [nfuelV])
      | succ f =>
          obtain ⟨c, t, hct⟩ : ∃ c t, serNat m = c :: t := by
            cases hh : serNat m with
            | nil => exact absurd hh (serNat_ne_nil m)
            | cons a b => exact ⟨a, b, rfl⟩
          have hcd : c.isDigit = true :=
            serNat_digits m c (by rw [hct]; exact List.mem_cons_self _ _)
          obtain ⟨hn, ht2, hfq, hq, hm, _, _, _, _, _, _, _, _⟩ := isDigit_ne c hcd
          have hser : serV (.jnum (.ofNat m)) ++ rest = c :: (t ++ rest) := by
            show serNat m ++ rest = _
            rw [hct]
            rfl
          rw [hser]
          simp only [parseV]
          rw [if_neg hn, if_neg ht2, if_neg hfq, if_neg hq, if_neg hm, if_pos hcd]
          have hback : c :: (t ++ rest) = serNat m ++ rest := by rw [hct]; rfl
          rw [hback, parseNat_serNat m rest hrest]
          rfl
  | .jnum (.negSucc m) => by
      intro fuel rest hf hrest
      cases fuel with
      | zero => exact absurd hf (by simp [nfuelV])
      | succ f =>
          have hser : serV (.jnum (.negSucc m)) ++ rest = '-' :: (serNat (m + 1) ++ rest) := rfl
          rw [hser, parseV_minus, parseNat_serNat (m + 1) rest hrest]
          have hint : -(((m + 1 : Nat)) : Int) = Int.negSucc m := by
            rw [Int.negSucc_eq]
            push_cast
            ring
          simp only [Option.map_some']
          rw [hint]
  | .jstr s => by
      intro fuel rest hf _
      cases fuel with
      | zero => exact absurd hf (by simp [nfuelV])
      | succ f =>
          cases s with
          | mk sd =>
              have hser : serV (.jstr ⟨sd⟩) ++ rest = '"' :: (escString sd ++ ('"' :: rest)) := by
                show ('"' :: (escString sd ++ ['"'])) ++ rest = _
                simp
              rw [hser, parseV_quote, parseStrBody_esc]
              rfl
  | .jarr [] => by
      intro fuel rest hf _
      cases fuel with
      | zero => exact absurd hf (by simp [nfuelV])
      | succ f => rfl
  | .jarr (x :: xs) => by
      intro fuel rest hf hrest
      cases fuel with
      | zero => exact absurd hf (by simp [nfuelV])
      | succ f =>
          have hfl : nfuelL (x :: xs) ≤ f := by
            have hx : nfuelV (.jarr (x :: xs)) = nfuelL (x :: xs) + 1 := rfl
            omega
          have hser : serV (.jarr (x :: xs)) ++ rest
              = '[' :: (serItems (x :: xs) ++ (']' :: rest)) := by
            show ('[' :: (serItems (x :: xs) ++ [']'])) ++ rest = _
            simp
          rw [hser, parseV_lbrack]
          obtain ⟨t0, hti⟩ := serItems_cons x xs
          obtain ⟨c0, t1, hct⟩ := serV_exists_cons x
          have hcons : serItems (x :: xs) ++ ']' :: rest = c0 :: (t1 ++ (t0 ++ ']' :: rest)) := by
            rw [hti, hct]
            simp
          rw [hcons]
          have hne := (serV_head_ne_rbrack x c0 t1 hct).1
          split
          · rename_i r heq
            injection heq with h1 _
            exact absurd h1 hne
          · rw [← hcons, parseI_serI (x :: xs) (by simp) f rest hfl]
            rfl
  | .jobj [] => by
      intro fuel rest hf _
      cases fuel with
      | zero => exact absurd hf (by simp [nfuelV])
      | succ f => rfl
  | .jobj (p :: kvs) => by
      intro fuel rest hf hrest
      cases fuel with
      | zero => exact absurd hf (by simp [nfuelV])
      | succ f =>
          have hfl : nfuelF (p :: kvs) ≤ f := by
            have hx : nfuelV (.jobj (p :: kvs)) = nfuelF (p :: kvs) + 1 := rfl
            omega
          have hser : serV (.jobj (p :: kvs)) ++ rest
              = '\x7b' :: (serFields (p :: kvs) ++ ('\x7d' :: rest)) := by
            show ('\x7b' :: (serFields (p :: kvs) ++ ['\x7d'])) ++ rest = _
            simp
          rw [hser, parseV_lbrace]
          obtain ⟨k, v⟩ := p
          obtain ⟨t0, hti⟩ := serFields_cons k v kvs
          have hcons : serFields ((k, v) :: kvs) ++ '\x7d' :: rest
              = '"' :: (t0 ++ '\x7d' :: rest) := by
            rw [hti]
            rfl
          rw [hcons]
          split
          · rename_i r heq
            injection heq with h1 _
            exact absurd h1 (by decide)
          · rw [← hcons, parseF_serF ((k, v) :: kvs) (by simp) f rest hfl]
            rfl
theorem parseI_serI : (xs : List JVal) → ¬ xs = [] → ∀ (fuel : Nat) (rest : List Char),
    nfuelL xs ≤ fuel → parseItems fuel (serItems xs ++ ']' :: rest) = some (xs, rest)
  | [], h => absurd rfl h
  | [v], _ => by
      intro fuel rest hf
      cases fuel with
      | zero =>
          have hx : nfuelL [v] = max (nfuelV v) 1 + 1 := rfl
          omega
      | succ f =>
          have hfv : nfuelV v ≤ f := by
            have hx : nfuelL [v] = max (nfuelV v) 1 + 1 := rfl
            have h1 := Nat.le_max_left (nfuelV v) 1
            omega
          simp only [parseItems]
          have hser : serItems [v] ++ ']' :: rest = serV v ++ ']' :: rest := rfl
          rw [hser, parseV_serV v f (']' :: rest) hfv (by rfl)]
          rfl
  | v :: w :: ws, _ => by
      intro fuel rest hf
      cases fuel with
      | zero =>
          have hx : nfuelL (v :: w :: ws) = max (nfuelV v) (nfuelL (w :: ws)) + 1 := rfl
          omega
      | succ f =>
          have hx : nfuelL (v :: w :: ws) = max (nfuelV v) (nfuelL (w :: ws)) + 1 := rfl
          have h1 := Nat.le_max_left (nfuelV v) (nfuelL (w :: ws))
          have h2 := Nat.le_max_right (nfuelV v) (nfuelL (w :: ws))
          have hfv : nfuelV v ≤ f := by omega
          have hfl : nfuelL (w :: ws) ≤ f := by omega
          simp only [parseItems]
          have hser : serItems (v :: w :: ws) ++ ']' :: rest
              = serV v ++ (',' :: (serItems (w :: ws) ++ ']' :: rest)) := by
            show (serV v ++ ',' :: serItems (w :: ws)) ++ ']' :: rest = _
            simp
          rw [hser, parseV_serV v f (',' :: (serItems (w :: ws) ++ ']' :: rest)) hfv (by rfl)]
          show (parseItems f (serItems (w :: ws) ++ ']' :: rest)).map
              (fun p => (v :: p.1, p.2)) = some (v :: w :: ws, rest)
          rw [parseI_serI (w :: ws) (by simp) f rest hfl]
          rfl
theorem parseF_serF : (kvs : List (String × JVal)) → ¬ kvs = [] → ∀ (fuel : Nat) (rest : List Char),
    nfuelF kvs ≤ fuel → parseFields fuel (serFields kvs ++ '\x7d' :: rest) = some (kvs, rest)
  | [], h => absurd rfl h
  | [(k, v)], _ => by
      intro fuel rest hf
      cases fuel with
      | zero =>
          have hx : nfuelF [(k, v)] = max (nfuelV v) 1 + 1 := rfl
          omega
      | succ f =>
          have hfv : nfuelV v ≤ f := by
            have hx : nfuelF [(k, v)] = max (nfuelV v) 1 + 1 := rfl
            have h1 := Nat.le_max_left (nfuelV v) 1
            omega
          cases k with
          | mk kd =>
              simp only [parseFields]
              have hser : serFields [(⟨kd⟩, v)] ++ '\x7d' :: rest
                  = '"' :: (escString kd ++ ('"' :: (':' :: (serV v ++ '\x7d' :: rest)))) := by
                show (serStr ⟨kd⟩ ++ ':' :: serV v) ++ '\x7d' :: rest = _
                simp [serStr]
              rw [hser]
              simp only [parseStrBody_esc,
                parseV_serV v f ('\x7d' :: rest) hfv (by rfl)]
  | (k, v) :: q :: qs, _ => by
      intro fuel rest hf
      cases fuel with
      | zero =>
          have hx : nfuelF ((k, v) :: q :: qs) = max (nfuelV v) (nfuelF (q :: qs)) + 1 := rfl
          omega
      | succ f =>
          have hx : nfuelF ((k, v) :: q :: qs) = max (nfuelV v) (nfuelF (q :: qs)) + 1 := rfl
          have h1 := Nat.le_max_left (nfuelV v) (nfuelF (q :: qs))
          have h2 := Nat.le_max_right (nfuelV v) (nfuelF (q :: qs))
          have hfv : nfuelV v ≤ f := by omega
          have hfl : nfuelF (q :: qs) ≤ f := by omega
          cases k with
          | mk kd =>
              simp only [parseFields]
              have hser : serFields ((⟨kd⟩, v) :: q :: qs) ++ '\x7d' :: rest
                  = '"' :: (escString kd ++ ('"' :: (':' :: (serV v ++
                      (',' :: (serFields (q :: qs) ++ '\x7d' :: rest)))))) := by
                show (serStr ⟨kd⟩ ++ ':' :: serV v ++ ',' :: serFields (q :: qs))
                    ++ '\x7d' :: rest = _
                simp [serStr]
              rw [hser]
              simp only [parseStrBody_esc,
                parseV_serV v f (',' :: (serFields (q :: qs) ++ '\x7d' :: rest)) hfv (by rfl),
                parseF_serF (q :: qs) (by simp) f rest hfl]
              rfl
end

theorem jparse_serV (v : JVal) : jparse (serV v) = some v := by
  have h := parseV_serV v ((serV v).length + 1) [] (le_trans (nfuelV_le v) (by omega)) (by decide)
  rw [List.append_nil] at h
  unfold jparse
  rw [h]

theorem spStep_plain (st : SPState) (c : Char) (hI : st.insideSections = true)
    (hE : st.escapeNext = false) (hS : st.inString = false) (hd : 1 ≤ st.braceDepth)
    (h1 : ¬ c = '\\') (h2 : ¬ c = '"') (h3 : ¬ c = '\x7b') (h4 : ¬ c = '\x7d') :
    spStep st c = { st with currentObject := st.currentObject ++ [c] } := by
  have hd0 : ¬ st.braceDepth = 0 := by omega
  have hdpos : 0 < st.braceDepth := by omega
  unfold spStep spAppend
  rw [hI, hE, hS]
  simp [h1, h2, h3, h4, hd0, hdpos]

theorem spStep_quote (st : SPState) (hI : st.insideSections = true)
    (hE : st.escapeNext = false) (hd : 0 < st.braceDepth) :
    spStep st '"' = { st with inString := !st.inString
                              currentObject := st.currentObject ++ ['"'] } := by
  unfold spStep spAppend
  rw [hI, hE]
  simp [hd]

theorem spStep_bslash (st : SPState) (hI : st.insideSections = true)
    (hE : st.escapeNext = false) (hd : 0 < st.braceDepth) :
    spStep st '\\' = { st with escapeNext := true
                               currentObject := st.currentObject ++ ['\\'] } := by
  unfold spStep spAppend
  rw [hI, hE]
  simp [hd]

theorem spStep_escaped (st : SPState) (c : Char) (hI : st.insideSections = true)
    (hE : st.escapeNext = true) (hd : 0 < st.braceDepth) :
    spStep st c = { st with escapeNext := false
                            currentObject := st.currentObject ++ [c] } := by
  unfold spStep spAppend
  rw [hI, hE]
  simp [hd]

theorem spStep_instr (st : SPState) (c : Char) (hI : st.insideSections = true)
    (hE : st.escapeNext = false) (hS : st.inString = true)
    (h1 : ¬ c = '\\') (h2 : ¬ c = '"') (hd : 0 < st.braceDepth) :
    spStep st c = { st with currentObject := st.currentObject ++ [c] } := by
  unfold spStep spAppend
  rw [hI, hE, hS]
  simp [h1, h2, hd]

theorem spStep_lbrace (st : SPState) (hI : st.insideSections = true)
    (hE : st.escapeNext = false) (hS : st.inString = false)
    (hd : ¬ st.braceDepth = 0) :
    spStep st '\x7b' = { st with braceDepth := st.braceDepth + 1
                                 currentObject := st.currentObject ++ ['\x7b'] } := by
  unfold spStep
  rw [hI, hE, hS]
  simp [hd]

theorem spStep_rbrace (st : SPState) (hI : st.insideSections = true)
    (hE : st.escapeNext = false) (hS : st.inString = false)
    (hd : 2 ≤ st.braceDepth) :
    spStep st '\x7d' = { st with braceDepth := st.braceDepth - 1
                                 currentObject := st.currentObject ++ ['\x7d'] } := by
  have h0 : (0 : Int) ≤ st.braceDepth - 1 := by omega
  have h1 : ¬ (st.braceDepth - 1 = 0) := by omega
  unfold spStep
  rw [hI, hE, hS]
  simp [h0, h1]

theorem spRunPlain (l : List Char)
    (hpl : ∀ c ∈ l, ¬ c = '\\' ∧ ¬ c = '"' ∧ ¬ c = '\x7b' ∧ ¬ c = '\x7d') :
    ∀ (buf co : List Char) (d : Int), 1 ≤ d → ∀ (k1 k2 : Bool) (em : List JVal),
    List.foldl spStep ⟨buf, true, d, co, false, false, k1, k2, em⟩ l
      = ⟨buf, true, d, co ++ l, false, false, k1, k2, em⟩ := by
  induction l with
  | nil => intro buf co d hd k1 k2 em; simp
  | cons c t ih =>
      intro buf co d hd k1 k2 em
      obtain ⟨h1, h2, h3, h4⟩ := hpl c (List.mem_cons_self _ _)
      rw [List.foldl_cons, spStep_plain _ c rfl rfl rfl hd h1 h2 h3 h4]
      show List.foldl spStep ⟨buf, true, d, co ++ [c], false, false, k1, k2, em⟩ t = _
      rw [ih (fun q hq => hpl q (List.mem_cons_of_mem _ hq)) buf (co ++ [c]) d hd k1 k2 em]
      simp

theorem spRunEscPair (buf co : List Char) (d : Int) (hd : 0 < d) (k1 k2 : Bool)
    (em : List JVal) (e : Char) :
    List.foldl spStep ⟨buf, true, d, co, true, false, k1, k2, em⟩ ['\\', e]
      = ⟨buf, true, d, co ++ ['\\', e], true, false, k1, k2, em⟩ := by
  rw [List.foldl_cons, spStep_bslash _ rfl rfl hd]
  show List.foldl spStep ⟨buf, true, d, co ++ ['\\'], true, true, k1, k2, em⟩ [e] = _
  rw [List.foldl_cons, spStep_escaped _ e rfl rfl hd, List.foldl_nil]
  show (⟨buf, true, d, (co ++ ['\\']) ++ [e], true, false, k1, k2, em⟩ : SPState) = _
  simp

theorem spRunStr (s : List Char) : ∀ (buf co : List Char) (d : Int), 0 < d →
    ∀ (k1 k2 : Bool) (em : List JVal),
    List.foldl spStep ⟨buf, true, d, co, true, false, k1, k2, em⟩ (escString s)
      = ⟨buf, true, d, co ++ escString s, true, false, k1, k2, em⟩ := by
  induction s with
  | nil => intro buf co d hd k1 k2 em; simp [escString]
  | cons c t ih =>
      intro buf co d hd k1 k2 em
      have hesc : escString (c :: t) = escChar c ++ escString t := by simp [escString]
      rw [hesc, List.foldl_append]
      unfold escChar
      split_ifs with h1 h2 h3 h4 h5
      · rw [spRunEscPair buf co d hd k1 k2 em, ih buf _ d hd k1 k2 em]
        simp [hesc, h1]
      · rw [spRunEscPair buf co d hd k1 k2 em, ih buf _ d hd k1 k2 em]
        simp [hesc, h2]
      · rw [spRunEscPair buf co d hd k1 k2 em, ih buf _ d hd k1 k2 em]
        simp [hesc, h3]
      · rw [spRunEscPair buf co d hd k1 k2 em, ih buf _ d hd k1 k2 em]
        simp [hesc, h4]
      · rw [spRunEscPair buf co d hd k1 k2 em, ih buf _ d hd k1 k2 em]
        simp [hesc, h5]
      · rw [List.foldl_cons, spStep_instr _ c rfl rfl rfl h2 h1 hd, List.foldl_nil]
        show List.foldl spStep ⟨buf, true, d, co ++ [c], true, false, k1, k2, em⟩ (escString t) = _
        rw [ih buf (co ++ [c]) d hd k1 k2 em]
        simp [hesc, h1, h2, h3, h4, h5]

theorem spRunSerStr (s : String) : ∀ (buf co : List Char) (d : Int), 0 < d →
    ∀ (k1 k2 : Bool) (em : List JVal),
    List.foldl spStep ⟨buf, true, d, co, false, false, k1, k2, em⟩ (serStr s)
      = ⟨buf, true, d, co ++ serStr s, false, false, k1, k2, em⟩ := by
  intro buf co d hd k1 k2 em
  have hser : serStr s = '"' :: (escString s.data ++ ['"']) := rfl
  rw [hser, List.foldl_cons, spStep_quote _ rfl rfl hd]
  show List.foldl spStep ⟨buf, true, d, co ++ ['"'], true, false, k1, k2, em⟩
      (escString s.data ++ ['"']) = _
  rw [List.foldl_append, spRunStr s.data buf (co ++ ['"']) d hd k1 k2 em]
  rw [List.foldl_cons, spStep_quote _ rfl rfl hd, List.foldl_nil]
  show (⟨buf, true, d, ((co ++ ['"']) ++ escString s.data) ++ ['"'], false, false,
      k1, k2, em⟩ : SPState) = _
  simp

theorem serNum_plain (n : Int) : ∀ c ∈ serNum n,
    ¬ c = '\\' ∧ ¬ c = '"' ∧ ¬ c = '\x7b' ∧ ¬ c = '\x7d' := by
  intro c hc
  cases n with
  | ofNat m =>
      have hd : c.isDigit = true := serNat_digits m c hc
      obtain ⟨_, _, _, h4, _, _, _, h8, h9, h10, _, _, _⟩ := isDigit_ne c hd
      exact ⟨h10, h4, h8, h9⟩
  | negSucc m =>
      rcases List.mem_cons.mp hc with h | h
      · subst h; refine ⟨by decide, by decide, by decide, by decide⟩
      · have hd : c.isDigit = true := serNat_digits (m + 1) c h
        obtain ⟨_, _, _, h4, _, _, _, h8, h9, h10, _, _, _⟩ := isDigit_ne c hd
        exact ⟨h10, h4, h8, h9⟩

mutual
theorem spRunV : (v : JVal) → ∀ (buf co : List Char) (d : Int), 1 ≤ d →
    ∀ (k1 k2 : Bool) (em : List JVal),
    List.foldl spStep ⟨buf, true, d, co, false, false, k1, k2, em⟩ (serV v)
      = ⟨buf, true, d, co ++ serV v, false, false, k1, k2, em⟩
  | .jnull => by
      intro buf co d hd k1 k2 em
      exact spRunPlain _ (by decide) buf co d hd k1 k2 em
  | .jbool true => by
      intro buf co d hd k1 k2 em
      exact spRunPlain _ (by decide) buf co d hd k1 k2 em
  | .jbool false => by
      intro buf co d hd k1 k2 em
      exact spRunPlain _ (by decide) buf co d hd k1 k2 em
  | .jnum n => by
      intro buf co d hd k1 k2 em
      exact spRunPlain _ (serNum_plain n) buf co d hd k1 k2 em
  | .jstr s => by
      intro buf co d hd k1 k2 em
      exact spRunSerStr s buf co d (by omega) k1 k2 em
  | .jarr xs => by
      intro buf co d hd k1 k2 em
      have hser : serV (.jarr xs) = '[' :: (serItems xs ++ [']']) := rfl
      rw [hser, List.foldl_cons,
        spStep_plain _ '[' rfl rfl rfl hd (by decide) (by decide) (by decide) (by decide)]
      show List.foldl spStep ⟨buf, true, d, co ++ ['['], false, false, k1, k2, em⟩
          (serItems xs ++ [']']) = _
      rw [List.foldl_append, spRunI xs buf (co ++ ['[']) d hd k1 k2 em, List.foldl_cons,
        spStep_plain _ ']' rfl rfl rfl hd (by decide) (by decide) (by decide) (by decide),
        List.foldl_nil]
      show (⟨buf, true, d, ((co ++ ['[']) ++ serItems xs) ++ [']'], false, false,
          k1, k2, em⟩ : SPState) = _
      simp
  | .jobj kvs => by
      intro buf co d hd k1 k2 em
      have hser : serV (.jobj kvs) = '\x7b' :: (serFields kvs ++ ['\x7d']) := rfl
      rw [hser, List.foldl_cons, spStep_lbrace _ rfl rfl rfl (show ¬ d = 0 by omega)]
      show List.foldl spStep ⟨buf, true, d + 1, co ++ ['\x7b'], false, false, k1, k2, em⟩
          (serFields kvs ++ ['\x7d']) = _
      rw [List.foldl_append, spRunF kvs buf (co ++ ['\x7b']) (d + 1) (by omega) k1 k2 em,
        List.foldl_cons, spStep_rbrace _ rfl rfl rfl (show (2 : Int) ≤ d + 1 by omega),
        List.foldl_nil]
      show (⟨buf, true, d + 1 - 1, ((co ++ ['\x7b']) ++ serFields kvs) ++ ['\x7d'],
          false, false, k1, k2, em⟩ : SPState) = _
      have hdd : d + 1 - 1 = d := by ring
      rw [hdd]
      simp
theorem spRunI : (xs : List JVal) → ∀ (buf co : List Char) (d : Int), 1 ≤ d →
    ∀ (k1 k2 : Bool) (em : List JVal),
    List.foldl spStep ⟨buf, true, d, co, false, false, k1, k2, em⟩ (serItems xs)
      = ⟨buf, true, d, co ++ serItems xs, false, false, k1, k2, em⟩
  | [] => by
      intro buf co d hd k1 k2 em
      simp [serItems]
  | [v] => by
      intro buf co d hd k1 k2 em
      exact spRunV v buf co d hd k1 k2 em
  | v :: w :: ws => by
      intro buf co d hd k1 k2 em
      have hser : serItems (v :: w :: ws) = serV v ++ ',' :: serItems (w :: ws) := rfl
      rw [hser, List.foldl_append, spRunV v buf co d hd k1 k2 em, List.foldl_cons,
        spStep_plain _ ',' rfl rfl rfl hd (by decide) (by decide) (by decide) (by decide)]
      show List.foldl spStep ⟨buf, true, d, (co ++ serV v) ++ [','], false, false, k1, k2, em⟩
          (serItems (w :: ws)) = _
      rw [spRunI (w :: ws) buf _ d hd k1 k2 em]
      simp
theorem spRunF : (kvs : List (String × JVal)) → ∀ (buf co : List Char) (d : Int), 1 ≤ d →
    ∀ (k1 k2 : Bool) (em : List JVal),
    List.foldl spStep ⟨buf, true, d, co, false, false, k1, k2, em⟩ (serFields kvs)
      = ⟨buf, true, d, co ++ serFields kvs, false, false, k1, k2, em⟩
  | [] => by
      intro buf co d hd k1 k2 em
      simp [serFields]
  | [(k, v)] => by
      intro buf co d hd k1 k2 em
      have hser : serFields [(k, v)] = serStr k ++ ':' :: serV v := rfl
      rw [hser, List.foldl_append, spRunSerStr k buf co d (by omega) k1 k2 em, List.foldl_cons,
        spStep_plain _ ':' rfl rfl rfl hd (by decide) (by decide) (by decide) (by decide)]
      show List.foldl spStep ⟨buf, true, d, (co ++ serStr k) ++ [':'], false, false, k1, k2, em⟩
          (serV v) = _
      rw [spRunV v buf _ d hd k1 k2 em]
      simp
  | (k, v) :: q :: qs => by
      intro buf co d hd k1 k2 em
      have hser2 : serFields ((k, v) :: q :: qs)
          = ((serStr k ++ [':']) ++ serV v) ++ ([','] ++ serFields (q :: qs)) := by
        show serStr k ++ ':' :: serV v ++ ',' :: serFields (q :: qs) = _
        simp
      rw [hser2, List.foldl_append, List.foldl_append, List.foldl_append, List.foldl_append,
        spRunSerStr k buf co d (by omega) k1 k2 em,
        spRunPlain [':'] (by decide) buf _ d hd k1 k2 em,
        spRunV v buf _ d hd k1 k2 em,
        spRunPlain [','] (by decide) buf _ d hd k1 k2 em,
        spRunF (q :: qs) buf _ d hd k1 k2 em]
      simp
end

theorem spStep_lbrace0 (st : SPState) (hI : st.insideSections = true)
    (hE : st.escapeNext = false) (hS : st.inString = false)
    (hd : st.braceDepth = 0) :
    spStep st '\x7b' = { st with braceDepth := 1
                                 currentObject := ['\x7b'] } := by
  unfold spStep
  rw [hI, hE, hS, hd]
  simp

theorem spStep_rbrace0 (st : SPState) (hI : st.insideSections = true)
    (hE : st.escapeNext = false) (hS : st.inString = false)
    (hd : st.braceDepth = 1) :
    spStep st '\x7d' = { st with braceDepth := 0
                                 currentObject := []
                                 emitted := st.emitted ++
                                   (if trimChars (st.currentObject ++ ['\x7d']) = [] then []
                                    else match jparse (trimChars (st.currentObject ++ ['\x7d'])) with
                                         | some o => [o]
                                         | none => []) } := by
  unfold spStep
  rw [hI, hE, hS, hd]
  simp

theorem trimChars_nows (l : List Char) (h1 : l.dropWhile Char.isWhitespace = l)
    (h2 : l.reverse.dropWhile Char.isWhitespace = l.reverse) : trimChars l = l := by
  unfold trimChars
  rw [h1, h2, List.reverse_reverse]

theorem trimChars_brackets (m : List Char) :
    trimChars ('\x7b' :: (m ++ ['\x7d'])) = '\x7b' :: (m ++ ['\x7d']) := by
  apply trimChars_nows
  · rw [List.dropWhile_cons]
    simp
  · have hrev : ('\x7b' :: (m ++ ['\x7d'])).reverse = '\x7d' :: (m.reverse ++ ['\x7b']) := by
      simp
    rw [hrev, List.dropWhile_cons]
    simp

theorem spSection (kvs : List (String × JVal)) (buf : List Char) (k1 k2 : Bool)
    (em : List JVal) :
    List.foldl spStep ⟨buf, true, 0, [], false, false, k1, k2, em⟩ (serV (.jobj kvs))
      = ⟨buf, true, 0, [], false, false, k1, k2, em ++ [.jobj kvs]⟩ := by
  have hser : serV (.jobj kvs) = '\x7b' :: (serFields kvs ++ ['\x7d']) := rfl
  rw [hser, List.foldl_cons, spStep_lbrace0 _ rfl rfl rfl rfl]
  show List.foldl spStep ⟨buf, true, 1, ['\x7b'], false, false, k1, k2, em⟩
      (serFields kvs ++ ['\x7d']) = _
  rw [List.foldl_append, spRunF kvs buf ['\x7b'] 1 (by norm_num) k1 k2 em,
    List.foldl_cons, spStep_rbrace0 _ rfl rfl rfl rfl, List.foldl_nil]
  have hco : (['\x7b'] ++ serFields kvs) ++ ['\x7d'] = '\x7b' :: (serFields kvs ++ ['\x7d']) := by
    simp
  show (⟨buf, true, 0, [], false, false, k1, k2, em ++
      (if trimChars ((['\x7b'] ++ serFields kvs) ++ ['\x7d']) = [] then []
       else match jparse (trimChars ((['\x7b'] ++ serFields kvs) ++ ['\x7d'])) with
            | some o => [o]
            | none => [])⟩ : SPState) = _
  rw [hco, trimChars_brackets, ← hser, jparse_serV]
  simp [serV_ne_nil]

set_option maxRecDepth 4000 in
theorem spObs_feed (st : SPState) (chunk : List Char) (hne : ¬ chunk = []) :
    spObs (spFeed st chunk)
      = spObs (List.foldl spStep { st with buffer := st.buffer ++ chunk } chunk) := by
  have key : ∀ L : SPState,
      spObs (if 250000 < L.buffer.length
             then { L with buffer := L.buffer.drop (L.buffer.length - 8000) }
             else L) = spObs L := by
    intro L
    obtain ⟨bf, a1, a2, a3, a4, a5, a6, a7, a8⟩ := L
    by_cases h : 250000 < bf.length
    · rw [if_pos h]
      simp [spObs]
    · rw [if_neg h]
  unfold spFeed
  rw [if_neg hne]
  exact key _

theorem spState_of_obs (st : SPState) (i : Bool) (b : Int) (co : List Char)
    (s e f g : Bool) (em : List JVal)
    (h : spObs st = (i, b, co, s, e, f, g, em)) :
    st = ⟨st.buffer, i, b, co, s, e, f, g, em⟩ := by
  cases st
  simp [spObs, Prod.mk.injEq] at h
  obtain ⟨h1, h2, h3, h4, h5, h6, h7, h8⟩ := h
  subst h1 h2 h3 h4 h5 h6 h7 h8
  rfl

theorem spObs_feed_first (kvs : List (String × JVal)) (buf : List Char) (em : List JVal) :
    spObs (spFeed ⟨buf, true, 0, [], false, false, true, true, em⟩ (serV (.jobj kvs)))
      = (true, 0, [], false, false, true, true, em ++ [.jobj kvs]) := by
  rw [spObs_feed _ _ (serV_ne_nil (.jobj kvs))]
  show spObs (List.foldl spStep ⟨buf ++ serV (.jobj kvs), true, 0, [], false, false,
      true, true, em⟩ (serV (.jobj kvs))) = _
  rw [spSection kvs _ true true em]
  rfl

theorem spObs_feed_comma (kvs : List (String × JVal)) (buf : List Char) (em : List JVal) :
    spObs (spFeed ⟨buf, true, 0, [], false, false, true, true, em⟩ (',' :: serV (.jobj kvs)))
      = (true, 0, [], false, false, true, true, em ++ [.jobj kvs]) := by
  rw [spObs_feed _ _ (by simp)]
  show spObs (List.foldl spStep ⟨buf ++ (',' :: serV (.jobj kvs)), true, 0, [], false, false,
      true, true, em⟩ (',' :: serV (.jobj kvs))) = _
  rw [List.foldl_cons]
  show spObs (List.foldl spStep ⟨buf ++ (',' :: serV (.jobj kvs)), true, 0, [], false, false,
      true, true, em⟩ (serV (.jobj kvs))) = _
  rw [spSection kvs _ true true em]
  rfl

theorem spObs_feed_close (st : SPState) (em : List JVal)
    (hst : spObs st = (true, 0, [], false, false, true, true, em)) :
    spObs (spFeed st pageClose) = (false, 0, [], false, false, true, true, em) := by
  rw [spState_of_obs st _ _ _ _ _ _ _ _ hst]
  rw [spObs_feed _ _ (by simp [pageClose])]
  rfl

theorem sp_run_comma_sections (rest : List JVal)
    (hobj : ∀ s ∈ rest, ∃ kvs, s = JVal.jobj kvs) :
    ∀ (st : SPState) (em : List JVal),
    spObs st = (true, 0, [], false, false, true, true, em) →
    spObs (List.foldl spFeed st (rest.map (fun t => ',' :: serV t)))
      = (true, 0, [], false, false, true, true, em ++ rest) := by
  induction rest with
  | nil => intro st em hst; simpa using hst
  | cons s rest2 ih =>
      intro st em hst
      obtain ⟨kvs, rfl⟩ := hobj s (List.mem_cons_self _ _)
      rw [List.map_cons, List.foldl_cons, spState_of_obs st _ _ _ _ _ _ _ _ hst]
      have hstep := spObs_feed_comma kvs st.buffer em
      have := ih (fun q hq => hobj q (List.mem_cons_of_mem _ hq))
        (spFeed ⟨st.buffer, true, 0, [], false, false, true, true, em⟩ (',' :: serV (.jobj kvs)))
        (em ++ [.jobj kvs]) hstep
      rw [this]
      simp

theorem sp_emitted (secs : List JVal)
    (hobj : ∀ s ∈ secs, ∃ kvs, s = JVal.jobj kvs) :
    ((spChunks secs).foldl spFeed spInit).emitted = secs := by
  have hpre : spFeed spInit pagePrelude
      = ⟨pagePrelude, true, 0, [], false, false, true, true, []⟩ := rfl
  have hfin : ∀ st : SPState,
      spObs st = (false, 0, [], false, false, true, true, secs) → st.emitted = secs := by
    intro st h
    have := congrArg (fun t => t.2.2.2.2.2.2.2) h
    simpa [spObs] using this
  unfold spChunks
  rw [List.foldl_cons, hpre]
  cases secs with
  | nil =>
      apply hfin
      rw [show sectionChunks ([] : List JVal) ++ [pageClose] = [pageClose] from rfl,
        List.foldl_cons, List.foldl_nil]
      exact spObs_feed_close _ [] rfl
  | cons s rest =>
      apply hfin
      obtain ⟨kvs, hs⟩ := hobj s (List.mem_cons_self _ _)
      subst hs
      rw [show sectionChunks (JVal.jobj kvs :: rest) ++ [pageClose]
          = serV (.jobj kvs) :: (rest.map (fun t => ',' :: serV t) ++ [pageClose]) from rfl,
        List.foldl_cons, List.foldl_append]
      have h1 := spObs_feed_first kvs pagePrelude []
      have h2 := sp_run_comma_sections rest
        (fun q hq => hobj q (List.mem_cons_of_mem _ hq)) _ _ h1
      rw [List.foldl_cons, List.foldl_nil]
      exact spObs_feed_close _ _ (by simpa using h2)

theorem noNl_escString (s : List Char) : ¬ '\n' ∈ escString s := by
  induction s with
  | nil => simp [escString]
  | cons c t ih =>
      have h : escString (c :: t) = escChar c ++ escString t := by simp [escString]
      rw [h]
      intro hmem
      rcases List.mem_append.mp hmem with hm | hm
      · unfold escChar at hm
        split_ifs at hm with h1 h2 h3 h4 h5
        · simp at hm
        · simp at hm
        · simp at hm
        · simp at hm
        · simp at hm
        · simp at hm
          exact h3 hm.symm
      · exact ih hm

theorem noNl_serStr (s : String) : ¬ '\n' ∈ serStr s := by
  intro hm
  rcases List.mem_cons.mp hm with h | h
  · exact absurd h (by decide)
  · rcases List.mem_append.mp h with h2 | h2
    · exact noNl_escString s.data h2
    · simp at h2

theorem noNl_serNum (n : Int) : ¬ '\n' ∈ serNum n := by
  intro hm
  cases n with
  | ofNat m =>
      have hd := serNat_digits m _ hm
      exact absurd hd (by decide)
  | negSucc m =>
      rcases List.mem_cons.mp hm with h | h
      · exact absurd h (by decide)
      · have hd := serNat_digits (m + 1) _ h
        exact absurd hd (by decide)

mutual
theorem noNlV : (v : JVal) → ¬ '\n' ∈ serV v
  | .jnull => by decide
  | .jbool true => by decide
  | .jbool false => by decide
  | .jnum n => noNl_serNum n
  | .jstr s => noNl_serStr s
  | .jarr xs => by
      intro hm
      rcases List.mem_cons.mp hm with h | h
      · exact absurd h (by decide)
      · rcases List.mem_append.mp h with h2 | h2
        · exact noNlI xs h2
        · simp at h2
  | .jobj kvs => by
      intro hm
      rcases List.mem_cons.mp hm with h | h
      · exact absurd h (by decide)
      · rcases List.mem_append.mp h with h2 | h2
        · exact noNlF kvs h2
        · simp at h2
theorem noNlI : (xs : List JVal) → ¬ '\n' ∈ serItems xs
  | [] => by simp [serItems]
  | [v] => noNlV v
  | v :: w :: ws => by
      intro hm
      have h : serItems (v :: w :: ws) = serV v ++ ',' :: serItems (w :: ws) := rfl
      rw [h] at hm
      rcases List.mem_append.mp hm with h2 | h2
      · exact noNlV v h2
      · rcases List.mem_cons.mp h2 with h3 | h3
        · exact absurd h3 (by decide)
        · exact noNlI (w :: ws) h3
theorem noNlF : (kvs : List (String × JVal)) → ¬ '\n' ∈ serFields kvs
  | [] => by simp [serFields]
  | [(k, v)] => by
      intro hm
      have h : serFields [(k, v)] = serStr k ++ ':' :: serV v := rfl
      rw [h] at hm
      rcases List.mem_append.mp hm with h2 | h2
      · exact noNl_serStr k h2
      · rcases List.mem_cons.mp h2 with h3 | h3
        · exact absurd h3 (by decide)
        · exact noNlV v h3
  | (k, v) :: q :: qs => by
      intro hm
      have h : serFields ((k, v) :: q :: qs)
          = serStr k ++ ':' :: serV v ++ ',' :: serFields (q :: qs) := rfl
      rw [h] at hm
      rcases List.mem_append.mp hm with h2 | h2
      · rcases List.mem_append.mp h2 with h3 | h3
        · exact noNl_serStr k h3
        · rcases List.mem_cons.mp h3 with h4 | h4
          · exact absurd h4 (by decide)
          · exact noNlV v h4
      · rcases List.mem_cons.mp h2 with h3 | h3
        · exact absurd h3 (by decide)
        · exact noNlF (q :: qs) h3
end

theorem splitNl_append (l : List Char) (hl : ¬ '\n' ∈ l) (rest : List Char) :
    splitNl (l ++ '\n' :: rest) = (l :: (splitNl rest).1, (splitNl rest).2) := by
  induction l with
  | nil => rfl
  | cons c t ih =>
      have hc : ¬ c = '\n' := by
        intro h
        subst h
        exact hl (List.mem_cons_self _ _)
      show splitNl (c :: (t ++ '\n' :: rest)) = _
      conv_lhs => rw [splitNl]
      rw [if_neg hc, ih (fun hm => hl (List.mem_cons_of_mem _ hm))]

theorem trimChars_serObj (kvs : List (String × JVal)) :
    trimChars (serV (.jobj kvs)) = serV (.jobj kvs) := by
  have h : serV (.jobj kvs) = '\x7b' :: (serFields kvs ++ ['\x7d']) := rfl
  rw [h]
  exact trimChars_brackets _

theorem ndHandleLine_ser (kvs : List (String × JVal))
    (hty : jsTruthy (jget kvs "type") = true) :
    ndHandleLine (serV (.jobj kvs)) = [.jobj kvs] := by
  unfold ndHandleLine
  rw [jparse_serV]
  simp [jgetV_jobj, hty, (show jsTruthy (some (JVal.jobj kvs)) = true from rfl)]

theorem ndFeed_section (kvs : List (String × JVal)) (em : List JVal)
    (hty : jsTruthy (jget kvs "type") = true) :
    ndFeed ⟨[], em⟩ (serV (.jobj kvs) ++ ['\n']) = ⟨[], em ++ [.jobj kvs]⟩ := by
  have hne : ¬ (serV (.jobj kvs) ++ ['\n']) = [] := by simp
  have hsplit : splitNl (serV (.jobj kvs) ++ '\n' :: []) =
      (serV (.jobj kvs) :: ([] : List (List Char)), ([] : List Char)) :=
    splitNl_append (serV (.jobj kvs)) (noNlV (.jobj kvs)) []
  unfold ndFeed
  rw [if_neg hne]
  show (let buf := ([] : List Char) ++ (serV (.jobj kvs) ++ ['\n'])
        let p := splitNl buf
        let ems := p.1.flatMap (fun l =>
          let t := trimChars l
          if t = [] then [] else ndHandleLine t)
        let rem := if 250000 < p.2.length then p.2.drop (p.2.length - 8000) else p.2
        (⟨rem, em ++ ems⟩ : NDState)) = ⟨[], em ++ [.jobj kvs]⟩
  simp only [List.nil_append, hsplit, List.flatMap_cons, List.flatMap_nil, trimChars_serObj,
    ndHandleLine_ser kvs hty]
  simp [serV_ne_nil]

theorem ndFlush_empty (em : List JVal) : ndFlush ⟨[], em⟩ = ⟨[], em⟩ := by
  unfold ndFlush
  simp [trimChars]

theorem nd_emitted (secs : List JVal)
    (hsec : ∀ s ∈ secs, ∃ kvs, s = JVal.jobj kvs ∧ jsTruthy (jget kvs "type") = true) :
    (ndFlush ((ndChunks secs).foldl ndFeed ndInit)).emitted = secs := by
  have main : ∀ (l : List JVal),
      (∀ s ∈ l, ∃ kvs, s = JVal.jobj kvs ∧ jsTruthy (jget kvs "type") = true) →
      ∀ (em : List JVal),
      List.foldl ndFeed ⟨[], em⟩ (l.map (fun s => serV s ++ ['\n'])) = ⟨[], em ++ l⟩ := by
    intro l
    induction l with
    | nil => intro _ em; simp
    | cons s rest ih =>
        intro hl em
        obtain ⟨kvs, hs, hty⟩ := hl s (List.mem_cons_self _ _)
        subst hs
        rw [List.map_cons, List.foldl_cons, ndFeed_section kvs em hty,
          ih (fun q hq => hl q (List.mem_cons_of_mem _ hq)) (em ++ [JVal.jobj kvs])]
        simp
  show (ndFlush (List.foldl ndFeed ⟨[], []⟩ (secs.map (fun s => serV s ++ ['\n'])))).emitted = secs
  rw [main secs hsec [], ndFlush_empty]
  simp

theorem flatMap_congr_mem {α β : Type} (l : List α) (f g : α → List β)
    (h : ∀ a ∈ l, f a = g a) : l.flatMap f = l.flatMap g := by
  induction l with
  | nil => rfl
  | cons a t ih =>
      rw [List.flatMap_cons, List.flatMap_cons, h a (List.mem_cons_self _ _),
        ih (fun q hq => h q (List.mem_cons_of_mem _ hq))]

theorem flatMap_singleton_filterMap (f : JVal → Option String) (l : List JVal) :
    l.flatMap (fun s => [s].filterMap f) = l.filterMap f := by
  induction l with
  | nil => rfl
  | cons a t ih =>
      rw [List.flatMap_cons, List.filterMap_cons, ih]
      cases hf : f a <;> simp [List.filterMap_cons, hf]

/-- C3.  Streaming equivalence: for a complete, valid page description
(every section an object whose `type` is a registered renderer name, at
most `maxSections` of them — the within-limits validity the claim's
"valid" presumes), rendering through the full-page path (`render`) and
feeding the same sections one at a time through either incremental
decoder (`renderStream` over the serialized `\x7b"sections":[...]\x7d`
wire text split at section boundaries, or `renderStreamNDJSON` over one
serialized section per line) produce structurally equivalent output: the
same rendered-section type trace — hence the same count, the same types,
in the same order — namely one section per input entry in input order. -/
theorem streaming_equivalence (secs : List JVal)
    (hacc : ∀ s ∈ secs, sectionAccepted rendererKeys s = true)
    (hlen : secs.length ≤ maxSections) :
    streamTypesSP (spChunks secs) = renderTypes secs ∧
    streamTypesND (ndChunks secs) = renderTypes secs ∧
    renderTypes secs = secs.filterMap typeOfSection := by
  have hobj : ∀ s ∈ secs, ∃ kvs, s = JVal.jobj kvs := by
    intro s hs
    have h := hacc s hs
    cases s with
    | jobj kvs => exact ⟨kvs, rfl⟩
    | jnull => simp [sectionAccepted] at h
    | jbool b => simp [sectionAccepted] at h
    | jnum n => simp [sectionAccepted] at h
    | jstr t => simp [sectionAccepted] at h
    | jarr xs => simp [sectionAccepted] at h
  have hty : ∀ kvs, JVal.jobj kvs ∈ secs → jsTruthy (jget kvs "type") = true := by
    intro kvs hm
    have h := hacc _ hm
    simp only [sectionAccepted, acceptedEntry, Bool.and_eq_true] at h
    exact h.1
  have hrender : renderTypes secs = secs.filterMap typeOfSection := by
    unfold renderTypes normalizeTop
    show (normList rendererKeys (normSections rendererKeys maxDepth) secs 0).flatMap
        addSectionTypes = _
    exact normList_types _ secs 0 hacc (by simpa using hlen)
  have hsingle : ∀ s ∈ secs,
      (normalizeTop rendererKeys [s]).flatMap addSectionTypes
        = [s].filterMap typeOfSection := by
    intro s hs
    unfold normalizeTop
    show (normList rendererKeys (normSections rendererKeys maxDepth) [s] 0).flatMap
        addSectionTypes = _
    apply normList_types
    · intro q hq
      have : q = s := by simpa using hq
      subst this
      exact hacc q hs
    · show 0 + [s].length ≤ maxSections
      simp [maxSections]
  have htail : secs.flatMap
      (fun o => (normalizeTop rendererKeys [o]).flatMap addSectionTypes)
        = secs.filterMap typeOfSection := by
    rw [flatMap_congr_mem secs _ _ hsingle, flatMap_singleton_filterMap]
  refine ⟨?_, ?_, hrender⟩
  · unfold streamTypesSP
    rw [sp_emitted secs hobj, htail, hrender]
  · unfold streamTypesND
    rw [nd_emitted secs (fun s hs => by
      obtain ⟨kvs, rfl⟩ := hobj s hs
      exact ⟨kvs, rfl, hty kvs hs⟩), htail, hrender]

/-- C3 witness: the three pipelines agree on a concrete two-section page. -/
theorem streaming_equivalence_witness :
    (∀ s ∈ demoSecs, sectionAccepted rendererKeys s = true) ∧
    demoSecs.length ≤ maxSections ∧
    streamTypesSP (spChunks demoSecs) = renderTypes demoSecs ∧
    streamTypesND (ndChunks demoSecs) = renderTypes demoSecs ∧
    renderTypes demoSecs = demoSecs.filterMap typeOfSection := by
  have h := streaming_equivalence demoSecs (by decide) (by decide)
  exact ⟨by decide, by decide, h.1, h.2.1, h.2.2⟩

end AgentPages
